import Mathlib

/-!
# DoH forwarding core of the `https` plugin

A shallow embedding of `plugin/https/policy.go` and `plugin/https/proxy.go`:
the three selection policies, the health-tracked client (`metricDNSClient`)
and the load-balancing client (`lbDNSClient`), then of the address rewriting of
`plugin/rewrite/ip.go` and of `plugin/rewrite_ip` (pattern matching, hosts
data and the choice of the replacement address), followed by the properties
proved about them.

Conventions of the embedding.
* Go's `int` is taken to be 64 bits wide (amd64, arm64), so `int(x)` of a
  `uint32` value is that value; `uint32` arithmetic is written on `Nat` with an
  explicit `% 2 ^ 32`.
* A Go slice `[]int` is a `List Int`, a `[]byte` a `List UInt8`.
* Mutable objects are passed in and returned (explicit state passing).
* A run-time panic (index out of range) is an explicit outcome.
-/

namespace DoH

/-! ## policy.go -/

/-- State of the process-wide source of `math/rand`, seen as the stream of the
raw values it will hand out; `next 0` is the value of the next draw. -/
structure Rand where
  next : Nat → Nat

/-- `rand.Intn(k)` for `k > 0`: a value of `[0, k)` taken from the source, which
moves on by one draw. Every function with values in `[0, k)` arises this way. -/
def Rand.Intn (r : Rand) (k : Nat) : Nat × Rand :=
  (r.next 0 % k, { next := fun i => r.next (i + 1) })

/-- Loop of `rand.Perm` (Go standard library, `math/rand`):
`for i := 0; i < n; i++ { j := r.Intn(i + 1); m[i] = m[j]; m[j] = i }`.
The first argument counts the iterations still to run. -/
def Rand.permLoop : Nat → Nat → Rand → List Int → List Int × Rand
  | 0, _, r, m => (m, r)
  | k + 1, i, r, m =>
    let j := (r.Intn (i + 1)).1
    let r1 := (r.Intn (i + 1)).2
    let m1 := m.set i (m.getD j 0)
    let m2 := m1.set j (i : Int)
    Rand.permLoop k (i + 1) r1 m2

/-- `rand.Perm(n)`: `m := make([]int, n)` followed by the loop above. -/
def Rand.Perm (r : Rand) (n : Nat) : List Int × Rand :=
  Rand.permLoop n 0 r (List.replicate n 0)

/-- `randomPolicy` is an empty struct in the source; the field stands for the
state of the global random source that `rand.Perm` draws from. -/
structure randomPolicy where
  src : Rand

/-- `roundRobinPolicy`: the rotating cursor `robin uint32`. -/
structure roundRobinPolicy where
  robin : Nat
  deriving DecidableEq, Repr

/-- `sequentialPolicy` is an empty struct. -/
structure sequentialPolicy where
  deriving DecidableEq, Repr

/-- `newRoundRobinPolicy`: the zero value of the struct. -/
def newRoundRobinPolicy : roundRobinPolicy := { robin := 0 }

/-- `newSequentialPolicy`. -/
def newSequentialPolicy : sequentialPolicy := {}

/-- `newRandomPolicy`, on a given state of the global random source. -/
def newRandomPolicy (src : Rand) : randomPolicy := { src := src }

/-- `(*randomPolicy).List`. -/
def randomPolicy.List (p : randomPolicy) (poolLen : Int) : List Int × randomPolicy :=
  if poolLen ≤ 0 then ([], p)
  else ((p.src.Perm poolLen.toNat).1, { src := (p.src.Perm poolLen.toNat).2 })

/-- `atomic.AddUint32(addr, delta)`: the new value, wrapped to 32 bits. -/
def AddUint32 (old delta : Nat) : Nat := (old + delta) % 2 ^ 32

/-- The loop `for ; j < hi; j++ { result = append(result, j) }`; the first
argument counts the iterations still to run, `(hi - j).toNat` at the start. -/
def appendLoop : Nat → Int → List Int → List Int
  | 0, _, result => result
  | k + 1, j, result => appendLoop k (j + 1) (result ++ [j])

/-- `(*roundRobinPolicy).List`. Go's `%` on `int` truncates towards zero:
`Int.tmod`. -/
def roundRobinPolicy.List (p : roundRobinPolicy) (poolLen : Int) :
    List Int × roundRobinPolicy :=
  if poolLen ≤ 0 then ([], p)
  else
    let robin := AddUint32 p.robin 1
    let i : Int := Int.tmod (robin : Int) poolLen
    let result := appendLoop (poolLen - i).toNat i []
    let result := appendLoop (i - 0).toNat 0 result
    (result, { robin := robin })

/-- The loop `for ; i < poolLen; i++ { result[i] = i }`; the first argument
counts the iterations still to run. -/
def fillLoop : Nat → Nat → List Int → List Int
  | 0, _, result => result
  | k + 1, i, result => fillLoop k (i + 1) (result.set i (i : Int))

/-- `(*sequentialPolicy).List`. -/
def sequentialPolicy.List (p : sequentialPolicy) (poolLen : Int) :
    List Int × sequentialPolicy :=
  if poolLen ≤ 0 then ([], p)
  else (fillLoop poolLen.toNat 0 (List.replicate poolLen.toNat 0), p)

/-- The `policy` interface, closed over its three implementations. -/
inductive policy where
  | random (p : randomPolicy)
  | roundRobin (p : roundRobinPolicy)
  | sequential (p : sequentialPolicy)

/-- `policy.List`: dynamic dispatch on the implementation. The second component
is the policy object after the call. -/
def policy.List : policy → Int → List Int × policy
  | .random p, poolLen => ((p.List poolLen).1, .random (p.List poolLen).2)
  | .roundRobin p, poolLen => ((p.List poolLen).1, .roundRobin (p.List poolLen).2)
  | .sequential p, poolLen => ((p.List poolLen).1, .sequential (p.List poolLen).2)

/-- The integers `0, 1, ..., n - 1` as Go `int` values. -/
def indices (n : Nat) : List Int := (List.range n).map Int.ofNat

/-! ## proxy.go -/

/-- `dns.Msg` of the DNS library, as far as this code reads it: the response
code, and the remainder of the message kept as bytes. -/
structure Msg where
  Rcode : Int
  rest : List UInt8
  deriving DecidableEq, Repr

/-- A Go `error` value: the two package-level errors of `proxy.go`, or any
other error, told apart by its text. -/
inductive Error where
  | errResponseTooLarge
  | errResponseStatus
  | other (text : String)
  deriving DecidableEq, Repr

/-- `context.Context`: whether the context is cancelled or past its deadline,
and the timeouts that `context.WithTimeout` has put on it, innermost first. -/
structure Context where
  done : Bool
  timeouts : List Int
  deriving DecidableEq, Repr

/-- `context.Background()`. -/
def Background : Context := { done := false, timeouts := [] }

/-- `context.WithTimeout(ctx, timeout)`: the child is done whenever its parent
is, and carries one more timeout. -/
def WithTimeout (ctx : Context) (timeout : Int) : Context :=
  { ctx with timeouts := timeout :: ctx.timeouts }

/-- What a wrapped `dnsClient.Query` returns, the Go pair `(result, err)`. A nil
error comes with a message, as in `dohDNSClient.Query` (`r = new(dns.Msg)`);
`metricDNSClient.Query` reads `r.Rcode` on that path without a nil check. With a
non-nil error the message may be nil or not (`mockDNSClient` returns both). -/
inductive Reply where
  | ok (r : Msg)
  | failed (r : Option Msg) (err : Error)
  deriving DecidableEq, Repr

/-- First component of the pair, `result *dns.Msg`. -/
def Reply.r : Reply → Option Msg
  | .ok r => some r
  | .failed r _ => r

/-- Second component of the pair, `err error`. -/
def Reply.err : Reply → Option Error
  | .ok _ => none
  | .failed _ err => some err

/-- The `dnsClient` that a `metricDNSClient` wraps: an interface value in the
source (`dohDNSClient`, or `mockDNSClient` in the tests). It is given by the
number of calls it has received so far (as `mockDNSClient.callCount`) and by the
reply it gives to its call number `n`; the replies of any implementation over
a run have this form. -/
structure dnsClient where
  callCount : Nat
  answer : Nat → Context → List UInt8 → Reply

/-- `dnsClient.Query`, for the wrapped client. -/
def dnsClient.Query (c : dnsClient) (ctx : Context) (dnsreq : List UInt8) : Reply × dnsClient :=
  (c.answer c.callCount ctx dnsreq, { c with callCount := c.callCount + 1 })

/-- What the code does that an observer can see, in the order it happens: the
call of `c.clients[clientID].Query` made by `lbDNSClient.query`, and the updates
of the four collectors of `metrics.go` (with the values of their labels, `label`
for the label "to"; the duration
observed, a wall-clock reading, is not recorded). -/
inductive Event where
  | upstream (clientID : Int)
  | RequestCount (label : String)
  | RcodeCount (rcode : String) (label : String)
  | RequestDuration (label : String)
  | HealthcheckBrokenCount
  deriving DecidableEq, Repr

/-- `metricDNSClient`; `fails` is a `uint32`. -/
structure metricDNSClient where
  fails : Nat
  client : dnsClient
  addr : String

/-- `newMetricDNSClient`. -/
def newMetricDNSClient (client : dnsClient) (addr : String) : metricDNSClient :=
  { fails := 0, client := client, addr := addr }

/-- `(*metricDNSClient).incrementFails`, run without interference: `curVal + 1`
is computed in `uint32`. -/
def metricDNSClient.incrementFails (c : metricDNSClient) : metricDNSClient :=
  let curVal := c.fails
  if curVal > (curVal + 1) % 2 ^ 32 then c
  else { c with fails := AddUint32 c.fails 1 }

/-- `(*metricDNSClient).Down`. -/
def metricDNSClient.Down (c : metricDNSClient) (maxfails : Nat) : Bool :=
  if maxfails = 0 then false
  else
    let fails := c.fails
    decide (fails > maxfails)

/-- `(*metricDNSClient).Fails`. -/
def metricDNSClient.Fails (c : metricDNSClient) : Nat := c.fails

/-- `(*metricDNSClient).Query`. `RcodeToString` is the table `dns.RcodeToString`
of the DNS library, `toString` on `Int` is `strconv.Itoa`. The result is the pair
returned, the client after the call and the events so far. -/
def metricDNSClient.Query (RcodeToString : Int → Option String) (c : metricDNSClient)
    (events : List Event) (ctx : Context) (dnsreq : List UInt8) :
    Reply × metricDNSClient × List Event :=
  let c1 : metricDNSClient := { c with client := (c.client.Query ctx dnsreq).2 }
  match (c.client.Query ctx dnsreq).1 with
  | .failed r err => (.failed r err, c1.incrementFails, events)
  | .ok r =>
    let c2 : metricDNSClient := { c1 with fails := 0 }
    let rc := match RcodeToString r.Rcode with
      | some s => s
      | none => toString r.Rcode
    (.ok r, c2,
      events ++ [.RequestCount c.addr, .RcodeCount rc c.addr, .RequestDuration c.addr])

/-- `lbDNSClient`; `timeout` is a `time.Duration` in nanoseconds, `maxFails` a
`uint32`. -/
structure lbDNSClient where
  p : policy
  timeout : Int
  maxFails : Nat
  clients : List metricDNSClient

/-- `defaultRequestTimeout = 2 * time.Second`. -/
def defaultRequestTimeout : Int := 2 * 1000000000

/-- `lbDNSClientOption`. -/
abbrev lbDNSClientOption := lbDNSClient → lbDNSClient

/-- `withLbPolicy`. -/
def withLbPolicy (p : policy) : lbDNSClientOption := fun c => { c with p := p }

/-- `withLbRequestTimeout`. -/
def withLbRequestTimeout (timeout : Int) : lbDNSClientOption :=
  fun c => { c with timeout := timeout }

/-- `withLbMaxFails`. -/
def withLbMaxFails (maxFails : Nat) : lbDNSClientOption :=
  fun c => { c with maxFails := maxFails }

/-- `newLoadBalanceDNSClient`; `src` is the state of the random source that
the default policy, `newRandomPolicy()`, draws from. -/
def newLoadBalanceDNSClient (src : Rand) (clients : List metricDNSClient)
    (opts : List lbDNSClientOption) : lbDNSClient :=
  opts.foldl (fun c o => o c)
    { p := .random (newRandomPolicy src), maxFails := 2, timeout := defaultRequestTimeout,
      clients := clients }

/-- How a call ends: it returns the pair `(r, err)`, or it panics. -/
inductive Outcome where
  | returned (r : Option Msg) (err : Option Error)
  | panicked
  deriving DecidableEq, Repr

/-- The slice index expression `clients[idx]`: `none` is the run-time panic
"index out of range". -/
def index (clients : List metricDNSClient) (idx : Int) : Option metricDNSClient :=
  if idx < 0 then none else clients[idx.toNat]?

/-- `(*lbDNSClient).query`. -/
def lbDNSClient.query (RcodeToString : Int → Option String) (c : lbDNSClient)
    (events : List Event) (ctx : Context) (dnsreq : List UInt8) (clientID : Int) :
    Outcome × lbDNSClient × List Event :=
  let ctx1 := WithTimeout ctx c.timeout
  match index c.clients clientID with
  | none => (.panicked, c, events)
  | some client =>
    let res := client.Query RcodeToString (events ++ [.upstream clientID]) ctx1 dnsreq
    (.returned res.1.r res.1.err,
      { c with clients := c.clients.set clientID.toNat res.2.1 }, res.2.2)

/-- The named results and local variables of `lbDNSClient.Query`. -/
structure Locals where
  r : Option Msg
  err : Option Error
  attempts : Int
  allDown : Bool
  deriving DecidableEq, Repr

/-- How the `for` statement of `lbDNSClient.Query` is left: it runs to its end,
the function returns from inside it, or an index expression panics. -/
inductive Flow where
  | fallThrough
  | returned
  | panicked
  deriving DecidableEq, Repr

/-- The statement `for _, idx := range ids { ... }` of `lbDNSClient.Query`, by
recursion on the part of `ids` still to visit. -/
def lbDNSClient.rangeLoop (RcodeToString : Int → Option String) (ctx : Context)
    (dnsreq : List UInt8) :
    List Int → lbDNSClient → List Event → Locals → Flow × Locals × lbDNSClient × List Event
  | [], c, events, v => (.fallThrough, v, c, events)
  | idx :: ids, c, events, v =>
    match index c.clients idx with
    | none => (.panicked, v, c, events)
    | some client =>
      if client.Down c.maxFails then
        lbDNSClient.rangeLoop RcodeToString ctx dnsreq ids c events v
      else
        let v1 : Locals := { v with allDown := false, attempts := v.attempts + 1 }
        match c.query RcodeToString events ctx dnsreq idx with
        | (.panicked, c1, events1) => (.panicked, v1, c1, events1)
        | (.returned r err, c1, events1) =>
          let v2 : Locals := { v1 with r := r, err := err }
          if err.isNone then (.returned, v2, c1, events1)
          else lbDNSClient.rangeLoop RcodeToString ctx dnsreq ids c1 events1 v2

/-- The body of `lbDNSClient.Query` after its first statement, for the order
`ids`. -/
def lbDNSClient.QueryWith (RcodeToString : Int → Option String) (c : lbDNSClient)
    (events : List Event) (ctx : Context) (dnsreq : List UInt8) (ids : List Int) :
    Outcome × lbDNSClient × List Event :=
  match lbDNSClient.rangeLoop RcodeToString ctx dnsreq ids c events
      { r := none, err := none, attempts := 0, allDown := true } with
  | (.panicked, _, c1, events1) => (.panicked, c1, events1)
  | (.returned, v, c1, events1) => (.returned v.r v.err, c1, events1)
  | (.fallThrough, v, c1, events1) =>
    if v.allDown then
      let events2 := events1 ++ [Event.HealthcheckBrokenCount]
      if c1.clients.length > 0 then
        match ids with
        | [] => (.panicked, c1, events2)
        | id0 :: _ => c1.query RcodeToString events2 ctx dnsreq id0
      else (.returned v.r v.err, c1, events2)
    else (.returned v.r v.err, c1, events1)

/-- `(*lbDNSClient).Query`: `ids := c.p.List(len(c.clients))`, then the body. The
result is the outcome, the client after the call (policy cursor and failure
counters updated) and the events so far. -/
def lbDNSClient.Query (RcodeToString : Int → Option String) (c : lbDNSClient)
    (events : List Event) (ctx : Context) (dnsreq : List UInt8) :
    Outcome × lbDNSClient × List Event :=
  let ids := (c.p.List (c.clients.length : Int)).1
  let c0 : lbDNSClient := { c with p := (c.p.List (c.clients.length : Int)).2 }
  c0.QueryWith RcodeToString events ctx dnsreq ids

/-! ## proxy.go: the wire client -/

/-- `dnsMessageMimeType`. -/
def dnsMessageMimeType : String := "application/dns-message"

/-- `dnsMessageMimeTypeHeader`. -/
def dnsMessageMimeTypeHeader : List String := [dnsMessageMimeType]

/-- `maxDNSMessageSize`. -/
def maxDNSMessageSize : Nat := 1472

/-- `http.Header`, a map from header names to value lists, as an association
list with one entry per name. -/
abbrev Header := List (String × List String)

/-- The map assignment `h[key] = value`. -/
def Header.set (h : Header) (key : String) (value : List String) : Header :=
  (key, value) :: h.filter (fun kv => kv.1 != key)

/-- The map lookup `h[key]`. -/
def Header.get (h : Header) (key : String) : Option (List String) :=
  (h.find? (fun kv => kv.1 == key)).map (fun kv => kv.2)

/-- `http.Request`, as far as this code builds it: context, method, URL, headers
and the bytes of the body reader. -/
structure Request where
  ctx : Context
  Method : String
  URL : String
  Header : Header
  Body : List UInt8
  deriving DecidableEq, Repr

/-- `resp.Body`, an `io.ReadCloser`: the bytes that reading it delivers, what ends
the reading after the last of them, `none` for `io.EOF` or a read error, and
whether that end is reported by the `Read` that delivers the last byte (a `Read`
may return `n > 0` together with an error) or by a `Read` of its own, as
`bytes.Reader` and `errReader` of the tests do. -/
structure Body where
  data : List UInt8
  err : Option Error
  errWithLast : Bool
  deriving DecidableEq, Repr

/-- `http.Response`, as far as this code reads it. -/
structure Response where
  StatusCode : Int
  Body : Body
  deriving DecidableEq, Repr

/-- The `httpRequestDoer` of a `dohDNSClient`, an interface value in the source
(`http.Client`, or `mockHTTPClientFunc` in the tests): the number of calls it has
received and the Go pair `(resp, err)` it returns to its call number `n`. -/
structure httpRequestDoer where
  callCount : Nat
  respond : Nat → Request → Option Response × Option Error

/-- `httpRequestDoer.Do`. -/
def httpRequestDoer.Do (d : httpRequestDoer) (req : Request) :
    (Option Response × Option Error) × httpRequestDoer :=
  (d.respond d.callCount req, { d with callCount := d.callCount + 1 })

/-- `dohDNSClient`. -/
structure dohDNSClient where
  client : httpRequestDoer
  url : String

/-- `newDoHDNSClient`. -/
def newDoHDNSClient (client : httpRequestDoer) (url : String) : dohDNSClient :=
  { client := client, url := url }

/-- What `dohDNSClient.Query` does to its collaborators, in the order it happens:
the call of the doer with a request, the number of bytes it takes out of the
response body, the call of `Unpack` on the bytes read, and the deferred
`resp.Body.Close()`. -/
inductive WireEvent where
  | Do (req : Request)
  | Read (n : Nat)
  | Unpack (body : List UInt8)
  | Close
  deriving DecidableEq, Repr

/-- `io.ReadAll(io.LimitReader(body, limit))`. The limit reader passes on what each
`Read` of the body returns, bytes and error, until it has handed out `limit` bytes;
from then on it reports `io.EOF` itself, without reading further. `io.ReadAll`
stops at the first error and returns it, with `io.EOF` turned into nil. So a body
that ends before `limit` bytes is read to its end; a body of exactly `limit` bytes
whose last `Read` also reports its end is read to its end as well; in every other
case the first `limit` bytes are returned with a nil error. -/
def readAllLimited (b : Body) (limit : Nat) : List UInt8 × Option Error :=
  if b.data.length < limit then (b.data, b.err)
  else if b.data.length = limit ∧ b.errWithLast = true ∧ 0 < limit then (b.data, b.err)
  else (b.data.take limit, none)

/-- The request that `dohDNSClient.Query` builds when `http.NewRequestWithContext`
succeeds: method POST, the configured URL, the body `bytes.NewReader(dnsreq)`,
and the two header assignments. -/
def dohDNSClient.request (c : dohDNSClient) (ctx : Context) (dnsreq : List UInt8) : Request :=
  let req : Request :=
    { ctx := ctx, Method := "POST", URL := c.url, Header := [], Body := dnsreq }
  let req : Request :=
    { req with Header := req.Header.set "Accept" dnsMessageMimeTypeHeader }
  { req with Header := req.Header.set "Content-Type" dnsMessageMimeTypeHeader }

/-- `(*dohDNSClient).Query`. `newRequestError` is the error, if any, of
`http.NewRequestWithContext` for the URL (the method and the context are valid);
`Unpack` is `(*dns.Msg).Unpack` on a new message: the message after the call and
the error. A doer that returns `(nil, nil)` makes `resp.Body` a nil dereference.
The result is the outcome, the client after the call and its events. -/
def dohDNSClient.Query (newRequestError : String → Option Error)
    (Unpack : List UInt8 → Msg × Option Error) (c : dohDNSClient) (ctx : Context)
    (dnsreq : List UInt8) : Outcome × dohDNSClient × List WireEvent :=
  match newRequestError c.url with
  | some err => (.returned none (some err), c, [])
  | none =>
    let req := c.request ctx dnsreq
    let c1 : dohDNSClient := { c with client := (c.client.Do req).2 }
    match (c.client.Do req).1 with
    | (_, some err) => (.returned none (some err), c1, [.Do req])
    | (none, none) => (.panicked, c1, [.Do req])
    | (some resp, none) =>
      if resp.StatusCode < 200 ∨ resp.StatusCode ≥ 300 then
        (.returned none (some .errResponseStatus), c1, [.Do req, .Close])
      else
        let rd := readAllLimited resp.Body (maxDNSMessageSize + 1)
        match rd.2 with
        | some err => (.returned none (some err), c1, [.Do req, .Read rd.1.length, .Close])
        | none =>
          if rd.1.length > maxDNSMessageSize then
            (.returned none (some .errResponseTooLarge), c1,
              [.Do req, .Read rd.1.length, .Close])
          else
            (.returned (some (Unpack rd.1).1) (Unpack rd.1).2, c1,
              [.Do req, .Read rd.1.length, .Unpack rd.1, .Close])

/-! ## proxy.go: `incrementFails` under interleaving -/

/-- Where a goroutine stands in `incrementFails`: before the load, after the load
with its local `curVal`, or returned. -/
inductive IncPC where
  | start
  | loaded (curVal : Nat)
  | done
  deriving DecidableEq, Repr

/-- The counter `fails` of one upstream, shared by the goroutines that are
running `incrementFails` on it, each at its own point. -/
structure IncState where
  fails : Nat
  pcs : List IncPC
  deriving DecidableEq, Repr

/-- One atomic step of goroutine `i`: `atomic.LoadUint32(&c.fails)` into `curVal`,
or the guard on the local `curVal` followed by `atomic.AddUint32(&c.fails, 1)`.
A goroutine that has returned does nothing. -/
def IncState.step (s : IncState) (i : Nat) : IncState :=
  match s.pcs[i]? with
  | some .start => { s with pcs := s.pcs.set i (.loaded s.fails) }
  | some (.loaded curVal) =>
    if curVal > (curVal + 1) % 2 ^ 32 then { s with pcs := s.pcs.set i .done }
    else { fails := AddUint32 s.fails 1, pcs := s.pcs.set i .done }
  | _ => s

/-- The state after the steps of a schedule, a list of goroutine numbers. -/
def IncState.run (s : IncState) (schedule : List Nat) : IncState :=
  schedule.foldl IncState.step s

/-! ## rewrite/ip.go -/

/-- `net.IP`, a byte slice; a nil `net.IP` is `none` of `Option IP`. -/
abbrev IP := List UInt8

/-- `(net.IP).To4` of the Go standard library: a 4-byte address is returned as it
is, a 16-byte address with the IPv4-mapped prefix gives its last four bytes, every
other value gives nil. -/
def IP.To4 (ip : IP) : Option IP :=
  if ip.length = 4 then some ip
  else if ip.length = 16 ∧ (ip.take 10).all (fun b => b == 0) ∧ ip.getD 10 0 = 255 ∧
      ip.getD 11 0 = 255 then some (ip.drop 12)
  else none

/-- A Go map, as an association list with one entry per key. -/
abbrev GoMap (κ α : Type) := List (κ × α)

/-- The map assignment `m[key] = value`. -/
def GoMap.set {κ α : Type} [DecidableEq κ] (m : GoMap κ α) (key : κ) (value : α) : GoMap κ α :=
  (key, value) :: m.filter (fun kv => decide (kv.1 ≠ key))

/-- The map lookup `value, ok := m[key]`. -/
def GoMap.get {κ α : Type} [DecidableEq κ] (m : GoMap κ α) (key : κ) : Option α :=
  (m.find? (fun kv => decide (kv.1 = key))).map (fun kv => kv.2)

/-- `ipRewriterResponseRule`. -/
structure ipRewriterResponseRule where
  domainToIPv4 : GoMap String IP
  domainToIPv6 : GoMap String IP
  rewrittenName : String
  defaultIPv4 : Option IP
  defaultIPv6 : Option IP
  deriving DecidableEq, Repr

/-- `newIPRewriterResponseRule`. -/
def newIPRewriterResponseRule : ipRewriterResponseRule :=
  { domainToIPv4 := [], domainToIPv6 := [], rewrittenName := "", defaultIPv4 := none,
    defaultIPv6 := none }

/-- `(*ipRewriterResponseRule).addMapping`. `ParseIP` is `net.ParseIP`, `Normalize`
is `plugin.Name(domain).Normalize()`. The result is the error returned and the rule
after the call. -/
def ipRewriterResponseRule.addMapping (ParseIP : String → Option IP)
    (Normalize : String → String) (r : ipRewriterResponseRule) (ip domain : String) :
    Option Error × ipRewriterResponseRule :=
  match ParseIP ip with
  | none => (some (.other ("invalid IP address: " ++ ip)), r)
  | some parsedIP =>
    let normalizedDomain := Normalize domain
    if parsedIP.To4 ≠ none then
      (none, { r with domainToIPv4 := r.domainToIPv4.set normalizedDomain parsedIP })
    else
      (none, { r with domainToIPv6 := r.domainToIPv6.set normalizedDomain parsedIP })

/-- `dns.RR_Header`. -/
structure RR_Header where
  Name : String
  Rrtype : Nat
  Class : Nat
  Ttl : Nat
  Rdlength : Nat
  deriving DecidableEq, Repr

/-- `dns.RR`, by the Go type of the record: `*dns.A`, `*dns.AAAA`, or any other
record type with its data. The header carries `Rrtype` whatever the Go type is. -/
inductive RR where
  | A (Hdr : RR_Header) (A : IP)
  | AAAA (Hdr : RR_Header) (AAAA : IP)
  | other (Hdr : RR_Header) (rdata : List UInt8)
  deriving DecidableEq, Repr

/-- `rr.Header()`. -/
def RR.Header : RR → RR_Header
  | .A h _ => h
  | .AAAA h _ => h
  | .other h _ => h

/-- `dns.TypeA`. -/
def TypeA : Nat := 1

/-- `dns.TypeAAAA`. -/
def TypeAAAA : Nat := 28

/-- The statements `aRecord := rr.(*dns.A); aRecord.A = newIP`; `none` is the
panic of the type assertion on a record of another Go type. -/
def RR.setA (rr : RR) (newIP : IP) : Option RR :=
  match rr with
  | .A h _ => some (.A h newIP)
  | _ => none

/-- The statements `aaaaRecord := rr.(*dns.AAAA); aaaaRecord.AAAA = newIP`. -/
def RR.setAAAA (rr : RR) (newIP : IP) : Option RR :=
  match rr with
  | .AAAA h _ => some (.AAAA h newIP)
  | _ => none

/-- `(*ipRewriterResponseRule).RewriteResponse`: the record after the call, `none`
for a panic. The rule is only read, and the message `res` is not used. -/
def ipRewriterResponseRule.RewriteResponse (r : ipRewriterResponseRule) (rr : RR) :
    Option RR :=
  let domain := if r.rewrittenName = "" then rr.Header.Name else r.rewrittenName
  if rr.Header.Rrtype = TypeA then
    match r.domainToIPv4.get domain with
    | some newIP => rr.setA newIP
    | none =>
      match r.defaultIPv4 with
      | some d => rr.setA d
      | none => some rr
  else if rr.Header.Rrtype = TypeAAAA then
    match r.domainToIPv6.get domain with
    | some newIP => rr.setAAAA newIP
    | none =>
      match r.defaultIPv6 with
      | some d => rr.setAAAA d
      | none => some rr
  else some rr

/-- `(*ipRewriterResponseRule).Len`. -/
def ipRewriterResponseRule.Len (r : ipRewriterResponseRule) : Nat :=
  r.domainToIPv4.length + r.domainToIPv6.length

/-! ## rewrite_ip: strings

Go strings are taken as sequences of characters. The functions of the package
`strings` that the plugin calls are given on the character lists; the table of
`unicode.ToLower` is a parameter `lower`. -/

/-- `strings.HasPrefix`. -/
def HasPrefix (s pre : String) : Bool :=
  pre.data.isPrefixOf s.data

/-- `strings.HasSuffix`. -/
def HasSuffix (s suffix : String) : Bool :=
  suffix.data.isSuffixOf s.data

/-- `strings.TrimSuffix`: `s` without the trailing `suffix`, or `s` itself when it
does not end with `suffix`. -/
def TrimSuffix (s suffix : String) : String :=
  if HasSuffix s suffix then String.mk (s.data.take (s.data.length - suffix.data.length))
  else s

/-- `strings.ToLower`: every character mapped by `unicode.ToLower`. -/
def ToLower (lower : Char → Char) (s : String) : String :=
  String.mk (s.data.map lower)

/-- `unicode.IsSpace`: the characters with the Unicode property White_Space. -/
def IsSpace (c : Char) : Bool :=
  decide (c.toNat ∈ [0x09, 0x0A, 0x0B, 0x0C, 0x0D, 0x20, 0x85, 0xA0, 0x1680, 0x2028, 0x2029,
    0x202F, 0x205F, 0x3000]) || (decide (0x2000 ≤ c.toNat) && decide (c.toNat ≤ 0x200A))

/-- `strings.TrimSpace`: leading and trailing white space removed. -/
def TrimSpace (s : String) : String :=
  String.mk ((s.data.dropWhile IsSpace).reverse.dropWhile IsSpace).reverse

/-- The scan of `strings.Fields`: `cur` holds the characters of the field being
read, last one first. -/
def Fields.scan : List Char → List Char → List String
  | [], cur => if cur = [] then [] else [String.mk cur.reverse]
  | c :: cs, cur =>
    if IsSpace c then
      if cur = [] then Fields.scan cs [] else String.mk cur.reverse :: Fields.scan cs []
    else Fields.scan cs (c :: cur)

/-- `strings.Fields`: the maximal runs of characters that are not white space. -/
def Fields (s : String) : List String :=
  Fields.scan s.data []

/-! ## rewrite_ip/rewrite_ip.go: pattern matching

`filepath.Match` is a parameter `Match`; its error result is dropped by the code,
so it is a function to `Bool` here. -/

/-- `matchPattern`. -/
def matchPattern (lower : Char → Char) (Match : String → String → Bool)
    (domain pattern : String) : Bool :=
  let pattern := ToLower lower (TrimSuffix pattern ".")
  if domain = pattern then true
  else if HasPrefix pattern "*." then
    let suffix := String.mk (pattern.data.drop 1)
    if HasSuffix domain suffix then true
    else Match pattern domain
  else Match pattern domain

/-- The loop of `matchAny` over the patterns, `domain` already normalised. -/
def matchAny.loop (lower : Char → Char) (Match : String → String → Bool) (domain : String) :
    List String → Bool
  | [] => false
  | pattern :: rest =>
    if matchPattern lower Match domain pattern then true
    else matchAny.loop lower Match domain rest

/-- `matchAny`. -/
def matchAny (lower : Char → Char) (Match : String → String → Bool) (domain : String)
    (patterns : List String) : Bool :=
  let domain := ToLower lower (TrimSuffix domain ".")
  matchAny.loop lower Match domain patterns

/-! ## rewrite_ip/hosts.go

The file is given by what the calls of the operating system and of the scanner
yield: the error of `os.Open`, if any, the texts of the lines that `scanner.Scan`
delivers, and the value of `scanner.Err` after the loop. `net.ParseIP` is a
parameter, as in `rewrite/ip.go`. The mutex has no role in a sequential run. -/

/-- `HostEntry`. -/
structure HostEntry where
  IPv4 : List IP
  IPv6 : List IP
deriving DecidableEq, Repr

/-- `HostFile`. -/
structure HostFile where
  data : GoMap String HostEntry
deriving DecidableEq, Repr

/-- The body of the loop over the hostnames of a line in `Load`, after the
hostname has been lowercased: the entry of `hostname` is created empty if there is
none, and `ip` is appended to its list of the family of `ip`. -/
def HostFile.addHost (data : GoMap String HostEntry) (isIPv6 : Bool) (ip : IP)
    (hostname : String) : GoMap String HostEntry :=
  let data :=
    match data.get hostname with
    | some _ => data
    | none => data.set hostname { IPv4 := [], IPv6 := [] }
  let entry := (data.get hostname).getD { IPv4 := [], IPv6 := [] }
  if isIPv6 then data.set hostname { entry with IPv6 := entry.IPv6 ++ [ip] }
  else data.set hostname { entry with IPv4 := entry.IPv4 ++ [ip] }

/-- The body of the scanner loop of `Load` for one line of text. -/
def HostFile.loadLine (lower : Char → Char) (ParseIP : String → Option IP)
    (data : GoMap String HostEntry) (text : String) : GoMap String HostEntry :=
  let line := TrimSpace text
  if line = "" ∨ HasPrefix line "#" then data
  else
    let fields := Fields line
    if fields.length < 2 then data
    else
      match fields with
      | [] => data
      | first :: hostnames =>
        match ParseIP first with
        | none => data
        | some ip =>
          let isIPv6 := ip.To4.isNone
          hostnames.foldl
            (fun data hostname => HostFile.addHost data isIPv6 ip (ToLower lower hostname)) data

/-- `(*HostFile).Load`: the error returned and the host file after the call. When
the file cannot be opened the data is left as it was; otherwise it is rebuilt from
the lines scanned. -/
def HostFile.Load (lower : Char → Char) (ParseIP : String → Option IP) (hf : HostFile)
    (openErr : Option Error) (lines : List String) (scanErr : Option Error) :
    Option Error × HostFile :=
  match openErr with
  | some err => (some err, hf)
  | none => (scanErr, { data := lines.foldl (HostFile.loadLine lower ParseIP) [] })

/-- `(*HostFile).LookupIPv4`; a nil result is the empty list. -/
def HostFile.LookupIPv4 (lower : Char → Char) (hf : HostFile) (domain : String) : List IP :=
  let domain := ToLower lower (TrimSuffix domain ".")
  match hf.data.get domain with
  | some entry => entry.IPv4
  | none => []

/-- `(*HostFile).LookupIPv6`; a nil result is the empty list. -/
def HostFile.LookupIPv6 (lower : Char → Char) (hf : HostFile) (domain : String) : List IP :=
  let domain := ToLower lower (TrimSuffix domain ".")
  match hf.data.get domain with
  | some entry => entry.IPv6
  | none => []

/-! ## rewrite_ip/rewrite_ip.go: the replacement address

The `HostFile` pointer of a rule is not nil: `parseRewriteIP` rejects a rule
without hosts data. Of `ResponseRewriter` only the rules are kept; the embedded
`dns.ResponseWriter` plays no part in the lookup. -/

/-- `Rule`. -/
structure Rule where
  Patterns : List String
  MapTo : String
  HostFile : HostFile
deriving DecidableEq, Repr

/-- `ResponseRewriter`. -/
structure ResponseRewriter where
  rules : List Rule
deriving DecidableEq, Repr

/-- The loop of `findReplacementIPv4` over the rules; the result `none` is a nil
byte slice. -/
def ResponseRewriter.findReplacementIPv4.loop (lower : Char → Char)
    (Match : String → String → Bool) (recordName : String) : List Rule → Option IP
  | [] => none
  | rule :: rest =>
    if !matchAny lower Match recordName rule.Patterns then
      ResponseRewriter.findReplacementIPv4.loop lower Match recordName rest
    else
      let lookupDomain := if rule.MapTo ≠ "" then rule.MapTo else recordName
      let ips := rule.HostFile.LookupIPv4 lower lookupDomain
      match ips with
      | ip :: _ => ip.To4
      | [] => ResponseRewriter.findReplacementIPv4.loop lower Match recordName rest

/-- `(*ResponseRewriter).findReplacementIPv4`. -/
def ResponseRewriter.findReplacementIPv4 (lower : Char → Char)
    (Match : String → String → Bool) (rw : ResponseRewriter) (recordName : String) :
    Option IP :=
  ResponseRewriter.findReplacementIPv4.loop lower Match recordName rw.rules

/-! ## Vocabulary of the statements -/

/-- The upstream indices invoked, in the order of the calls, read off a list of
events. -/
def invoked : List Event → List Int
  | [] => []
  | .upstream clientID :: es => clientID :: invoked es
  | _ :: es => invoked es

/-- The reply that this upstream's wrapped client gives to its next call. -/
def metricDNSClient.nextReply (c : metricDNSClient) (ctx : Context) (dnsreq : List UInt8) :
    Reply :=
  c.client.answer c.client.callCount ctx dnsreq

/-- Upstream `idx` of the pool is down for the threshold of the load balancer
(`false` outside the pool). -/
def lbDNSClient.isDown (c : lbDNSClient) (idx : Int) : Bool :=
  match index c.clients idx with
  | some client => client.Down c.maxFails
  | none => false

/-- The reply that upstream `idx` gives to its next call when the load balancer
queries it for `ctx` and `dnsreq`, that is under the per-attempt timeout. -/
def lbDNSClient.nextReply (c : lbDNSClient) (ctx : Context) (dnsreq : List UInt8)
    (idx : Int) : Option Reply :=
  (index c.clients idx).map (fun client => client.nextReply (WithTimeout ctx c.timeout) dnsreq)

/-- The failure counts of the pool, in pool order. -/
def lbDNSClient.failCounts (c : lbDNSClient) : List Nat := c.clients.map (fun m => m.fails)

/-- The numbers of calls the wrapped clients of the pool have received, in pool
order. -/
def lbDNSClient.callCounts (c : lbDNSClient) : List Nat :=
  c.clients.map (fun m => m.client.callCount)

/-- The metrics events of one `metricDNSClient.Query` whose wrapped client gave
`reply`: three for a success, none for a failure. -/
def metricsOf (RcodeToString : Int → Option String) (addr : String) : Reply → List Event
  | .ok r =>
    [.RequestCount addr,
      .RcodeCount (match RcodeToString r.Rcode with
        | some s => s
        | none => toString r.Rcode) addr,
      .RequestDuration addr]
  | .failed _ _ => []

/-- The load balancer `c1` has the thresholds, timeout and pool size of `c`, and
the same upstream object as `c` at every index outside `S`. -/
def lbDNSClient.agreesOff (c c1 : lbDNSClient) (S : List Int) : Prop :=
  c1.maxFails = c.maxFails ∧ c1.timeout = c.timeout ∧
    c1.clients.length = c.clients.length ∧
    ∀ j : Int, j ∉ S → index c1.clients j = index c.clients j

/-- The local variables of `lbDNSClient.Query` after an attempt that got
`reply`. -/
def Locals.attempted (v : Locals) (reply : Reply) : Locals :=
  { r := reply.r, err := reply.err, attempts := v.attempts + 1, allDown := false }

/-- The upstream object after one `Query` whose wrapped client gave `reply`: the
wrapped client has received one more call, and the failure counter is reset by a
success and incremented (with the overflow guard) by a failure. -/
def metricDNSClient.served (c : metricDNSClient) : Reply → metricDNSClient
  | .ok _ =>
    { fails := 0, client := { c.client with callCount := c.client.callCount + 1 },
      addr := c.addr }
  | .failed _ _ =>
    metricDNSClient.incrementFails
      { c with client := { c.client with callCount := c.client.callCount + 1 } }

/-- The load balancer and the events after the queries `qs` (context and request
of each) made one after another. -/
def lbDNSClient.run (RcodeToString : Int → Option String) :
    lbDNSClient → List Event → List (Context × List UInt8) → lbDNSClient × List Event
  | c, events, [] => (c, events)
  | c, events, q :: qs =>
    lbDNSClient.run RcodeToString (c.Query RcodeToString events q.1 q.2).2.1
      (c.Query RcodeToString events q.1 q.2).2.2 qs

/-- The round-robin policy object after `j` calls of `List(poolLen)`. -/
def roundRobinPolicy.afterCalls (p : roundRobinPolicy) (poolLen : Int) : Nat → roundRobinPolicy
  | 0 => p
  | j + 1 => ((p.afterCalls poolLen j).List poolLen).2

/-- The load balancer with the sequential policy, threshold `k` and two
upstreams, after `n` queries in which the first upstream has failed whenever it was
asked and the second has answered: the first has failure count `min n (k + 1)`
and has been called as many times, the second has count 0 and has been called `n`
times. `a0`, `a1` are the replies of the wrapped clients, `cc0`, `cc1` the calls
they had received before. -/
def seqPair (t : Int) (k : Nat) (a0 a1 : Nat → Context → List UInt8 → Reply)
    (ad0 ad1 : String) (cc0 cc1 : Nat) (n : Nat) : lbDNSClient :=
  { p := .sequential newSequentialPolicy, timeout := t, maxFails := k,
    clients :=
      [{ fails := min n (k + 1),
         client := { callCount := cc0 + min n (k + 1), answer := a0 }, addr := ad0 },
        { fails := 0, client := { callCount := cc1 + n, answer := a1 }, addr := ad1 }] }

/-- The requests handed to the doer, in order, read off a list of events. -/
def doCalls : List WireEvent → List Request
  | [] => []
  | .Do req :: es => req :: doCalls es
  | _ :: es => doCalls es

/-- The host data lists `ip` under the key `key`, among the IPv6 addresses when
`v6` holds and among the IPv4 addresses otherwise. -/
def HostFile.listed (data : GoMap String HostEntry) (v6 : Bool) (key : String) (ip : IP) :
    Prop :=
  ip ∈ (match data.get key with
    | some entry => if v6 then entry.IPv6 else entry.IPv4
    | none => [])

/-- Every address that the host data lists as IPv4 has a 4-byte form. -/
def HostFile.ipv4Only (data : GoMap String HostEntry) : Prop :=
  ∀ key entry, data.get key = some entry → ∀ ip ∈ entry.IPv4, ip.To4 ≠ none

/-- The name a rule looks up in its hosts data for the record name `name`: `MapTo`
when it is not empty, else `name`. -/
def Rule.lookupName (rule : Rule) (name : String) : String :=
  if rule.MapTo ≠ "" then rule.MapTo else name

/-- The rule qualifies for `name`: its patterns match `name` and its hosts data
has at least one IPv4 address for its lookup name. -/
def Rule.qualifies (lower : Char → Char) (Match : String → String → Bool) (rule : Rule)
    (name : String) : Bool :=
  matchAny lower Match name rule.Patterns &&
    decide (0 < (rule.HostFile.LookupIPv4 lower (rule.lookupName name)).length)

/-! ## Fixtures of `proxy_test.go` -/

/-- A response message with response code 0, standing for `newExpectedDNSMsg()`. -/
def expectedDNSMsg : Msg := { Rcode := 0, rest := [] }

/-- `mockDNSClient` of `proxy_test.go` with its field `err`: every call returns
`(newExpectedDNSMsg(), c.err)`. -/
def mockDNSClient (err : Option Error) : dnsClient :=
  { callCount := 0
    answer := fun _ _ _ =>
      match err with
      | none => .ok expectedDNSMsg
      | some e => .failed (some expectedDNSMsg) e }

/-- The entry of `dns.RcodeToString` for response code 0, enough for the
fixtures. -/
def rcodeNames (rcode : Int) : Option String :=
  if rcode = 0 then some "NOERROR" else none

/-- The request body `[]byte("abc")` of the tests. -/
def abc : List UInt8 := [97, 98, 99]

/-- The error `errors.New("client error")` of the tests. -/
def clientError : Error := .other "client error"

/-- The load balancer of `TestLoadBalanceDNSClientRetry`: the first upstream
always fails, the second always succeeds, sequential policy. -/
def lbRetry : lbDNSClient :=
  newLoadBalanceDNSClient { next := fun _ => 0 }
    [newMetricDNSClient (mockDNSClient (some clientError)) "test-addr1",
      newMetricDNSClient (mockDNSClient none) "test-addr2"]
    [withLbPolicy (.sequential newSequentialPolicy)]

/-- Two upstreams that always fail, with different errors, sequential policy. -/
def lbBothFail : lbDNSClient :=
  newLoadBalanceDNSClient { next := fun _ => 0 }
    [newMetricDNSClient (mockDNSClient (some clientError)) "test-addr1",
      newMetricDNSClient (mockDNSClient (some (.other "context canceled"))) "test-addr2"]
    [withLbPolicy (.sequential newSequentialPolicy)]

/-- Two upstreams whose failure count 3 exceeds the threshold 2, round-robin
policy: the first would fail, the second would succeed. -/
def lbAllDown : lbDNSClient :=
  newLoadBalanceDNSClient { next := fun _ => 0 }
    [{ fails := 3, client := mockDNSClient (some clientError), addr := "test-addr1" },
      { fails := 3, client := mockDNSClient none, addr := "test-addr2" }]
    [withLbPolicy (.roundRobin newRoundRobinPolicy)]

/-- Three upstreams, the first one down (count 3 over threshold 2), the second
failing, the third succeeding, sequential policy. -/
def lbOneDown : lbDNSClient :=
  newLoadBalanceDNSClient { next := fun _ => 0 }
    [{ fails := 3, client := mockDNSClient none, addr := "test-addr1" },
      newMetricDNSClient (mockDNSClient (some clientError)) "test-addr2",
      newMetricDNSClient (mockDNSClient none) "test-addr3"]
    [withLbPolicy (.sequential newSequentialPolicy)]

/-- An upstream whose failure count has reached the largest `uint32` value and
whose wrapped client fails. -/
def saturatedClient : metricDNSClient :=
  { fails := 2 ^ 32 - 1, client := mockDNSClient (some clientError), addr := "test-addr" }

/-- An upstream with failure count 3 whose wrapped client answers. -/
def recoveringClient : metricDNSClient :=
  { fails := 3, client := mockDNSClient none, addr := "test-addr" }

/-- The load balancer of `TestLoadBalanceDNSClientPolicy`: two upstreams that
always succeed, fresh round-robin policy. -/
def lbRoundRobin : lbDNSClient :=
  newLoadBalanceDNSClient { next := fun _ => 0 }
    [newMetricDNSClient (mockDNSClient none) "test-addr1",
      newMetricDNSClient (mockDNSClient none) "test-addr2"]
    [withLbPolicy (.roundRobin newRoundRobinPolicy)]

/-- The load balancer of `TestLoadBalanceDNSClientMaxFails`: sequential policy,
threshold 2, the first upstream always fails, the second always succeeds. -/
def lbMaxFails : lbDNSClient :=
  newLoadBalanceDNSClient { next := fun _ => 0 }
    [newMetricDNSClient (mockDNSClient (some clientError)) "test-addr1",
      newMetricDNSClient (mockDNSClient none) "test-addr2"]
    [withLbPolicy (.sequential newSequentialPolicy), withLbMaxFails 2]

/-- `upstreamURL` of the tests. -/
def upstreamURL : String := "https://example.com/dns-query"

/-- A stand-in for the URL check of `http.NewRequestWithContext`: a URL with a
tab or a newline is rejected, as in `TestDNSClientNewRequestError`. -/
def urlError (url : String) : Option Error :=
  if url.data.any (fun ch => ch.toNat == 9 || ch.toNat == 10) then
    some (.other "invalid URL")
  else none

/-- A stand-in for `(*dns.Msg).Unpack` that reads the header only: a message needs
the 12 bytes of the DNS header, whose fourth byte carries the response code in its
low four bits. It gives the result of `Unpack` on the bodies the fixtures hand to
it: the well-formed `packedMsg`, and bodies shorter than a header. -/
def unpackHeader (body : List UInt8) : Msg × Option Error :=
  if body.length < 12 then ({ Rcode := 0, rest := [] }, some (.other "dns: overflow unpacking"))
  else ({ Rcode := ((body.getD 3 0).toNat % 16 : Nat), rest := body.drop 12 }, none)

/-- The wire form of `newExpectedDNSMsg()`, that is `packMsg(t, newExpectedDNSMsg())`
without name compression: the header (id 0, response flag, one question, one
answer), the question `example.com. IN A` and the answer `example.com. 30 IN A
1.1.1.1`; 56 bytes. -/
def packedMsg : List UInt8 :=
  [0, 0, 128, 0, 0, 1, 0, 1, 0, 0, 0, 0,
    7, 101, 120, 97, 109, 112, 108, 101, 3, 99, 111, 109, 0, 0, 1, 0, 1,
    7, 101, 120, 97, 109, 112, 108, 101, 3, 99, 111, 109, 0, 0, 1, 0, 1, 0, 0, 0, 30, 0, 4,
    1, 1, 1, 1]

/-- The doer of `TestDNSClientHttpStatusError`: status 500 with a well-formed
message as body. -/
def doerStatus500 : httpRequestDoer :=
  { callCount := 0
    respond := fun _ _ =>
      (some { StatusCode := 500,
              Body := { data := packedMsg, err := none, errWithLast := false } }, none) }

/-- The doer of `TestDNSClientLargeResponseError`: status 200 and a body made of
a well-formed message followed by 1472 bytes `a`. -/
def doerLarge : httpRequestDoer :=
  { callCount := 0
    respond := fun _ _ =>
      (some { StatusCode := 200,
              Body := { data := packedMsg ++ List.replicate 1472 97, err := none,
                        errWithLast := false } }, none) }

/-- The doer of `TestDNSClient`: status 200 and a well-formed message. -/
def doerOK : httpRequestDoer :=
  { callCount := 0
    respond := fun _ _ =>
      (some { StatusCode := 200,
              Body := { data := packedMsg, err := none, errWithLast := false } }, none) }

/-- The doer of `TestDNSClientHttpClientError`: the error "http error" together
with a response of status 200 and a well-formed message. -/
def doerError : httpRequestDoer :=
  { callCount := 0
    respond := fun _ _ =>
      (some { StatusCode := 200,
              Body := { data := packedMsg, err := none, errWithLast := false } },
        some (.other "http error")) }

/-- The doer of `TestDNSClientResponseReadError`: status 200 and a body that ends
with the error "io error" after the bytes of the message. -/
def doerReadError : httpRequestDoer :=
  { callCount := 0
    respond := fun _ _ =>
      (some { StatusCode := 200,
              Body := { data := packedMsg, err := some (.other "io error"),
                        errWithLast := false } }, none) }

/-- A doer whose response has status 200 and a body of exactly 1473 bytes, the
last `Read` of which reports the error "io error" together with the last byte. -/
def doerErrorAtLimit : httpRequestDoer :=
  { callCount := 0
    respond := fun _ _ =>
      (some { StatusCode := 200,
              Body := { data := packedMsg ++ List.replicate 1417 97,
                        err := some (.other "io error"), errWithLast := true } }, none) }

/-- The same body with the error reported by a `Read` of its own, as `errReader` of
the tests does. -/
def doerErrorAfterLimit : httpRequestDoer :=
  { callCount := 0
    respond := fun _ _ =>
      (some { StatusCode := 200,
              Body := { data := packedMsg ++ List.replicate 1417 97,
                        err := some (.other "io error"), errWithLast := false } }, none) }

/-! ## Fixtures of `ip_test.go` -/

/-- The values of `net.ParseIP` on the address texts of the tests: the 16-byte
forms of 10.0.0.1, 192.168.1.1, 2001:db8:1::1 and 2001:db8::1; no other text is
taken as valid here. -/
def parseIPSample (text : String) : Option IP :=
  if text = "10.0.0.1" then some [0, 0, 0, 0, 0, 0, 0, 0, 0, 0, 255, 255, 10, 0, 0, 1]
  else if text = "192.168.1.1" then
    some [0, 0, 0, 0, 0, 0, 0, 0, 0, 0, 255, 255, 192, 168, 1, 1]
  else if text = "2001:db8:1::1" then
    some [32, 1, 13, 184, 0, 1, 0, 0, 0, 0, 0, 0, 0, 0, 0, 1]
  else if text = "2001:db8::1" then
    some [32, 1, 13, 184, 0, 0, 0, 0, 0, 0, 0, 0, 0, 0, 0, 1]
  else none

/-- A stand-in for `plugin.Name.Normalize`, which lowercases a name and makes it
fully qualified: ASCII letters are lowercased and a dot is appended unless the
name ends with one. -/
def normalizeName (name : String) : String :=
  let lowered : List Char := name.data.map Char.toLower
  if lowered.getLast? = some (Char.ofNat 46) then String.mk lowered
  else String.mk (lowered ++ [Char.ofNat 46])

/-! ## Fixtures of `rewrite_ip` -/

/-- The values of `filepath.Match` for the pattern `*`, which matches every name
without a path separator; no other pattern is used with it here. -/
def matchStar (pattern name : String) : Bool :=
  decide (pattern = "*") && !name.data.contains (Char.ofNat 47)

/-- A hosts file with one line that writes the hostname with a trailing dot. -/
def hostsWithDot : HostFile :=
  (HostFile.Load Char.toLower parseIPSample { data := [] } none ["10.0.0.1 example.com."]
    none).2

/-- A hosts file with a comment, an IPv4 line with two hostnames and an IPv6
line. -/
def hostsSample : HostFile :=
  (HostFile.Load Char.toLower parseIPSample { data := [] } none
    ["# local names", "10.0.0.1  Example.com www.example.com", "",
      "2001:db8::1 example.com"] none).2

/-- Three upstreams whose wrapped clients all answer, sequential policy, threshold
2; the second upstream is down with failure count 3. -/
def lbSecondDown : lbDNSClient :=
  newLoadBalanceDNSClient { next := fun _ => 0 }
    [newMetricDNSClient (mockDNSClient none) "test-addr1",
      { fails := 3, client := mockDNSClient none, addr := "test-addr2" },
      newMetricDNSClient (mockDNSClient (some clientError)) "test-addr3"]
    [withLbPolicy (.sequential newSequentialPolicy)]

/-- Three rules over `hostsSample`: the first does not match names under
`example.com`, the second matches them but maps to a name without hosts entry, the
third matches them and looks the record name up. -/
def rewriterSample : ResponseRewriter :=
  { rules :=
      [{ Patterns := ["*.example.org"], MapTo := "example.com", HostFile := hostsSample },
        { Patterns := ["*.example.com"], MapTo := "missing.example.com",
          HostFile := hostsSample },
        { Patterns := ["example.com", "*.example.com"], MapTo := "",
          HostFile := hostsSample }] }

/-- A load balancer without upstreams, default options. -/
def lbEmpty : lbDNSClient := newLoadBalanceDNSClient { next := fun _ => 0 } [] []

/-- A context that is already cancelled. -/
def cancelled : Context := { done := true, timeouts := [] }

/-! ## Properties of the policies -/

theorem indices_succ (n : Nat) : indices (n + 1) = indices n ++ [(n : Int)] := by
  simp [indices, List.range_succ]

theorem indices_length (n : Nat) : (indices n).length = n := by
  simp [indices]

theorem indices_nodup (n : Nat) : (indices n).Nodup := by
  unfold indices
  exact (List.nodup_range n).map (fun a b h => Int.ofNat.inj h)

theorem mem_indices {n : Nat} {k : Int} : k ∈ indices n ↔ 0 ≤ k ∧ k < n := by
  unfold indices
  constructor
  · intro h
    obtain ⟨a, ha, rfl⟩ := List.mem_map.1 h
    have := List.mem_range.1 ha
    constructor
    · exact Int.ofNat_nonneg a
    · exact Int.ofNat_lt.2 this
  · rintro ⟨h0, h1⟩
    refine List.mem_map.2 ⟨k.toNat, List.mem_range.2 ?_, ?_⟩
    · omega
    · simp [Int.toNat_of_nonneg h0]

theorem appendLoop_eq (k : Nat) (j : Int) (result : List Int) :
    appendLoop k j result = result ++ (List.range k).map (fun (t : Nat) => j + (t : Int)) := by
  induction k generalizing j result with
  | zero => simp [appendLoop]
  | succ k ih =>
    rw [appendLoop, ih, List.range_succ_eq_map]
    simp only [List.append_assoc, List.singleton_append, List.map_cons, List.map_map,
      Nat.cast_zero, Int.add_zero]
    congr 2
    apply List.map_congr_left
    intro a _
    simp only [Function.comp_apply, Nat.succ_eq_add_one, Nat.cast_add, Nat.cast_one]
    omega

theorem fillLoop_length (k i : Nat) (m : List Int) : (fillLoop k i m).length = m.length := by
  induction k generalizing i m with
  | zero => simp [fillLoop]
  | succ k ih => rw [fillLoop, ih, List.length_set]

theorem fillLoop_take (k i : Nat) (m : List Int) (hlen : m.length = i + k)
    (htake : m.take i = indices i) : fillLoop k i m = indices (i + k) := by
  induction k generalizing i m with
  | zero =>
    rw [fillLoop, Nat.add_zero, ← htake, List.take_of_length_le (by omega)]
  | succ k ih =>
    rw [fillLoop, ih (i + 1) (m.set i (i : Int)) (by rw [List.length_set]; omega)]
    · rw [Nat.add_assoc, Nat.add_comm 1 k]
    · rw [List.take_succ, List.set_take, htake,
        List.getElem?_set_self (by omega), indices_succ,
        List.set_eq_of_length_le (by rw [indices_length])]
      rfl

theorem sequentialPolicy_List_eq (p : sequentialPolicy) (n : Nat) :
    (p.List n).1 = indices n := by
  unfold sequentialPolicy.List
  by_cases h : (n : Int) ≤ 0
  · have : n = 0 := by omega
    subst this
    simp [indices]
  · rw [if_neg h]
    simp only [Int.toNat_ofNat]
    have := fillLoop_take n 0 (List.replicate n 0) (by simp) (by simp [indices])
    simpa using this

theorem roundRobinPolicy_List_eq (p : roundRobinPolicy) (n : Nat) (hn : 0 < n) :
    (p.List n).1 =
      (List.range (n - AddUint32 p.robin 1 % n)).map
          (fun (t : Nat) => ((AddUint32 p.robin 1 % n : Nat) : Int) + (t : Int)) ++
        indices (AddUint32 p.robin 1 % n) := by
  unfold roundRobinPolicy.List
  have h : ¬ (n : Int) ≤ 0 := by omega
  rw [if_neg h]
  simp only [appendLoop_eq, List.nil_append]
  have hi : Int.tmod (AddUint32 p.robin 1 : Int) (n : Int) =
      ((AddUint32 p.robin 1 % n : Nat) : Int) :=
    (Int.ofNat_tmod _ _).symm
  rw [hi]
  have hlt : AddUint32 p.robin 1 % n < n := Nat.mod_lt _ hn
  have h1 : ((n : Int) - ((AddUint32 p.robin 1 % n : Nat) : Int)).toNat = n - AddUint32 p.robin 1 % n := by
    omega
  have h2 : (((AddUint32 p.robin 1 % n : Nat) : Int) - 0).toNat = AddUint32 p.robin 1 % n := by
    omega
  rw [h1, h2]
  congr 1
  unfold indices
  apply List.map_congr_left
  intro a _
  simp

theorem roundRobinPolicy_List_perm (p : roundRobinPolicy) (n : Nat) :
    ((p.List n).1).Perm (indices n) := by
  rcases Nat.eq_zero_or_pos n with h | h
  · subst h
    simp [roundRobinPolicy.List, indices]
  · rw [roundRobinPolicy_List_eq p n h]
    have hlt : AddUint32 p.robin 1 % n < n := Nat.mod_lt _ h
    generalize AddUint32 p.robin 1 % n = i at hlt
    have hsplit : indices n =
        indices i ++ (List.range (n - i)).map (fun (t : Nat) => (i : Int) + (t : Int)) := by
      unfold indices
      have hn : n = i + (n - i) := by omega
      conv_lhs => rw [hn, List.range_add, List.map_append, List.map_map]
      rfl
    rw [hsplit]
    exact List.perm_append_comm

theorem set_snoc_perm (T : List Int) (v x : Int) (j : Nat)
    (hj : (T ++ [v])[j]? = some v) : ((T ++ [v]).set j x).Perm (T ++ [x]) := by
  induction T generalizing j with
  | nil =>
    cases j with
    | zero => simp
    | succ j => simp at hj
  | cons t T ih =>
    cases j with
    | zero =>
      simp only [List.cons_append, List.getElem?_cons_zero, Option.some.injEq] at hj
      subst hj
      simp only [List.cons_append, List.set_cons_zero]
      have h1 : (x :: (T ++ [t])).Perm (x :: t :: T) :=
        (List.perm_append_singleton t T).cons x
      have h2 : (t :: (T ++ [x])).Perm (t :: x :: T) :=
        (List.perm_append_singleton x T).cons t
      exact h1.trans ((List.Perm.swap t x T).trans h2.symm)
    | succ j =>
      simp only [List.cons_append, List.getElem?_cons_succ] at hj
      simp only [List.cons_append, List.set_cons_succ]
      exact (ih j hj).cons t

theorem permLoop_perm (k i : Nat) (r : Rand) (m : List Int)
    (hlen : m.length = i + k) (hperm : (m.take i).Perm (indices i)) :
    ((Rand.permLoop k i r m).1).Perm (indices (i + k)) := by
  induction k generalizing i r m with
  | zero =>
    rw [List.take_of_length_le (by omega)] at hperm
    simpa [Rand.permLoop] using hperm
  | succ k ih =>
    rw [Rand.permLoop]
    have hj : (r.Intn (i + 1)).1 ≤ i :=
      Nat.lt_succ_iff.1 (Nat.mod_lt (r.next 0) (Nat.succ_pos i))
    generalize (r.Intn (i + 1)).1 = j at hj
    generalize (r.Intn (i + 1)).2 = r1
    have hgoal := ih (i + 1) r1 ((m.set i (m.getD j 0)).set j (i : Int))
      (by simp only [List.length_set]; omega) ?_
    · have e : i + 1 + k = i + (k + 1) := by omega
      rw [e] at hgoal
      exact hgoal
    · have htk : ((m.set i (m.getD j 0)).set j (i : Int)).take (i + 1) =
          (m.take i ++ [m.getD j 0]).set j (i : Int) := by
        have hin : (m.take i).set i (m.getD j 0) = m.take i :=
          List.set_eq_of_length_le (by rw [List.length_take]; omega)
        rw [List.set_take, List.take_succ, List.set_take,
          List.getElem?_set_self (by omega), hin]
        rfl
      rw [htk, indices_succ]
      have hv : (m.take i ++ [m.getD j 0])[j]? = some (m.getD j 0) := by
        have hjm : j < m.length := by omega
        rcases Nat.lt_or_eq_of_le hj with h | h
        · rw [List.getElem?_append_left (by rw [List.length_take]; omega),
            List.getElem?_take_of_lt h]
          simp [List.getD_eq_getElem?_getD, List.getElem?_eq_getElem hjm]
        · subst h
          rw [List.getElem?_append_right (by rw [List.length_take]; omega)]
          simp [List.length_take, Nat.min_eq_left (Nat.le_of_lt hjm)]
      exact (set_snoc_perm _ _ _ _ hv).trans (hperm.append_right _)

theorem randomPolicy_List_perm (p : randomPolicy) (n : Nat) :
    ((p.List n).1).Perm (indices n) := by
  unfold randomPolicy.List
  by_cases h : (n : Int) ≤ 0
  · have : n = 0 := by omega
    subst this
    simp [indices]
  · rw [if_neg h]
    simp only [Int.toNat_ofNat, Rand.Perm]
    have := permLoop_perm n 0 p.src (List.replicate n 0) (by simp) (by simp [indices])
    simpa using this

theorem policy_List_perm (p : policy) (n : Nat) : ((p.List n).1).Perm (indices n) := by
  cases p with
  | random q => exact randomPolicy_List_perm q n
  | roundRobin q => exact roundRobinPolicy_List_perm q n
  | sequential q =>
    simp only [policy.List]
    rw [sequentialPolicy_List_eq]

/-- C1: for every pool size `N ≥ 0` and each of the three policies, in any state
(any cursor value, any state of the random source), `List(N)` has length `N` and
contains each integer of `[0, N)` exactly once and no other value; `List(0)` is
empty. -/
theorem policy_List_is_permutation (p : policy) (N : Nat) :
    ((p.List N).1).length = N ∧
      (∀ k : Int, ((p.List N).1).count k = if 0 ≤ k ∧ k < N then 1 else 0) ∧
      ((p.List N).1).Perm (indices N) ∧
      (p.List 0).1 = [] := by
  have hperm := policy_List_perm p N
  refine ⟨?_, ?_, hperm, ?_⟩
  · rw [hperm.length_eq, indices_length]
  · intro k
    rw [hperm.count_eq]
    by_cases hk : 0 ≤ k ∧ k < N
    · rw [if_pos hk]
      exact List.count_eq_one_of_mem (indices_nodup N) (mem_indices.2 hk)
    · rw [if_neg hk]
      exact List.count_eq_zero_of_not_mem (fun h => hk (mem_indices.1 h))
  · have h0 := (policy_List_perm p 0)
    simpa [indices] using h0

/-! ## Properties of the health-tracked client -/

theorem metricDNSClient_Query_reply (tbl : Int → Option String) (c : metricDNSClient)
    (events : List Event) (ctx : Context) (dnsreq : List UInt8) :
    (c.Query tbl events ctx dnsreq).1 = c.nextReply ctx dnsreq := by
  unfold metricDNSClient.Query metricDNSClient.nextReply dnsClient.Query
  cases c.client.answer c.client.callCount ctx dnsreq <;> rfl

theorem metricDNSClient_Query_events (tbl : Int → Option String) (c : metricDNSClient)
    (events : List Event) (ctx : Context) (dnsreq : List UInt8) :
    (c.Query tbl events ctx dnsreq).2.2 =
      events ++ metricsOf tbl c.addr (c.nextReply ctx dnsreq) := by
  unfold metricDNSClient.Query metricDNSClient.nextReply dnsClient.Query
  cases c.client.answer c.client.callCount ctx dnsreq <;> simp [metricsOf]

theorem metricDNSClient_Query_fails_failed (tbl : Int → Option String) (c : metricDNSClient)
    (events : List Event) (ctx : Context) (dnsreq : List UInt8) (r : Option Msg) (err : Error)
    (h : c.nextReply ctx dnsreq = .failed r err) :
    (c.Query tbl events ctx dnsreq).2.1.fails =
      if c.fails > (c.fails + 1) % 2 ^ 32 then c.fails else (c.fails + 1) % 2 ^ 32 := by
  unfold metricDNSClient.nextReply at h
  unfold metricDNSClient.Query dnsClient.Query
  simp only [h, metricDNSClient.incrementFails, AddUint32]
  split <;> rfl

theorem metricDNSClient_Query_fails_ok (tbl : Int → Option String) (c : metricDNSClient)
    (events : List Event) (ctx : Context) (dnsreq : List UInt8) (r : Msg)
    (h : c.nextReply ctx dnsreq = .ok r) :
    (c.Query tbl events ctx dnsreq).2.1.fails = 0 := by
  unfold metricDNSClient.nextReply at h
  unfold metricDNSClient.Query dnsClient.Query
  simp only [h]

/-- C9: a failed query through `metricDNSClient` takes the failure count from `n`
to `n + 1` when `n < 2^32 - 1` and leaves it at `2^32 - 1` when `n = 2^32 - 1`; the
count never gets smaller and is never 0 after a failure. -/
theorem metricDNSClient_Query_failure_saturates (tbl : Int → Option String)
    (c : metricDNSClient) (events : List Event) (ctx : Context) (dnsreq : List UInt8)
    (r : Option Msg) (err : Error) (hfails : c.fails < 2 ^ 32)
    (hfailed : c.nextReply ctx dnsreq = .failed r err) :
    (c.Query tbl events ctx dnsreq).1 = .failed r err ∧
      (c.fails < 2 ^ 32 - 1 → (c.Query tbl events ctx dnsreq).2.1.Fails = c.fails + 1) ∧
      (c.fails = 2 ^ 32 - 1 → (c.Query tbl events ctx dnsreq).2.1.Fails = 2 ^ 32 - 1) ∧
      c.fails ≤ (c.Query tbl events ctx dnsreq).2.1.Fails ∧
      (c.Query tbl events ctx dnsreq).2.1.Fails ≠ 0 ∧
      (c.Query tbl events ctx dnsreq).2.1.Fails < 2 ^ 32 := by
  have h1 := metricDNSClient_Query_fails_failed tbl c events ctx dnsreq r err hfailed
  have h2 := metricDNSClient_Query_reply tbl c events ctx dnsreq
  rw [hfailed] at h2
  unfold metricDNSClient.Fails
  rw [h1]
  refine ⟨h2, ?_, ?_, ?_, ?_, ?_⟩
  · intro h
    have e : (c.fails + 1) % 2 ^ 32 = c.fails + 1 := Nat.mod_eq_of_lt (by omega)
    rw [e, if_neg (by omega)]
  · intro h
    have e : (c.fails + 1) % 2 ^ 32 = 0 := by rw [h]; decide
    rw [e, if_pos (by omega)]
    exact h
  · split
    · exact Nat.le_refl _
    · omega
  · split
    · omega
    · rename_i h
      intro h0
      rw [h0] at h
      omega
  · split
    · exact hfails
    · exact Nat.mod_lt _ (by decide)

/-- Witness of C9 at the largest count: the count stays at `2^32 - 1`. -/
theorem metricDNSClient_Query_failure_saturates_witness :
    (saturatedClient.Query rcodeNames [] Background abc).1 =
        .failed (some expectedDNSMsg) clientError ∧
      (saturatedClient.fails < 2 ^ 32 - 1 →
        (saturatedClient.Query rcodeNames [] Background abc).2.1.Fails =
          saturatedClient.fails + 1) ∧
      (saturatedClient.fails = 2 ^ 32 - 1 →
        (saturatedClient.Query rcodeNames [] Background abc).2.1.Fails = 2 ^ 32 - 1) ∧
      saturatedClient.fails ≤ (saturatedClient.Query rcodeNames [] Background abc).2.1.Fails ∧
      (saturatedClient.Query rcodeNames [] Background abc).2.1.Fails ≠ 0 ∧
      (saturatedClient.Query rcodeNames [] Background abc).2.1.Fails < 2 ^ 32 :=
  metricDNSClient_Query_failure_saturates rcodeNames saturatedClient [] Background abc
    (some expectedDNSMsg) clientError (by decide) (by decide)

/-- C10: a successful query through `metricDNSClient` sets the failure count to 0
whatever it was before, so `Down(k)` is false for every threshold `k` right after
it, also when `Down(k)` was true just before. -/
theorem metricDNSClient_Query_success_resets (tbl : Int → Option String)
    (c : metricDNSClient) (events : List Event) (ctx : Context) (dnsreq : List UInt8)
    (r : Msg) (hok : c.nextReply ctx dnsreq = .ok r) :
    (c.Query tbl events ctx dnsreq).1 = .ok r ∧
      (c.Query tbl events ctx dnsreq).2.1.Fails = 0 ∧
      ∀ k : Nat, (c.Query tbl events ctx dnsreq).2.1.Down k = false := by
  have h1 := metricDNSClient_Query_fails_ok tbl c events ctx dnsreq r hok
  have h2 := metricDNSClient_Query_reply tbl c events ctx dnsreq
  rw [hok] at h2
  refine ⟨h2, h1, ?_⟩
  intro k
  unfold metricDNSClient.Down
  rw [h1]
  split
  · rfl
  · simp

/-- Witness of C10: an upstream that is down for the threshold 2 answers. -/
theorem metricDNSClient_Query_success_resets_witness :
    recoveringClient.Down 2 = true ∧
      (recoveringClient.Query rcodeNames [] Background abc).1 = .ok expectedDNSMsg ∧
      (recoveringClient.Query rcodeNames [] Background abc).2.1.Fails = 0 ∧
      ∀ k : Nat, (recoveringClient.Query rcodeNames [] Background abc).2.1.Down k = false :=
  ⟨by decide,
    metricDNSClient_Query_success_resets rcodeNames recoveringClient [] Background abc
      expectedDNSMsg (by decide)⟩

/-! ## Properties of the load-balancing client: one attempt -/

theorem index_some_range {clients : List metricDNSClient} {idx : Int} {cl : metricDNSClient}
    (h : index clients idx = some cl) : 0 ≤ idx ∧ idx.toNat < clients.length := by
  unfold index at h
  split at h
  · cases h
  · rename_i hneg
    refine ⟨by omega, ?_⟩
    by_contra hlen
    rw [List.getElem?_eq_none (by omega)] at h
    cases h

theorem index_of_mem_indices {clients : List metricDNSClient} {idx : Int}
    (h : idx ∈ indices clients.length) : ∃ cl, index clients idx = some cl := by
  obtain ⟨h0, h1⟩ := mem_indices.1 h
  have hlt : idx.toNat < clients.length := by omega
  refine ⟨clients[idx.toNat], ?_⟩
  unfold index
  rw [if_neg (by omega), List.getElem?_eq_getElem hlt]

theorem index_set_ne (clients : List metricDNSClient) (i j : Int) (x : metricDNSClient)
    (hi : 0 ≤ i) (hne : j ≠ i) : index (clients.set i.toNat x) j = index clients j := by
  unfold index
  split
  · rfl
  · rw [List.getElem?_set_ne (by omega)]

theorem lbDNSClient_query_none (tbl : Int → Option String) (c : lbDNSClient)
    (ev : List Event) (ctx : Context) (dnsreq : List UInt8) (idx : Int)
    (h : index c.clients idx = none) :
    c.query tbl ev ctx dnsreq idx = (.panicked, c, ev) := by
  unfold lbDNSClient.query
  simp only [h]

theorem lbDNSClient_query_some (tbl : Int → Option String) (c : lbDNSClient)
    (ev : List Event) (ctx : Context) (dnsreq : List UInt8) (idx : Int) (cl : metricDNSClient)
    (h : index c.clients idx = some cl) :
    c.query tbl ev ctx dnsreq idx =
      (.returned (cl.nextReply (WithTimeout ctx c.timeout) dnsreq).r
          (cl.nextReply (WithTimeout ctx c.timeout) dnsreq).err,
        (c.query tbl ev ctx dnsreq idx).2.1,
        ev ++ Event.upstream idx ::
          metricsOf tbl cl.addr (cl.nextReply (WithTimeout ctx c.timeout) dnsreq)) := by
  unfold lbDNSClient.query
  simp only [h, metricDNSClient_Query_reply, metricDNSClient_Query_events,
    List.append_assoc, List.singleton_append]

theorem lbDNSClient_query_agreesOff (tbl : Int → Option String) (c : lbDNSClient)
    (ev : List Event) (ctx : Context) (dnsreq : List UInt8) (idx : Int) :
    c.agreesOff (c.query tbl ev ctx dnsreq idx).2.1 [idx] := by
  unfold lbDNSClient.query
  cases h : index c.clients idx with
  | none => exact ⟨rfl, rfl, rfl, fun _ _ => rfl⟩
  | some cl =>
    refine ⟨rfl, rfl, ?_, ?_⟩
    · simp only [List.length_set]
    · intro j hj
      have hne : j ≠ idx := by simpa using hj
      exact index_set_ne _ _ _ _ (index_some_range h).1 hne

theorem agreesOff_refl (c : lbDNSClient) (S : List Int) : c.agreesOff c S :=
  ⟨rfl, rfl, rfl, fun _ _ => rfl⟩

theorem agreesOff_trans {c c1 c2 : lbDNSClient} {S T U : List Int}
    (h1 : c.agreesOff c1 S) (h2 : c1.agreesOff c2 T)
    (hS : ∀ j, j ∈ S → j ∈ U) (hT : ∀ j, j ∈ T → j ∈ U) : c.agreesOff c2 U := by
  obtain ⟨a1, a2, a3, a4⟩ := h1
  obtain ⟨b1, b2, b3, b4⟩ := h2
  refine ⟨b1.trans a1, b2.trans a2, b3.trans a3, ?_⟩
  intro j hj
  rw [b4 j (fun h => hj (hT j h)), a4 j (fun h => hj (hS j h))]

theorem agreesOff_isDown {c c1 : lbDNSClient} {S : List Int} (h : c.agreesOff c1 S)
    {j : Int} (hj : j ∉ S) : c1.isDown j = c.isDown j := by
  unfold lbDNSClient.isDown
  rw [h.2.2.2 j hj, h.1]

theorem agreesOff_nextReply {c c1 : lbDNSClient} {S : List Int} (h : c.agreesOff c1 S)
    (ctx : Context) (dnsreq : List UInt8) {j : Int} (hj : j ∉ S) :
    c1.nextReply ctx dnsreq j = c.nextReply ctx dnsreq j := by
  unfold lbDNSClient.nextReply
  rw [h.2.2.2 j hj, h.2.1]

/-! ## Properties of the load-balancing client: the loop -/

theorem rangeLoop_nil (tbl : Int → Option String) (ctx : Context) (dnsreq : List UInt8)
    (c : lbDNSClient) (ev : List Event) (v : Locals) :
    lbDNSClient.rangeLoop tbl ctx dnsreq [] c ev v = (.fallThrough, v, c, ev) := by
  rw [lbDNSClient.rangeLoop]

theorem rangeLoop_cons_none (tbl : Int → Option String) (ctx : Context) (dnsreq : List UInt8)
    (idx : Int) (ids : List Int) (c : lbDNSClient) (ev : List Event) (v : Locals)
    (h : index c.clients idx = none) :
    lbDNSClient.rangeLoop tbl ctx dnsreq (idx :: ids) c ev v = (.panicked, v, c, ev) := by
  rw [lbDNSClient.rangeLoop]
  simp only [h]

theorem rangeLoop_cons_down (tbl : Int → Option String) (ctx : Context) (dnsreq : List UInt8)
    (idx : Int) (ids : List Int) (c : lbDNSClient) (ev : List Event) (v : Locals)
    (hd : c.isDown idx = true) :
    lbDNSClient.rangeLoop tbl ctx dnsreq (idx :: ids) c ev v =
      lbDNSClient.rangeLoop tbl ctx dnsreq ids c ev v := by
  unfold lbDNSClient.isDown at hd
  rw [lbDNSClient.rangeLoop]
  cases h : index c.clients idx with
  | none => rw [h] at hd; cases hd
  | some cl =>
    rw [h] at hd
    have hd1 : cl.Down c.maxFails = true := hd
    simp only [hd1, if_true]

theorem rangeLoop_cons_up (tbl : Int → Option String) (ctx : Context) (dnsreq : List UInt8)
    (idx : Int) (ids : List Int) (c : lbDNSClient) (ev : List Event) (v : Locals)
    (reply : Reply) (hd : c.isDown idx = false)
    (hr : c.nextReply ctx dnsreq idx = some reply) :
    lbDNSClient.rangeLoop tbl ctx dnsreq (idx :: ids) c ev v =
      if reply.err.isNone then
        (.returned, v.attempted reply, (c.query tbl ev ctx dnsreq idx).2.1,
          (c.query tbl ev ctx dnsreq idx).2.2)
      else
        lbDNSClient.rangeLoop tbl ctx dnsreq ids (c.query tbl ev ctx dnsreq idx).2.1
          (c.query tbl ev ctx dnsreq idx).2.2 (v.attempted reply) := by
  unfold lbDNSClient.isDown at hd
  unfold lbDNSClient.nextReply at hr
  cases h : index c.clients idx with
  | none => rw [h] at hr; cases hr
  | some cl =>
    rw [h] at hd hr
    simp only [Option.map_some', Option.some.injEq] at hr
    have hq := lbDNSClient_query_some tbl c ev ctx dnsreq idx cl h
    rw [hr] at hq
    have hd1 : cl.Down c.maxFails = false := hd
    rw [lbDNSClient.rangeLoop]
    simp only [h, hd1]
    rw [hq]
    simp only [Bool.false_eq_true, if_false, Locals.attempted]

theorem upstream_cases (c : lbDNSClient) (ctx : Context) (dnsreq : List UInt8) (idx : Int) :
    index c.clients idx = none ∨ c.isDown idx = true ∨
      (c.isDown idx = false ∧ ∃ reply, c.nextReply ctx dnsreq idx = some reply) := by
  unfold lbDNSClient.isDown lbDNSClient.nextReply
  cases index c.clients idx with
  | none => exact Or.inl rfl
  | some cl =>
    right
    cases hd : cl.Down c.maxFails with
    | true => exact Or.inl hd
    | false => exact Or.inr ⟨hd, _, rfl⟩

theorem invoked_append (a b : List Event) : invoked (a ++ b) = invoked a ++ invoked b := by
  induction a with
  | nil => rfl
  | cons e a ih => cases e <;> simp [invoked, ih]

theorem invoked_metricsOf (tbl : Int → Option String) (addr : String) (reply : Reply) :
    invoked (metricsOf tbl addr reply) = [] := by
  cases reply <;> rfl

theorem broken_not_mem_metricsOf (tbl : Int → Option String) (addr : String) (reply : Reply) :
    Event.HealthcheckBrokenCount ∉ metricsOf tbl addr reply := by
  cases reply <;> simp [metricsOf]

theorem lbDNSClient_query_events (tbl : Int → Option String) (c : lbDNSClient)
    (ev : List Event) (ctx : Context) (dnsreq : List UInt8) (idx : Int) (reply : Reply)
    (hr : c.nextReply ctx dnsreq idx = some reply) :
    (c.query tbl ev ctx dnsreq idx).1 = .returned reply.r reply.err ∧
      ∃ new, (c.query tbl ev ctx dnsreq idx).2.2 = ev ++ Event.upstream idx :: new ∧
        invoked new = [] ∧ Event.HealthcheckBrokenCount ∉ new ∧
        (reply.err ≠ none → new = []) := by
  unfold lbDNSClient.nextReply at hr
  cases h : index c.clients idx with
  | none => rw [h] at hr; cases hr
  | some cl =>
    rw [h] at hr
    simp only [Option.map_some', Option.some.injEq] at hr
    rw [lbDNSClient_query_some tbl c ev ctx dnsreq idx cl h, hr]
    refine ⟨rfl, _, rfl, invoked_metricsOf _ _ _, broken_not_mem_metricsOf _ _ _, ?_⟩
    intro hne
    cases reply with
    | ok r => exact absurd rfl hne
    | failed r e => rfl

theorem rangeLoop_agreesOff (tbl : Int → Option String) (ctx : Context) (dnsreq : List UInt8)
    (ids : List Int) (c : lbDNSClient) (ev : List Event) (v : Locals) :
    c.agreesOff (lbDNSClient.rangeLoop tbl ctx dnsreq ids c ev v).2.2.1 ids := by
  induction ids generalizing c ev v with
  | nil => rw [rangeLoop_nil]; exact agreesOff_refl c []
  | cons idx ids ih =>
    rcases upstream_cases c ctx dnsreq idx with h | h | ⟨hd, reply, hr⟩
    · rw [rangeLoop_cons_none _ _ _ _ _ _ _ _ h]
      exact agreesOff_refl c _
    · rw [rangeLoop_cons_down _ _ _ _ _ _ _ _ h]
      exact agreesOff_trans (agreesOff_refl c []) (ih c ev v) (fun _ hj => by cases hj)
        (fun j hj => List.mem_cons_of_mem _ hj)
    · rw [rangeLoop_cons_up _ _ _ _ _ _ _ _ reply hd hr]
      have hq := lbDNSClient_query_agreesOff tbl c ev ctx dnsreq idx
      split
      · exact agreesOff_trans hq (agreesOff_refl _ []) (fun j hj => by
          rw [List.mem_singleton] at hj; rw [hj]; exact List.mem_cons_self _ _)
          (fun _ hj => by cases hj)
      · exact agreesOff_trans hq (ih _ _ _) (fun j hj => by
          rw [List.mem_singleton] at hj; rw [hj]; exact List.mem_cons_self _ _)
          (fun j hj => List.mem_cons_of_mem _ hj)

theorem rangeLoop_allDown_false (tbl : Int → Option String) (ctx : Context)
    (dnsreq : List UInt8) (ids : List Int) (c : lbDNSClient) (ev : List Event) (v : Locals)
    (hv : v.allDown = false) :
    (lbDNSClient.rangeLoop tbl ctx dnsreq ids c ev v).2.1.allDown = false := by
  induction ids generalizing c ev v with
  | nil => rw [rangeLoop_nil]; exact hv
  | cons idx ids ih =>
    rcases upstream_cases c ctx dnsreq idx with h | h | ⟨hd, reply, hr⟩
    · rw [rangeLoop_cons_none _ _ _ _ _ _ _ _ h]; exact hv
    · rw [rangeLoop_cons_down _ _ _ _ _ _ _ _ h]; exact ih c ev v hv
    · rw [rangeLoop_cons_up _ _ _ _ _ _ _ _ reply hd hr]
      split
      · rfl
      · exact ih _ _ _ rfl

theorem rangeLoop_allDown_true (tbl : Int → Option String) (ctx : Context)
    (dnsreq : List UInt8) (ids : List Int) (c : lbDNSClient) (ev : List Event) (v : Locals)
    (h : (lbDNSClient.rangeLoop tbl ctx dnsreq ids c ev v).2.1.allDown = true) :
    (lbDNSClient.rangeLoop tbl ctx dnsreq ids c ev v).2 = (v, c, ev) := by
  induction ids generalizing c ev v with
  | nil => rw [rangeLoop_nil]
  | cons idx ids ih =>
    rcases upstream_cases c ctx dnsreq idx with h1 | h1 | ⟨hd, reply, hr⟩
    · rw [rangeLoop_cons_none _ _ _ _ _ _ _ _ h1]
    · rw [rangeLoop_cons_down _ _ _ _ _ _ _ _ h1] at h ⊢
      exact ih c ev v h
    · rw [rangeLoop_cons_up _ _ _ _ _ _ _ _ reply hd hr] at h
      exfalso
      split at h
      · cases h
      · rw [rangeLoop_allDown_false _ _ _ _ _ _ _ rfl] at h
        cases h

theorem rangeLoop_up_attempted (tbl : Int → Option String) (ctx : Context)
    (dnsreq : List UInt8) (ids : List Int) (c : lbDNSClient) (ev : List Event) (v : Locals)
    (j : Int) (hj : j ∈ ids) (hup : c.isDown j = false)
    (hflow : (lbDNSClient.rangeLoop tbl ctx dnsreq ids c ev v).1 = .fallThrough) :
    (lbDNSClient.rangeLoop tbl ctx dnsreq ids c ev v).2.1.allDown = false := by
  induction ids generalizing v with
  | nil => cases hj
  | cons idx ids ih =>
    rcases upstream_cases c ctx dnsreq idx with h | h | ⟨hd, reply, hr⟩
    · rw [rangeLoop_cons_none _ _ _ _ _ _ _ _ h] at hflow
      cases hflow
    · rw [rangeLoop_cons_down _ _ _ _ _ _ _ _ h] at hflow ⊢
      rcases List.mem_cons.1 hj with e | e
      · rw [e, h] at hup; cases hup
      · exact ih v e hflow
    · rw [rangeLoop_cons_up _ _ _ _ _ _ _ _ reply hd hr]
      split
      · rfl
      · exact rangeLoop_allDown_false _ _ _ _ _ _ _ rfl

theorem rangeLoop_events (tbl : Int → Option String) (ctx : Context) (dnsreq : List UInt8)
    (ids : List Int) (c : lbDNSClient) (ev : List Event) (v : Locals) (hnd : ids.Nodup) :
    ∃ new, (lbDNSClient.rangeLoop tbl ctx dnsreq ids c ev v).2.2.2 = ev ++ new ∧
      (invoked new).Sublist (ids.filter (fun j => !c.isDown j)) ∧
      Event.HealthcheckBrokenCount ∉ new := by
  induction ids generalizing c ev v with
  | nil =>
    rw [rangeLoop_nil]
    exact ⟨[], by simp, by simp [invoked], by simp⟩
  | cons idx ids ih =>
    have hnd1 : ids.Nodup := (List.nodup_cons.1 hnd).2
    have hni : idx ∉ ids := (List.nodup_cons.1 hnd).1
    rcases upstream_cases c ctx dnsreq idx with h | h | ⟨hd, reply, hr⟩
    · rw [rangeLoop_cons_none _ _ _ _ _ _ _ _ h]
      exact ⟨[], by simp, by simp [invoked], by simp⟩
    · rw [rangeLoop_cons_down _ _ _ _ _ _ _ _ h]
      obtain ⟨new, h1, h2, h3⟩ := ih c ev v hnd1
      refine ⟨new, h1, ?_, h3⟩
      rw [List.filter_cons_of_neg (by simp [h])]
      exact h2
    · rw [rangeLoop_cons_up _ _ _ _ _ _ _ _ reply hd hr]
      obtain ⟨_, m, hm, hm1, hm2, _⟩ := lbDNSClient_query_events tbl c ev ctx dnsreq idx reply hr
      rw [List.filter_cons_of_pos (by simp [hd])]
      split
      · refine ⟨Event.upstream idx :: m, hm, ?_, ?_⟩
        · simp only [invoked, hm1]
          exact List.Sublist.cons₂ _ (List.nil_sublist _)
        · simpa using hm2
      · obtain ⟨new, h1, h2, h3⟩ := ih (c.query tbl ev ctx dnsreq idx).2.1
          (c.query tbl ev ctx dnsreq idx).2.2 (v.attempted reply) hnd1
        have hag := lbDNSClient_query_agreesOff tbl c ev ctx dnsreq idx
        have hfil : ids.filter (fun j => !(c.query tbl ev ctx dnsreq idx).2.1.isDown j) =
            ids.filter (fun j => !c.isDown j) := by
          apply List.filter_congr
          intro j hj
          have hne : j ∉ [idx] := by
            rw [List.mem_singleton]
            intro e
            exact hni (e ▸ hj)
          rw [agreesOff_isDown hag hne]
        rw [hfil] at h2
        refine ⟨Event.upstream idx :: m ++ new, ?_, ?_, ?_⟩
        · rw [h1, hm]
          simp
        · rw [List.cons_append, invoked, invoked_append, hm1, List.nil_append]
          exact List.Sublist.cons₂ _ h2
        · simp only [List.cons_append, List.mem_cons, List.mem_append, not_or]
          exact ⟨by simp, hm2, h3⟩

theorem rangeLoop_all_failed (tbl : Int → Option String) (ctx : Context)
    (dnsreq : List UInt8) (ids : List Int) (c : lbDNSClient) (ev : List Event) (v : Locals)
    (hnd : ids.Nodup)
    (hfail : ∀ j ∈ ids, c.isDown j = true ∨
      ∃ r e, c.nextReply ctx dnsreq j = some (.failed r e)) :
    (lbDNSClient.rangeLoop tbl ctx dnsreq ids c ev v).1 = .fallThrough ∧
      (lbDNSClient.rangeLoop tbl ctx dnsreq ids c ev v).2.2.2 =
        ev ++ (ids.filter (fun j => !c.isDown j)).map Event.upstream ∧
      (ids.filter (fun j => !c.isDown j) = [] →
        (lbDNSClient.rangeLoop tbl ctx dnsreq ids c ev v).2.1 = v) ∧
      (∀ last, (ids.filter (fun j => !c.isDown j)).getLast? = some last →
        (lbDNSClient.rangeLoop tbl ctx dnsreq ids c ev v).2.1.allDown = false ∧
        ∃ r e, c.nextReply ctx dnsreq last = some (.failed r e) ∧
          (lbDNSClient.rangeLoop tbl ctx dnsreq ids c ev v).2.1.r = r ∧
          (lbDNSClient.rangeLoop tbl ctx dnsreq ids c ev v).2.1.err = some e) := by
  induction ids generalizing c ev v with
  | nil =>
    rw [rangeLoop_nil]
    refine ⟨rfl, by simp, fun _ => rfl, ?_⟩
    intro last hl
    simp at hl
  | cons idx ids ih =>
    have hnd1 : ids.Nodup := (List.nodup_cons.1 hnd).2
    have hni : idx ∉ ids := (List.nodup_cons.1 hnd).1
    cases hd : c.isDown idx with
    | true =>
      rw [rangeLoop_cons_down _ _ _ _ _ _ _ _ hd, List.filter_cons_of_neg (by simp [hd])]
      exact ih c ev v hnd1 (fun j hj => hfail j (List.mem_cons_of_mem _ hj))
    | false =>
      obtain ⟨r, e, hr⟩ : ∃ r e, c.nextReply ctx dnsreq idx = some (.failed r e) := by
        rcases hfail idx (List.mem_cons_self _ _) with h | h
        · rw [hd] at h; cases h
        · exact h
      have hag := lbDNSClient_query_agreesOff tbl c ev ctx dnsreq idx
      have hne : ∀ j ∈ ids, j ∉ [idx] := by
        intro j hj
        rw [List.mem_singleton]
        intro e1
        exact hni (e1 ▸ hj)
      have hfil : ids.filter (fun j => !(c.query tbl ev ctx dnsreq idx).2.1.isDown j) =
          ids.filter (fun j => !c.isDown j) := by
        apply List.filter_congr
        intro j hj
        rw [agreesOff_isDown hag (hne j hj)]
      obtain ⟨_, m, hm, _, _, hm3⟩ :=
        lbDNSClient_query_events tbl c ev ctx dnsreq idx (.failed r e) hr
      have hm0 : m = [] := hm3 (by simp [Reply.err])
      subst hm0
      have hih := ih (c.query tbl ev ctx dnsreq idx).2.1 (c.query tbl ev ctx dnsreq idx).2.2
        (v.attempted (.failed r e)) hnd1 (by
          intro j hj
          rw [agreesOff_isDown hag (hne j hj), agreesOff_nextReply hag ctx dnsreq (hne j hj)]
          exact hfail j (List.mem_cons_of_mem _ hj))
      rw [hfil] at hih
      obtain ⟨h1, h2, h3, h4⟩ := hih
      rw [rangeLoop_cons_up _ _ _ _ _ _ _ _ (.failed r e) hd hr,
        List.filter_cons_of_pos (by simp [hd])]
      simp only [Reply.err, Option.isNone_some, Bool.false_eq_true, if_false]
      refine ⟨h1, ?_, ?_, ?_⟩
      · rw [h2, hm]
        simp
      · intro h
        cases h
      · intro last hl
        cases hF : ids.filter (fun j => !c.isDown j) with
        | nil =>
          rw [hF] at hl
          simp only [List.getLast?_singleton, Option.some.injEq] at hl
          subst hl
          rw [h3 hF]
          exact ⟨rfl, r, e, hr, rfl, rfl⟩
        | cons a F =>
          rw [hF, List.getLast?_cons_cons] at hl
          rw [hF] at h4
          obtain ⟨g1, r1, e1, g2, g3, g4⟩ := h4 last hl
          have hmem : last ∈ ids := by
            have : last ∈ a :: F := List.mem_of_getLast?_eq_some hl
            rw [← hF] at this
            exact (List.mem_filter.1 this).1
          rw [agreesOff_nextReply hag ctx dnsreq (hne last hmem)] at g2
          exact ⟨g1, r1, e1, g2, g3, g4⟩

theorem rangeLoop_all_down (tbl : Int → Option String) (ctx : Context)
    (dnsreq : List UInt8) (ids : List Int) (c : lbDNSClient) (ev : List Event) (v : Locals)
    (hdown : ∀ j ∈ ids, c.isDown j = true) :
    lbDNSClient.rangeLoop tbl ctx dnsreq ids c ev v = (.fallThrough, v, c, ev) := by
  induction ids with
  | nil => rw [rangeLoop_nil]
  | cons idx ids ih =>
    rw [rangeLoop_cons_down _ _ _ _ _ _ _ _ (hdown idx (List.mem_cons_self _ _))]
    exact ih (fun j hj => hdown j (List.mem_cons_of_mem _ hj))

theorem rangeLoop_append (tbl : Int → Option String) (ctx : Context) (dnsreq : List UInt8)
    (pre rest : List Int) (c : lbDNSClient) (ev : List Event) (v : Locals)
    (h : (lbDNSClient.rangeLoop tbl ctx dnsreq pre c ev v).1 = .fallThrough) :
    lbDNSClient.rangeLoop tbl ctx dnsreq (pre ++ rest) c ev v =
      lbDNSClient.rangeLoop tbl ctx dnsreq rest
        (lbDNSClient.rangeLoop tbl ctx dnsreq pre c ev v).2.2.1
        (lbDNSClient.rangeLoop tbl ctx dnsreq pre c ev v).2.2.2
        (lbDNSClient.rangeLoop tbl ctx dnsreq pre c ev v).2.1 := by
  induction pre generalizing c ev v with
  | nil => rw [rangeLoop_nil]; rfl
  | cons idx pre ih =>
    rcases upstream_cases c ctx dnsreq idx with h1 | h1 | ⟨hd, reply, hr⟩
    · rw [rangeLoop_cons_none _ _ _ _ _ _ _ _ h1] at h
      cases h
    · rw [rangeLoop_cons_down tbl ctx dnsreq idx pre c ev v h1] at h ⊢
      rw [List.cons_append, rangeLoop_cons_down tbl ctx dnsreq idx (pre ++ rest) c ev v h1]
      exact ih c ev v h
    · rw [rangeLoop_cons_up tbl ctx dnsreq idx pre c ev v reply hd hr] at h ⊢
      rw [List.cons_append,
        rangeLoop_cons_up tbl ctx dnsreq idx (pre ++ rest) c ev v reply hd hr]
      by_cases he : reply.err.isNone = true
      · rw [if_pos he] at h
        cases h
      · rw [if_neg he] at h ⊢
        rw [if_neg he]
        exact ih _ _ _ h

/-! ## Properties of the load-balancing client: `Query` -/

theorem QueryWith_returned (tbl : Int → Option String) (c : lbDNSClient) (ev : List Event)
    (ctx : Context) (dnsreq : List UInt8) (ids : List Int) (v : Locals) (c1 : lbDNSClient)
    (ev1 : List Event)
    (h : lbDNSClient.rangeLoop tbl ctx dnsreq ids c ev
      { r := none, err := none, attempts := 0, allDown := true } = (.returned, v, c1, ev1)) :
    c.QueryWith tbl ev ctx dnsreq ids = (.returned v.r v.err, c1, ev1) := by
  unfold lbDNSClient.QueryWith
  rw [h]

theorem QueryWith_panicked (tbl : Int → Option String) (c : lbDNSClient) (ev : List Event)
    (ctx : Context) (dnsreq : List UInt8) (ids : List Int) (v : Locals) (c1 : lbDNSClient)
    (ev1 : List Event)
    (h : lbDNSClient.rangeLoop tbl ctx dnsreq ids c ev
      { r := none, err := none, attempts := 0, allDown := true } = (.panicked, v, c1, ev1)) :
    c.QueryWith tbl ev ctx dnsreq ids = (.panicked, c1, ev1) := by
  unfold lbDNSClient.QueryWith
  rw [h]

theorem QueryWith_fell_up (tbl : Int → Option String) (c : lbDNSClient) (ev : List Event)
    (ctx : Context) (dnsreq : List UInt8) (ids : List Int) (v : Locals) (c1 : lbDNSClient)
    (ev1 : List Event)
    (h : lbDNSClient.rangeLoop tbl ctx dnsreq ids c ev
      { r := none, err := none, attempts := 0, allDown := true } = (.fallThrough, v, c1, ev1))
    (hv : v.allDown = false) :
    c.QueryWith tbl ev ctx dnsreq ids = (.returned v.r v.err, c1, ev1) := by
  unfold lbDNSClient.QueryWith
  rw [h]
  simp only [hv, Bool.false_eq_true, if_false]

theorem QueryWith_fell_down (tbl : Int → Option String) (c : lbDNSClient) (ev : List Event)
    (ctx : Context) (dnsreq : List UInt8) (ids : List Int) (v : Locals) (c1 : lbDNSClient)
    (ev1 : List Event)
    (h : lbDNSClient.rangeLoop tbl ctx dnsreq ids c ev
      { r := none, err := none, attempts := 0, allDown := true } = (.fallThrough, v, c1, ev1))
    (hv : v.allDown = true) :
    c.QueryWith tbl ev ctx dnsreq ids =
      if c1.clients.length > 0 then
        match ids with
        | [] => (.panicked, c1, ev1 ++ [Event.HealthcheckBrokenCount])
        | id0 :: _ => c1.query tbl (ev1 ++ [Event.HealthcheckBrokenCount]) ctx dnsreq id0
      else (.returned v.r v.err, c1, ev1 ++ [Event.HealthcheckBrokenCount]) := by
  unfold lbDNSClient.QueryWith
  rw [h]
  simp only [hv, if_true]

theorem prod4_eta {α β γ δ : Type} (x : α × β × γ × δ) : x = (x.1, x.2.1, x.2.2.1, x.2.2.2) :=
  rfl

theorem lbDNSClient_query_events_any (tbl : Int → Option String) (c : lbDNSClient)
    (ev : List Event) (ctx : Context) (dnsreq : List UInt8) (idx : Int) :
    ∃ new, (c.query tbl ev ctx dnsreq idx).2.2 = ev ++ new ∧
      (invoked new = [] ∨ invoked new = [idx]) ∧ Event.HealthcheckBrokenCount ∉ new := by
  rcases upstream_cases c ctx dnsreq idx with h | h
  · rw [lbDNSClient_query_none _ _ _ _ _ _ h]
    exact ⟨[], by simp, Or.inl rfl, by simp⟩
  · have hex : ∃ reply, c.nextReply ctx dnsreq idx = some reply := by
      rcases h with h | ⟨_, h⟩
      · unfold lbDNSClient.isDown at h
        unfold lbDNSClient.nextReply
        cases hi : index c.clients idx with
        | none => rw [hi] at h; cases h
        | some cl => exact ⟨_, rfl⟩
      · exact h
    obtain ⟨reply, hr⟩ := hex
    obtain ⟨_, m, hm, hm1, hm2, _⟩ := lbDNSClient_query_events tbl c ev ctx dnsreq idx reply hr
    refine ⟨Event.upstream idx :: m, hm, Or.inr ?_, ?_⟩
    · simp only [invoked, hm1]
    · simpa using hm2

theorem QueryWith_sublist (tbl : Int → Option String) (c : lbDNSClient) (ev : List Event)
    (ctx : Context) (dnsreq : List UInt8) (ids : List Int) (hnd : ids.Nodup) :
    ∃ new, (c.QueryWith tbl ev ctx dnsreq ids).2.2 = ev ++ new ∧
      (invoked new).Sublist ids := by
  obtain ⟨new, h1, h2, _⟩ := rangeLoop_events tbl ctx dnsreq ids c ev
    { r := none, err := none, attempts := 0, allDown := true } hnd
  have h2s : (invoked new).Sublist ids := h2.trans (List.filter_sublist _)
  have heta := prod4_eta (lbDNSClient.rangeLoop tbl ctx dnsreq ids c ev
    { r := none, err := none, attempts := 0, allDown := true })
  cases hflow : (lbDNSClient.rangeLoop tbl ctx dnsreq ids c ev
    { r := none, err := none, attempts := 0, allDown := true }).1 with
  | returned =>
    rw [hflow] at heta
    rw [QueryWith_returned _ _ _ _ _ _ _ _ _ heta]
    exact ⟨new, h1, h2s⟩
  | panicked =>
    rw [hflow] at heta
    rw [QueryWith_panicked _ _ _ _ _ _ _ _ _ heta]
    exact ⟨new, h1, h2s⟩
  | fallThrough =>
    rw [hflow] at heta
    cases hv : (lbDNSClient.rangeLoop tbl ctx dnsreq ids c ev
      { r := none, err := none, attempts := 0, allDown := true }).2.1.allDown with
    | false =>
      rw [QueryWith_fell_up _ _ _ _ _ _ _ _ _ heta hv]
      exact ⟨new, h1, h2s⟩
    | true =>
      rw [QueryWith_fell_down _ _ _ _ _ _ _ _ _ heta hv]
      have hsame := rangeLoop_allDown_true _ _ _ _ _ _ _ hv
      have e1 : (lbDNSClient.rangeLoop tbl ctx dnsreq ids c ev
        { r := none, err := none, attempts := 0, allDown := true }).2.2.2 = ev := by
        rw [hsame]
      rw [e1]
      split
      · cases ids with
        | nil => exact ⟨[Event.HealthcheckBrokenCount], rfl, by simp [invoked]⟩
        | cons id0 rest =>
          obtain ⟨m, hm, hm1, _⟩ := lbDNSClient_query_events_any tbl
            (lbDNSClient.rangeLoop tbl ctx dnsreq (id0 :: rest) c ev
              { r := none, err := none, attempts := 0, allDown := true }).2.2.1
            (ev ++ [Event.HealthcheckBrokenCount]) ctx dnsreq id0
          refine ⟨Event.HealthcheckBrokenCount :: m, ?_, ?_⟩
          · simp only [hm, List.append_assoc, List.singleton_append]
          · simp only [invoked]
            rcases hm1 with hm1 | hm1
            · rw [hm1]; exact List.nil_sublist _
            · rw [hm1]; exact List.Sublist.cons₂ _ (List.nil_sublist _)
      · exact ⟨[Event.HealthcheckBrokenCount], rfl, by simp [invoked]⟩

theorem invoked_map_upstream (l : List Int) : invoked (l.map Event.upstream) = l := by
  induction l with
  | nil => rfl
  | cons a l ih => simp [invoked, ih]

theorem broken_not_mem_map_upstream (l : List Int) :
    Event.HealthcheckBrokenCount ∉ l.map Event.upstream := by
  simp

theorem policy_List_nodup (p : policy) (n : Nat) : ((p.List n).1).Nodup :=
  (policy_List_perm p n).nodup_iff.2 (indices_nodup n)

theorem policy_List_mem (p : policy) (n : Nat) (j : Int) :
    j ∈ (p.List n).1 ↔ j ∈ indices n :=
  (policy_List_perm p n).mem_iff

theorem QueryWith_up (tbl : Int → Option String) (c : lbDNSClient) (ev : List Event)
    (ctx : Context) (dnsreq : List UInt8) (ids : List Int) (hnd : ids.Nodup)
    (hup : ∃ j ∈ ids, c.isDown j = false) :
    ∃ new, (c.QueryWith tbl ev ctx dnsreq ids).2.2 = ev ++ new ∧
      (invoked new).Sublist (ids.filter (fun j => !c.isDown j)) ∧
      Event.HealthcheckBrokenCount ∉ new := by
  obtain ⟨j, hj, hjd⟩ := hup
  have hev := rangeLoop_events tbl ctx dnsreq ids c ev
    { r := none, err := none, attempts := 0, allDown := true } hnd
  have heta := prod4_eta (lbDNSClient.rangeLoop tbl ctx dnsreq ids c ev
    { r := none, err := none, attempts := 0, allDown := true })
  cases hflow : (lbDNSClient.rangeLoop tbl ctx dnsreq ids c ev
    { r := none, err := none, attempts := 0, allDown := true }).1 with
  | returned =>
    rw [hflow] at heta
    rw [QueryWith_returned _ _ _ _ _ _ _ _ _ heta]
    exact hev
  | panicked =>
    rw [hflow] at heta
    rw [QueryWith_panicked _ _ _ _ _ _ _ _ _ heta]
    exact hev
  | fallThrough =>
    rw [hflow] at heta
    have hv := rangeLoop_up_attempted tbl ctx dnsreq ids c ev
      { r := none, err := none, attempts := 0, allDown := true } j hj hjd hflow
    rw [QueryWith_fell_up _ _ _ _ _ _ _ _ _ heta hv]
    exact hev

theorem QueryWith_all_failed (tbl : Int → Option String) (c : lbDNSClient) (ev : List Event)
    (ctx : Context) (dnsreq : List UInt8) (ids : List Int) (hnd : ids.Nodup)
    (hup : ∃ j ∈ ids, c.isDown j = false)
    (hfail : ∀ j ∈ ids, c.isDown j = true ∨
      ∃ r e, c.nextReply ctx dnsreq j = some (.failed r e)) :
    ∃ last r e, (ids.filter (fun j => !c.isDown j)).getLast? = some last ∧
      c.nextReply ctx dnsreq last = some (.failed r e) ∧
      (c.QueryWith tbl ev ctx dnsreq ids).1 = .returned r (some e) ∧
      (c.QueryWith tbl ev ctx dnsreq ids).2.2 =
        ev ++ (ids.filter (fun j => !c.isDown j)).map Event.upstream := by
  obtain ⟨h1, h2, _, h4⟩ := rangeLoop_all_failed tbl ctx dnsreq ids c ev
    { r := none, err := none, attempts := 0, allDown := true } hnd hfail
  have hne : ids.filter (fun j => !c.isDown j) ≠ [] := by
    obtain ⟨j, hj, hjd⟩ := hup
    intro h0
    have : j ∈ ids.filter (fun j => !c.isDown j) := List.mem_filter.2 ⟨hj, by simp [hjd]⟩
    rw [h0] at this
    cases this
  obtain ⟨last, hlast⟩ : ∃ last, (ids.filter (fun j => !c.isDown j)).getLast? = some last := by
    rw [List.getLast?_eq_getLast _ hne]
    exact ⟨_, rfl⟩
  obtain ⟨g1, r, e, g2, g3, g4⟩ := h4 last hlast
  have heta := prod4_eta (lbDNSClient.rangeLoop tbl ctx dnsreq ids c ev
    { r := none, err := none, attempts := 0, allDown := true })
  rw [h1] at heta
  refine ⟨last, r, e, hlast, g2, ?_, ?_⟩
  · rw [QueryWith_fell_up _ _ _ _ _ _ _ _ _ heta g1, g3, g4]
  · rw [QueryWith_fell_up _ _ _ _ _ _ _ _ _ heta g1, h2]

theorem QueryWith_first_success (tbl : Int → Option String) (c : lbDNSClient)
    (ev : List Event) (ctx : Context) (dnsreq : List UInt8) (pre post : List Int) (idx : Int)
    (m : Msg) (hnd : (pre ++ idx :: post).Nodup)
    (hpre : ∀ j ∈ pre, c.isDown j = true ∨
      ∃ r e, c.nextReply ctx dnsreq j = some (.failed r e))
    (hup : c.isDown idx = false) (hok : c.nextReply ctx dnsreq idx = some (.ok m)) :
    (c.QueryWith tbl ev ctx dnsreq (pre ++ idx :: post)).1 = .returned (some m) none ∧
      ∃ ms, (c.QueryWith tbl ev ctx dnsreq (pre ++ idx :: post)).2.2 =
          ev ++ (pre.filter (fun j => !c.isDown j)).map Event.upstream ++
            Event.upstream idx :: ms ∧
        invoked ms = [] ∧ Event.HealthcheckBrokenCount ∉ ms := by
  have hndp : pre.Nodup := (List.nodup_append.1 hnd).1
  have hidx : idx ∉ pre := by
    intro h
    exact (List.nodup_append.1 hnd).2.2 h (List.mem_cons_self _ _) 
  obtain ⟨h1, h2, _, _⟩ := rangeLoop_all_failed tbl ctx dnsreq pre c ev
    { r := none, err := none, attempts := 0, allDown := true } hndp hpre
  have hag := rangeLoop_agreesOff tbl ctx dnsreq pre c ev
    { r := none, err := none, attempts := 0, allDown := true }
  have happ := rangeLoop_append tbl ctx dnsreq pre (idx :: post) c ev
    { r := none, err := none, attempts := 0, allDown := true } h1
  have hup1 := (agreesOff_isDown hag hidx).trans hup
  have hok1 := (agreesOff_nextReply hag ctx dnsreq hidx).trans hok
  rw [rangeLoop_cons_up _ _ _ _ _ _ _ _ (.ok m) hup1 hok1] at happ
  simp only [Reply.err, Option.isNone_none, if_true] at happ
  obtain ⟨_, ms, hms, hms1, hms2, _⟩ := lbDNSClient_query_events tbl
    (lbDNSClient.rangeLoop tbl ctx dnsreq pre c ev
      { r := none, err := none, attempts := 0, allDown := true }).2.2.1
    (lbDNSClient.rangeLoop tbl ctx dnsreq pre c ev
      { r := none, err := none, attempts := 0, allDown := true }).2.2.2
    ctx dnsreq idx (.ok m) hok1
  rw [QueryWith_returned _ _ _ _ _ _ _ _ _ happ]
  refine ⟨rfl, ms, ?_, hms1, hms2⟩
  rw [hms, h2]

theorem QueryWith_all_down (tbl : Int → Option String) (c : lbDNSClient) (ev : List Event)
    (ctx : Context) (dnsreq : List UInt8) (id0 : Int) (rest : List Int) (reply : Reply)
    (hdown : ∀ j ∈ id0 :: rest, c.isDown j = true)
    (hr : c.nextReply ctx dnsreq id0 = some reply) :
    (c.QueryWith tbl ev ctx dnsreq (id0 :: rest)).1 = .returned reply.r reply.err ∧
      ∃ ms, (c.QueryWith tbl ev ctx dnsreq (id0 :: rest)).2.2 =
          ev ++ Event.HealthcheckBrokenCount :: Event.upstream id0 :: ms ∧
        invoked ms = [] ∧ Event.HealthcheckBrokenCount ∉ ms := by
  have hloop := rangeLoop_all_down tbl ctx dnsreq (id0 :: rest) c ev
    { r := none, err := none, attempts := 0, allDown := true } hdown
  have hlen : c.clients.length > 0 := by
    unfold lbDNSClient.nextReply at hr
    cases hi : index c.clients id0 with
    | none => rw [hi] at hr; cases hr
    | some cl =>
      have := (index_some_range hi).2
      omega
  rw [QueryWith_fell_down _ _ _ _ _ _ _ _ _ hloop rfl, if_pos hlen]
  obtain ⟨g1, ms, hms, hms1, hms2, _⟩ := lbDNSClient_query_events tbl c
    (ev ++ [Event.HealthcheckBrokenCount]) ctx dnsreq id0 reply hr
  refine ⟨g1, ms, ?_, hms1, hms2⟩
  simp only [hms, List.append_assoc, List.singleton_append]

example : (lbRetry.Query rcodeNames [] Background abc).1 =
    .returned (some expectedDNSMsg) none := by decide
example : (lbRetry.Query rcodeNames [] Background abc).2.2 =
    [.upstream 0, .upstream 1, .RequestCount "test-addr2", .RcodeCount "NOERROR" "test-addr2",
      .RequestDuration "test-addr2"] := by decide
example : (lbRetry.Query rcodeNames [] Background abc).2.1.failCounts = [1, 0] := by decide
example : (lbBothFail.Query rcodeNames [] cancelled abc).2.2 =
    [.upstream 0, .upstream 1] := by decide
example : (lbAllDown.Query rcodeNames [] Background abc).2.2 =
    [.HealthcheckBrokenCount, .upstream 1, .RequestCount "test-addr2",
      .RcodeCount "NOERROR" "test-addr2", .RequestDuration "test-addr2"] := by decide
example : (lbOneDown.Query rcodeNames [] Background abc).2.2 =
    [.upstream 1, .upstream 2, .RequestCount "test-addr3",
      .RcodeCount "NOERROR" "test-addr3", .RequestDuration "test-addr3"] := by decide
example : (lbEmpty.Query rcodeNames [] Background abc).1 = .returned none none := by decide
example : (lbEmpty.Query rcodeNames [] Background abc).2.2 = [.HealthcheckBrokenCount] := by
  decide
theorem isDown_of_fails {c : lbDNSClient} {i : Int} {cl : metricDNSClient}
    (hmax : 0 < c.maxFails) (hi : index c.clients i = some cl) :
    c.isDown i = decide (cl.fails > c.maxFails) := by
  unfold lbDNSClient.isDown
  rw [hi]
  simp only [metricDNSClient.Down]
  rw [if_neg (by omega)]

/-- C2: `lbDNSClient.Query` returns, with a nil error, exactly the message of the
first upstream in policy order that is not down and whose query succeeds: when the
order is `pre ++ idx :: post`, every upstream of `pre` is down or fails, and `idx`
is not down and answers `m`, the result is `(m, nil)`, the upstreams invoked are the
ones of `pre` that are not down followed by `idx`, and none of `post` is invoked. -/
theorem lbDNSClient_Query_first_success (tbl : Int → Option String) (c : lbDNSClient)
    (ev : List Event) (ctx : Context) (dnsreq : List UInt8) (pre post : List Int) (idx : Int)
    (m : Msg)
    (hids : (c.p.List (c.clients.length : Int)).1 = pre ++ idx :: post)
    (hpre : ∀ j ∈ pre, c.isDown j = true ∨
      ∃ r e, c.nextReply ctx dnsreq j = some (.failed r e))
    (hup : c.isDown idx = false) (hok : c.nextReply ctx dnsreq idx = some (.ok m)) :
    (c.Query tbl ev ctx dnsreq).1 = .returned (some m) none ∧
      ∃ new, (c.Query tbl ev ctx dnsreq).2.2 = ev ++ new ∧
        invoked new = pre.filter (fun j => !c.isDown j) ++ [idx] ∧
        (∀ j ∈ post, j ∉ invoked new) ∧
        Event.HealthcheckBrokenCount ∉ new := by
  have hnd : (pre ++ idx :: post).Nodup := hids ▸ policy_List_nodup c.p c.clients.length
  have h := QueryWith_first_success tbl
    { c with p := (c.p.List (c.clients.length : Int)).2 } ev ctx dnsreq pre post idx m hnd
    hpre hup hok
  have hq : c.Query tbl ev ctx dnsreq =
      lbDNSClient.QueryWith tbl { c with p := (c.p.List (c.clients.length : Int)).2 } ev ctx
        dnsreq (pre ++ idx :: post) := by
    unfold lbDNSClient.Query
    simp only [hids]
  rw [hq]
  obtain ⟨h1, ms, h2, h3, h4⟩ := h
  refine ⟨h1, (pre.filter (fun j => !c.isDown j)).map Event.upstream ++
    Event.upstream idx :: ms, ?_, ?_, ?_, ?_⟩
  · rw [h2, List.append_assoc]
    rfl
  · rw [invoked_append, invoked_map_upstream, invoked, h3]
  · intro j hj
    rw [invoked_append, invoked_map_upstream, invoked, h3]
    intro hmem
    rcases List.mem_append.1 hmem with hm | hm
    · exact (List.nodup_append.1 hnd).2.2 (List.mem_filter.1 hm).1
        (List.mem_cons_of_mem _ hj)
    · rw [List.mem_singleton] at hm
      subst hm
      exact (List.nodup_cons.1 (List.nodup_append.1 hnd).2.1).1 hj
  · intro hmem
    rcases List.mem_append.1 hmem with hm | hm
    · exact broken_not_mem_map_upstream _ hm
    · rcases List.mem_cons.1 hm with hm | hm
      · cases hm
      · exact h4 hm

/-- Witness of C2 on the load balancer of `TestLoadBalanceDNSClientRetry`: the
first upstream fails, the second answers. -/
theorem lbDNSClient_Query_first_success_witness :
    (lbRetry.Query rcodeNames [] Background abc).1 = .returned (some expectedDNSMsg) none ∧
      ∃ new, (lbRetry.Query rcodeNames [] Background abc).2.2 = [] ++ new ∧
        invoked new = [0].filter (fun j => !lbRetry.isDown j) ++ [1] ∧
        (∀ j ∈ ([] : List Int), j ∉ invoked new) ∧
        Event.HealthcheckBrokenCount ∉ new :=
  lbDNSClient_Query_first_success rcodeNames lbRetry [] Background abc [0] [] 1
    expectedDNSMsg (by decide)
    (by
      intro j hj
      rw [List.mem_singleton] at hj
      subst hj
      exact Or.inr ⟨some expectedDNSMsg, clientError, by decide⟩)
    (by decide) (by decide)

/-- C3: for each of the three policies and every threshold `maxFails > 0`, if at
least one upstream of the pool is not down when `Query` starts, no upstream whose
failure count exceeds `maxFails` at that moment is invoked during that `Query`
(and no healthcheck-broken event is emitted). -/
theorem lbDNSClient_Query_skips_down (tbl : Int → Option String) (c : lbDNSClient)
    (ev : List Event) (ctx : Context) (dnsreq : List UInt8) (hmax : 0 < c.maxFails)
    (hup : ∃ j ∈ indices c.clients.length, c.isDown j = false) :
    ∃ new, (c.Query tbl ev ctx dnsreq).2.2 = ev ++ new ∧
      (∀ (i : Int) (cl : metricDNSClient), index c.clients i = some cl →
        cl.fails > c.maxFails → i ∉ invoked new) ∧
      Event.HealthcheckBrokenCount ∉ new := by
  obtain ⟨j, hj, hjd⟩ := hup
  have hnd := policy_List_nodup c.p c.clients.length
  have hmem := (policy_List_mem c.p c.clients.length j).2 hj
  obtain ⟨new, h1, h2, h3⟩ := QueryWith_up tbl
    { c with p := (c.p.List (c.clients.length : Int)).2 } ev ctx dnsreq
    (c.p.List (c.clients.length : Int)).1 hnd ⟨j, hmem, hjd⟩
  refine ⟨new, h1, ?_, h3⟩
  intro i cl hi hf hinv
  have hfil := (List.mem_filter.1 (h2.subset hinv)).2
  have hdown : c.isDown i = true := by
    rw [isDown_of_fails hmax hi]
    exact decide_eq_true hf
  have hdown1 : lbDNSClient.isDown { c with p := (c.p.List (c.clients.length : Int)).2 } i =
      true := hdown
  rw [hdown1] at hfil
  cases hfil

/-- Witness of C3: the first of three upstreams is down, the others are not. -/
theorem lbDNSClient_Query_skips_down_witness :
    ∃ new, (lbOneDown.Query rcodeNames [] Background abc).2.2 = [] ++ new ∧
      (∀ (i : Int) (cl : metricDNSClient), index lbOneDown.clients i = some cl →
        cl.fails > lbOneDown.maxFails → i ∉ invoked new) ∧
      Event.HealthcheckBrokenCount ∉ new :=
  lbDNSClient_Query_skips_down rcodeNames lbOneDown [] Background abc (by decide)
    ⟨1, by decide, by decide⟩

/-- C4: if the pool is non-empty and every upstream is down, `Query` emits exactly
one healthcheck-broken event and invokes exactly one upstream exactly once, the
first index of the order the policy produced for this `Query`, whatever its health
state, and returns the message and error of that attempt. -/
theorem lbDNSClient_Query_break_glass (tbl : Int → Option String) (c : lbDNSClient)
    (ev : List Event) (ctx : Context) (dnsreq : List UInt8) (hne : c.clients ≠ [])
    (hall : ∀ j ∈ indices c.clients.length, c.isDown j = true) :
    ∃ id0 rest reply, (c.p.List (c.clients.length : Int)).1 = id0 :: rest ∧
      c.nextReply ctx dnsreq id0 = some reply ∧
      (c.Query tbl ev ctx dnsreq).1 = .returned reply.r reply.err ∧
      ∃ new, (c.Query tbl ev ctx dnsreq).2.2 = ev ++ new ∧
        new.count Event.HealthcheckBrokenCount = 1 ∧ invoked new = [id0] := by
  have hperm := policy_List_perm c.p c.clients.length
  have hlen : 0 < c.clients.length := List.length_pos.2 hne
  cases hids : (c.p.List (c.clients.length : Int)).1 with
  | nil =>
    rw [hids] at hperm
    have := hperm.length_eq
    rw [indices_length] at this
    simp at this
    omega
  | cons id0 rest =>
    have hmem : ∀ j ∈ id0 :: rest, j ∈ indices c.clients.length := by
      intro j hj
      rw [← hids] at hj
      exact (policy_List_mem c.p c.clients.length j).1 hj
    obtain ⟨cl, hcl⟩ := index_of_mem_indices (hmem id0 (List.mem_cons_self _ _))
    have hr : c.nextReply ctx dnsreq id0 =
        some (cl.nextReply (WithTimeout ctx c.timeout) dnsreq) := by
      unfold lbDNSClient.nextReply
      rw [hcl]
      rfl
    obtain ⟨h1, ms, h2, h3, h4⟩ := QueryWith_all_down tbl
      { c with p := (c.p.List (c.clients.length : Int)).2 } ev ctx dnsreq id0 rest _
      (fun j hj => hall j (hmem j hj)) hr
    have hq : c.Query tbl ev ctx dnsreq =
        lbDNSClient.QueryWith tbl { c with p := (c.p.List (c.clients.length : Int)).2 } ev ctx
          dnsreq (id0 :: rest) := by
      unfold lbDNSClient.Query
      simp only [hids]
    rw [hq]
    refine ⟨id0, rest, _, rfl, hr, h1, _, h2, ?_, ?_⟩
    · rw [List.count_cons_self, List.count_eq_zero_of_not_mem]
      intro hm
      rcases List.mem_cons.1 hm with hm | hm
      · cases hm
      · exact h4 hm
    · simp only [invoked, h3]

/-- Witness of C4: both upstreams are down; round robin starts at index 1. -/
theorem lbDNSClient_Query_break_glass_witness :
    ∃ id0 rest reply, (lbAllDown.p.List (lbAllDown.clients.length : Int)).1 = id0 :: rest ∧
      lbAllDown.nextReply Background abc id0 = some reply ∧
      (lbAllDown.Query rcodeNames [] Background abc).1 = .returned reply.r reply.err ∧
      ∃ new, (lbAllDown.Query rcodeNames [] Background abc).2.2 = [] ++ new ∧
        new.count Event.HealthcheckBrokenCount = 1 ∧ invoked new = [id0] :=
  lbDNSClient_Query_break_glass rcodeNames lbAllDown [] Background abc
    (fun h => absurd (congrArg List.length h) (by decide)) (by decide)

theorem Query_all_failed (tbl : Int → Option String) (c : lbDNSClient)
    (ev : List Event) (ctx : Context) (dnsreq : List UInt8)
    (hup : ∃ j ∈ indices c.clients.length, c.isDown j = false)
    (hfail : ∀ j ∈ indices c.clients.length, c.isDown j = false →
      ∃ r e, c.nextReply ctx dnsreq j = some (.failed r e)) :
    ∃ last r e,
      ((c.p.List (c.clients.length : Int)).1.filter (fun j => !c.isDown j)).getLast? =
        some last ∧
      c.nextReply ctx dnsreq last = some (.failed r e) ∧
      (c.Query tbl ev ctx dnsreq).1 = .returned r (some e) ∧
      (c.Query tbl ev ctx dnsreq).2.2 =
        ev ++ ((c.p.List (c.clients.length : Int)).1.filter
          (fun j => !c.isDown j)).map Event.upstream := by
  obtain ⟨j, hj, hjd⟩ := hup
  have hnd := policy_List_nodup c.p c.clients.length
  have hmem := (policy_List_mem c.p c.clients.length j).2 hj
  exact QueryWith_all_failed tbl { c with p := (c.p.List (c.clients.length : Int)).2 } ev ctx
    dnsreq (c.p.List (c.clients.length : Int)).1 hnd ⟨j, hmem, hjd⟩ (by
      intro k hk
      have hk1 := (policy_List_mem c.p c.clients.length k).1 hk
      cases hd : c.isDown k with
      | true => exact Or.inl hd
      | false => exact Or.inr (hfail k hk1 hd))

/-- C5: if at least one upstream is attempted during a `Query` (one is not down)
and every attempted upstream fails, `Query` returns the message and error returned
by the last upstream attempted in policy order, the upstreams invoked are exactly
the ones that are not down, in policy order, and there is no break-glass attempt
and no healthcheck-broken event. -/
theorem lbDNSClient_Query_last_error (tbl : Int → Option String) (c : lbDNSClient)
    (ev : List Event) (ctx : Context) (dnsreq : List UInt8)
    (hup : ∃ j ∈ indices c.clients.length, c.isDown j = false)
    (hfail : ∀ j ∈ indices c.clients.length, c.isDown j = false →
      ∃ r e, c.nextReply ctx dnsreq j = some (.failed r e)) :
    ∃ last r e,
      ((c.p.List (c.clients.length : Int)).1.filter (fun j => !c.isDown j)).getLast? =
        some last ∧
      c.nextReply ctx dnsreq last = some (.failed r e) ∧
      (c.Query tbl ev ctx dnsreq).1 = .returned r (some e) ∧
      ∃ new, (c.Query tbl ev ctx dnsreq).2.2 = ev ++ new ∧
        invoked new = (c.p.List (c.clients.length : Int)).1.filter (fun j => !c.isDown j) ∧
        Event.HealthcheckBrokenCount ∉ new := by
  obtain ⟨last, r, e, h1, h2, h3, h4⟩ := Query_all_failed tbl c ev ctx dnsreq hup hfail
  exact ⟨last, r, e, h1, h2, h3, _, h4, invoked_map_upstream _,
    broken_not_mem_map_upstream _⟩

/-- Witness of C5: two upstreams that fail with different errors. -/
theorem lbDNSClient_Query_last_error_witness :
    ∃ last r e,
      ((lbBothFail.p.List (lbBothFail.clients.length : Int)).1.filter
        (fun j => !lbBothFail.isDown j)).getLast? = some last ∧
      lbBothFail.nextReply Background abc last = some (.failed r e) ∧
      (lbBothFail.Query rcodeNames [] Background abc).1 = .returned r (some e) ∧
      ∃ new, (lbBothFail.Query rcodeNames [] Background abc).2.2 = [] ++ new ∧
        invoked new = (lbBothFail.p.List (lbBothFail.clients.length : Int)).1.filter
          (fun j => !lbBothFail.isDown j) ∧
        Event.HealthcheckBrokenCount ∉ new :=
  lbDNSClient_Query_last_error rcodeNames lbBothFail [] Background abc
    ⟨0, by decide, by decide⟩
    (by
      intro j hj _
      have h := mem_indices.1 hj
      have hlen : lbBothFail.clients.length = 2 := rfl
      rw [hlen] at h
      have hj2 : j = 0 ∨ j = 1 := by omega
      rcases hj2 with rfl | rfl
      · exact ⟨some expectedDNSMsg, clientError, by decide⟩
      · exact ⟨some expectedDNSMsg, .other "context canceled", by decide⟩)

/-- C6, as stated, fails: with an empty upstream list `Query` returns a nil message
together with a nil error, not an error. -/
theorem lbDNSClient_Query_no_upstreams_nil_nil :
    lbEmpty.clients.length = 0 ∧
      (lbEmpty.Query rcodeNames [] Background abc).1 = .returned none none ∧
      ¬ ∃ r e, (lbEmpty.Query rcodeNames [] Background abc).1 = .returned r (some e) := by
  refine ⟨by decide, by decide, ?_⟩
  rintro ⟨r, e, h⟩
  have h0 : (lbEmpty.Query rcodeNames [] Background abc).1 = .returned none none := by decide
  rw [h0] at h
  cases h

/-- C6, amended: with an empty upstream list `Query` invokes no upstream and
returns a nil message together with a nil error, for each policy. -/
theorem lbDNSClient_Query_empty_pool (tbl : Int → Option String) (c : lbDNSClient)
    (ev : List Event) (ctx : Context) (dnsreq : List UInt8) (hempty : c.clients = []) :
    (c.Query tbl ev ctx dnsreq).1 = .returned none none ∧
      ∃ new, (c.Query tbl ev ctx dnsreq).2.2 = ev ++ new ∧ invoked new = [] := by
  have hids : (c.p.List (c.clients.length : Int)).1 = [] := by
    have h := policy_List_perm c.p c.clients.length
    rw [hempty] at h ⊢
    simpa [indices] using h
  unfold lbDNSClient.Query
  simp only [hids]
  unfold lbDNSClient.QueryWith
  rw [rangeLoop_nil]
  simp only [hempty, List.length_nil, gt_iff_lt, Nat.lt_irrefl, if_true, if_false]
  exact ⟨trivial, [Event.HealthcheckBrokenCount], rfl, rfl⟩

/-- Witness of the amended C6 on the load balancer without upstreams. -/
theorem lbDNSClient_Query_empty_pool_witness :
    (lbEmpty.Query rcodeNames [] Background abc).1 = .returned none none ∧
      ∃ new, (lbEmpty.Query rcodeNames [] Background abc).2.2 = [] ++ new ∧
        invoked new = [] :=
  lbDNSClient_Query_empty_pool rcodeNames lbEmpty [] Background abc rfl

/-- C7, as stated, fails: with a context that is cancelled on entry, and so still
exhausted after the failed attempt on upstream 0, `Query` goes on to invoke
upstream 1. -/
theorem lbDNSClient_Query_cancelled_context_continues :
    cancelled.done = true ∧
      (WithTimeout cancelled lbBothFail.timeout).done = true ∧
      invoked (lbBothFail.Query rcodeNames [] cancelled abc).2.2 = [0, 1] ∧
      (lbBothFail.Query rcodeNames [] cancelled abc).2.1.failCounts = [1, 1] := by
  decide

/-- C7, amended: the state of the caller's context does not stop the loop. With a
context that is cancelled or past its deadline (also on entry), `Query` hands the
context, still done, to each attempt under the per-attempt timeout, and with every
attempt failing it invokes each upstream that is not down exactly once, in policy
order, and returns the message and the error of the last of them, that is of the
last upstream of the policy order that is not down. -/
theorem lbDNSClient_Query_context_done (tbl : Int → Option String) (c : lbDNSClient)
    (ev : List Event) (ctx : Context) (dnsreq : List UInt8) (hdone : ctx.done = true)
    (hup : ∃ j ∈ indices c.clients.length, c.isDown j = false)
    (hfail : ∀ j ∈ indices c.clients.length, c.isDown j = false →
      ∃ r e, c.nextReply ctx dnsreq j = some (.failed r e)) :
    invoked (c.Query tbl ev ctx dnsreq).2.2 =
        invoked ev ++
          (c.p.List (c.clients.length : Int)).1.filter (fun j => !c.isDown j) ∧
      (∀ j ∈ indices c.clients.length, c.isDown j = false →
        ((invoked (c.Query tbl ev ctx dnsreq).2.2).count j = (invoked ev).count j + 1)) ∧
      ∃ last cl r e,
        ((c.p.List (c.clients.length : Int)).1.filter (fun j => !c.isDown j)).getLast? =
          some last ∧
        index c.clients last = some cl ∧
        (WithTimeout ctx c.timeout).done = true ∧
        cl.client.answer cl.client.callCount (WithTimeout ctx c.timeout) dnsreq =
          .failed r e ∧
        (c.Query tbl ev ctx dnsreq).1 = .returned r (some e) := by
  obtain ⟨last, r, e, h1, h2, h3, h4⟩ := Query_all_failed tbl c ev ctx dnsreq hup hfail
  refine ⟨?_, ?_, ?_⟩
  · rw [h4, invoked_append, invoked_map_upstream]
  · intro j hj hjd
    rw [h4, invoked_append, invoked_map_upstream, List.count_append]
    congr 1
    apply List.count_eq_one_of_mem
    · exact (policy_List_nodup c.p c.clients.length).filter _
    · exact List.mem_filter.2 ⟨(policy_List_mem c.p c.clients.length j).2 hj, by simp [hjd]⟩
  · unfold lbDNSClient.nextReply at h2
    cases hcl : index c.clients last with
    | none =>
      rw [hcl] at h2
      cases h2
    | some cl =>
      rw [hcl] at h2
      simp only [Option.map_some', Option.some.injEq] at h2
      exact ⟨last, cl, r, e, h1, hcl, hdone, h2, h3⟩

/-- Witness of the amended C7: a cancelled context and two upstreams that fail. -/
theorem lbDNSClient_Query_context_done_witness :
    invoked (lbBothFail.Query rcodeNames [] cancelled abc).2.2 =
        invoked [] ++
          (lbBothFail.p.List (lbBothFail.clients.length : Int)).1.filter
            (fun j => !lbBothFail.isDown j) ∧
      (∀ j ∈ indices lbBothFail.clients.length, lbBothFail.isDown j = false →
        ((invoked (lbBothFail.Query rcodeNames [] cancelled abc).2.2).count j =
          (invoked []).count j + 1)) ∧
      ∃ last cl r e,
        ((lbBothFail.p.List (lbBothFail.clients.length : Int)).1.filter
          (fun j => !lbBothFail.isDown j)).getLast? = some last ∧
        index lbBothFail.clients last = some cl ∧
        (WithTimeout cancelled lbBothFail.timeout).done = true ∧
        cl.client.answer cl.client.callCount (WithTimeout cancelled lbBothFail.timeout) abc =
          .failed r e ∧
        (lbBothFail.Query rcodeNames [] cancelled abc).1 = .returned r (some e) :=
  lbDNSClient_Query_context_done rcodeNames lbBothFail [] cancelled abc rfl
    ⟨0, by decide, by decide⟩
    (by
      intro j hj _
      have h := mem_indices.1 hj
      have hlen : lbBothFail.clients.length = 2 := rfl
      rw [hlen] at h
      have hj2 : j = 0 ∨ j = 1 := by omega
      rcases hj2 with rfl | rfl
      · exact ⟨some expectedDNSMsg, clientError, by decide⟩
      · exact ⟨some expectedDNSMsg, .other "context canceled", by decide⟩)

/-- The query of the witness of C7 returns the error of the second upstream, the
last one of the order: "context canceled", not the "client error" of the first. -/
theorem lbDNSClient_Query_context_done_sample :
    (lbBothFail.Query rcodeNames [] cancelled abc).1 =
      .returned (some expectedDNSMsg) (some (.other "context canceled")) := by
  decide

/-- C8: for every order `ids` without duplicates, the upstreams invoked by the body
of `Query`, in the order of the calls, form a sub-sequence of `ids`, and none is
invoked twice, the break-glass attempt included; so it is for `Query` itself when
`ids` is the order its policy produces. -/
theorem lbDNSClient_Query_attempts_in_order (tbl : Int → Option String) (c : lbDNSClient)
    (ev : List Event) (ctx : Context) (dnsreq : List UInt8) (ids : List Int)
    (hnd : ids.Nodup) :
    (∃ new, (c.QueryWith tbl ev ctx dnsreq ids).2.2 = ev ++ new ∧
        (invoked new).Sublist ids ∧ (invoked new).Nodup) ∧
      ((c.p.List (c.clients.length : Int)).1 = ids →
        ∃ new, (c.Query tbl ev ctx dnsreq).2.2 = ev ++ new ∧
          (invoked new).Sublist ids ∧ (invoked new).Nodup) := by
  constructor
  · obtain ⟨new, h1, h2⟩ := QueryWith_sublist tbl c ev ctx dnsreq ids hnd
    exact ⟨new, h1, h2, h2.nodup hnd⟩
  · intro hids
    obtain ⟨new, h1, h2⟩ := QueryWith_sublist tbl
      { c with p := (c.p.List (c.clients.length : Int)).2 } ev ctx dnsreq ids hnd
    have hq : c.Query tbl ev ctx dnsreq =
        lbDNSClient.QueryWith tbl { c with p := (c.p.List (c.clients.length : Int)).2 } ev ctx
          dnsreq ids := by
      unfold lbDNSClient.Query
      simp only [hids]
    rw [hq]
    exact ⟨new, h1, h2, h2.nodup hnd⟩

/-- Witness of C8 on the load balancer of `TestLoadBalanceDNSClientRetry` and its
sequential order. -/
theorem lbDNSClient_Query_attempts_in_order_witness :
    (∃ new, (lbRetry.QueryWith rcodeNames [] Background abc [0, 1]).2.2 = [] ++ new ∧
        (invoked new).Sublist [0, 1] ∧ (invoked new).Nodup) ∧
      ((lbRetry.p.List (lbRetry.clients.length : Int)).1 = [0, 1] →
        ∃ new, (lbRetry.Query rcodeNames [] Background abc).2.2 = [] ++ new ∧
          (invoked new).Sublist [0, 1] ∧ (invoked new).Nodup) :=
  lbDNSClient_Query_attempts_in_order rcodeNames lbRetry [] Background abc [0, 1]
    (by decide)

/-! ## Health threshold and policies in detail -/

/-- C11: `Down(0)` is false for every failure count; for every `k > 0`, `Down(k)` is
true exactly when the count is strictly greater than `k`, so false when the count
equals `k`; `Fails` returns the count. `Down` and `Fails` only load the counter:
they are functions of the client and return no new state. -/
theorem metricDNSClient_Down_iff (c : metricDNSClient) (k : Nat) :
    c.Down 0 = false ∧
      (0 < k → (c.Down k = true ↔ k < c.fails)) ∧
      (0 < k → c.fails = k → c.Down k = false) ∧
      c.Fails = c.fails := by
  refine ⟨rfl, ?_, ?_, rfl⟩
  · intro hk
    unfold metricDNSClient.Down
    rw [if_neg (by omega)]
    simp
  · intro hk he
    unfold metricDNSClient.Down
    rw [if_neg (by omega)]
    simp [he]

/-- Witness of C11 at the threshold 3 of an upstream with count 3, which is down
for the threshold 2 and not for 3. -/
theorem metricDNSClient_Down_iff_witness :
    recoveringClient.Down 2 = true ∧ recoveringClient.Down 0 = false ∧
      (0 < 3 → (recoveringClient.Down 3 = true ↔ 3 < recoveringClient.fails)) ∧
      (0 < 3 → recoveringClient.fails = 3 → recoveringClient.Down 3 = false) ∧
      recoveringClient.Fails = recoveringClient.fails :=
  ⟨by decide, metricDNSClient_Down_iff recoveringClient 3⟩

theorem roundRobinPolicy_List_robin (p : roundRobinPolicy) (n : Nat) (hn : 0 < n) :
    (p.List n).2.robin = AddUint32 p.robin 1 := by
  unfold roundRobinPolicy.List
  rw [if_neg (by omega)]

theorem roundRobinPolicy_List_head (p : roundRobinPolicy) (n : Nat) (hn : 0 < n) :
    (p.List n).1.head? = some ((AddUint32 p.robin 1 % n : Nat) : Int) := by
  rw [roundRobinPolicy_List_eq p n hn]
  have hlt : AddUint32 p.robin 1 % n < n := Nat.mod_lt _ hn
  obtain ⟨d, hd⟩ : ∃ d, n - AddUint32 p.robin 1 % n = d + 1 := ⟨n - AddUint32 p.robin 1 % n - 1, by omega⟩
  rw [hd, List.range_succ_eq_map]
  simp

/-- C14: for every cursor value and pool size `N > 0`, `roundRobinPolicy.List(N)`
sets the cursor to `(c + 1) mod 2^32` and returns `[i, i+1, ..., N-1, 0, ..., i-1]`
with `i = ((c + 1) mod 2^32) mod N`; for a pool size `M <= 0` it returns the empty
list and leaves the cursor unchanged. -/
theorem roundRobinPolicy_List_rotation (p : roundRobinPolicy) (N : Nat) (M : Int)
    (hN : 0 < N) (hM : M ≤ 0) :
    (p.List N).2.robin = (p.robin + 1) % 2 ^ 32 ∧
      (p.List N).1 =
        (List.range' ((p.robin + 1) % 2 ^ 32 % N) (N - (p.robin + 1) % 2 ^ 32 % N)).map
            Int.ofNat ++
          (List.range ((p.robin + 1) % 2 ^ 32 % N)).map Int.ofNat ∧
      p.List M = ([], p) := by
  refine ⟨roundRobinPolicy_List_robin p N hN, ?_, ?_⟩
  · rw [roundRobinPolicy_List_eq p N hN, List.range'_eq_map_range, List.map_map]
    rfl
  · unfold roundRobinPolicy.List
    rw [if_pos hM]

/-- Witness of C14: cursor at the largest `uint32` value, three upstreams. -/
theorem roundRobinPolicy_List_rotation_witness :
    (roundRobinPolicy.List { robin := 2 ^ 32 - 1 } (3 : Nat)).2.robin =
        (2 ^ 32 - 1 + 1) % 2 ^ 32 ∧
      (roundRobinPolicy.List { robin := 2 ^ 32 - 1 } (3 : Nat)).1 =
        (List.range' ((2 ^ 32 - 1 + 1) % 2 ^ 32 % 3)
            (3 - (2 ^ 32 - 1 + 1) % 2 ^ 32 % 3)).map Int.ofNat ++
          (List.range ((2 ^ 32 - 1 + 1) % 2 ^ 32 % 3)).map Int.ofNat ∧
      roundRobinPolicy.List { robin := 2 ^ 32 - 1 } (-1) = ([], { robin := 2 ^ 32 - 1 }) :=
  roundRobinPolicy_List_rotation { robin := 2 ^ 32 - 1 } 3 (-1) (by decide) (by decide)

/-- C15, as stated, fails when the cursor wraps: from the cursor `2^32 - 2` and with
three upstreams, two successive calls both return the rotation that starts at 0,
and 0 is not `(0 + 1) mod 3`. -/
theorem roundRobinPolicy_List_wrap_repeats :
    (roundRobinPolicy.List { robin := 2 ^ 32 - 2 } 3).1 = [0, 1, 2] ∧
      ((roundRobinPolicy.List { robin := 2 ^ 32 - 2 } 3).2.List 3).1 = [0, 1, 2] ∧
      ¬ ((0 : Int) = (0 + 1) % 3) := by
  decide

/-- C15, amended: for every pool size `N > 0` and every cursor value such that the
cursor does not wrap between the two calls (after the first call it is below
`2^32 - 1`), or such that `N` divides `2^32`, two successive calls of
`roundRobinPolicy.List(N)` return rotations whose starting indices `s1`, `s2`
satisfy `s2 = (s1 + 1) mod N`. -/
theorem roundRobinPolicy_List_successive (p : roundRobinPolicy) (N : Nat) (hN : 0 < N)
    (hwrap : (p.robin + 1) % 2 ^ 32 + 1 < 2 ^ 32 ∨ N ∣ 2 ^ 32) :
    ∃ s1 s2 : Nat, (p.List N).1.head? = some (s1 : Int) ∧
      ((p.List N).2.List N).1.head? = some (s2 : Int) ∧ s2 = (s1 + 1) % N := by
  refine ⟨AddUint32 p.robin 1 % N, AddUint32 (p.List N).2.robin 1 % N,
    roundRobinPolicy_List_head p N hN, roundRobinPolicy_List_head _ N hN, ?_⟩
  rw [roundRobinPolicy_List_robin p N hN]
  unfold AddUint32
  rcases hwrap with h | h
  · rw [Nat.mod_eq_of_lt h, Nat.mod_add_mod]
  · rw [Nat.mod_mod_of_dvd _ h, Nat.mod_add_mod]

/-- Witness of the amended C15 on a fresh cursor and three upstreams. -/
theorem roundRobinPolicy_List_successive_witness :
    ∃ s1 s2 : Nat, (newRoundRobinPolicy.List (3 : Nat)).1.head? = some (s1 : Int) ∧
      ((newRoundRobinPolicy.List (3 : Nat)).2.List (3 : Nat)).1.head? = some (s2 : Int) ∧
      s2 = (s1 + 1) % 3 :=
  roundRobinPolicy_List_successive newRoundRobinPolicy 3 (by decide) (Or.inl (by decide))

/-- C17: `sequentialPolicy.List(N)` is `[0, 1, ..., N-1]` for every `N >= 0` (and
empty for `N < 0`); the policy object is the same after the call, and any two
policy objects return equal lists for the same `N`, so the result does not depend
on the calls made before. -/
theorem sequentialPolicy_List_stateless (p q : sequentialPolicy) (N : Nat) (M : Int) :
    (p.List N).1 = indices N ∧ (p.List N).2 = p ∧
      (q.List M).1 = (p.List M).1 ∧ ((p.List N).2.List M).1 = (p.List M).1 ∧
      (p.List M).1 = indices M.toNat := by
  refine ⟨sequentialPolicy_List_eq p N, ?_, rfl, ?_, ?_⟩
  · unfold sequentialPolicy.List
    split <;> rfl
  · rfl
  · by_cases h : M ≤ 0
    · unfold sequentialPolicy.List
      rw [if_pos h]
      have : M.toNat = 0 := by omega
      rw [this]
      rfl
    · have hM : ((M.toNat : Nat) : Int) = M := by omega
      have e := sequentialPolicy_List_eq p M.toNat
      rw [hM] at e
      exact e

/-! ## Frame of a `Query` -/

theorem attempt_frame (tbl : Int → Option String) (c : lbDNSClient)
    (ev : List Event) (ctx : Context) (dnsreq : List UInt8) (idx : Int) :
    ∃ new, (c.query tbl ev ctx dnsreq idx).2.2 = ev ++ new ∧
      c.agreesOff (c.query tbl ev ctx dnsreq idx).2.1 (invoked new) := by
  cases h : index c.clients idx with
  | none =>
    rw [lbDNSClient_query_none _ _ _ _ _ _ h]
    exact ⟨[], by simp, agreesOff_refl c _⟩
  | some cl =>
    have hag := lbDNSClient_query_agreesOff tbl c ev ctx dnsreq idx
    have hq := lbDNSClient_query_some tbl c ev ctx dnsreq idx cl h
    refine ⟨Event.upstream idx ::
      metricsOf tbl cl.addr (cl.nextReply (WithTimeout ctx c.timeout) dnsreq), ?_, ?_⟩
    · rw [hq]
    · rw [invoked, invoked_metricsOf]
      exact hag

theorem rangeLoop_frame (tbl : Int → Option String) (ctx : Context) (dnsreq : List UInt8)
    (ids : List Int) (c : lbDNSClient) (ev : List Event) (v : Locals) :
    ∃ new, (lbDNSClient.rangeLoop tbl ctx dnsreq ids c ev v).2.2.2 = ev ++ new ∧
      c.agreesOff (lbDNSClient.rangeLoop tbl ctx dnsreq ids c ev v).2.2.1 (invoked new) := by
  induction ids generalizing c ev v with
  | nil =>
    rw [rangeLoop_nil]
    exact ⟨[], by simp, agreesOff_refl c _⟩
  | cons idx ids ih =>
    rcases upstream_cases c ctx dnsreq idx with h | h | ⟨hd, reply, hr⟩
    · rw [rangeLoop_cons_none _ _ _ _ _ _ _ _ h]
      exact ⟨[], by simp, agreesOff_refl c _⟩
    · rw [rangeLoop_cons_down _ _ _ _ _ _ _ _ h]
      exact ih c ev v
    · rw [rangeLoop_cons_up _ _ _ _ _ _ _ _ reply hd hr]
      obtain ⟨m, hm, hag⟩ := attempt_frame tbl c ev ctx dnsreq idx
      split
      · exact ⟨m, hm, hag⟩
      · obtain ⟨new, h1, h2⟩ := ih (c.query tbl ev ctx dnsreq idx).2.1
          (c.query tbl ev ctx dnsreq idx).2.2 (v.attempted reply)
        refine ⟨m ++ new, ?_, ?_⟩
        · rw [h1, hm, List.append_assoc]
        · rw [invoked_append]
          exact agreesOff_trans hag h2 (fun j hj => List.mem_append_left _ hj)
            (fun j hj => List.mem_append_right _ hj)

theorem QueryWith_frame (tbl : Int → Option String) (c : lbDNSClient) (ev : List Event)
    (ctx : Context) (dnsreq : List UInt8) (ids : List Int) :
    ∃ new, (c.QueryWith tbl ev ctx dnsreq ids).2.2 = ev ++ new ∧
      c.agreesOff (c.QueryWith tbl ev ctx dnsreq ids).2.1 (invoked new) := by
  have hfr := rangeLoop_frame tbl ctx dnsreq ids c ev
    { r := none, err := none, attempts := 0, allDown := true }
  have heta := prod4_eta (lbDNSClient.rangeLoop tbl ctx dnsreq ids c ev
    { r := none, err := none, attempts := 0, allDown := true })
  cases hflow : (lbDNSClient.rangeLoop tbl ctx dnsreq ids c ev
    { r := none, err := none, attempts := 0, allDown := true }).1 with
  | returned =>
    rw [hflow] at heta
    rw [QueryWith_returned _ _ _ _ _ _ _ _ _ heta]
    exact hfr
  | panicked =>
    rw [hflow] at heta
    rw [QueryWith_panicked _ _ _ _ _ _ _ _ _ heta]
    exact hfr
  | fallThrough =>
    rw [hflow] at heta
    cases hv : (lbDNSClient.rangeLoop tbl ctx dnsreq ids c ev
      { r := none, err := none, attempts := 0, allDown := true }).2.1.allDown with
    | false =>
      rw [QueryWith_fell_up _ _ _ _ _ _ _ _ _ heta hv]
      exact hfr
    | true =>
      have hsame := rangeLoop_allDown_true _ _ _ _ _ _ _ hv
      have heta1 : lbDNSClient.rangeLoop tbl ctx dnsreq ids c ev
          { r := none, err := none, attempts := 0, allDown := true } =
          (.fallThrough, { r := none, err := none, attempts := 0, allDown := true }, c, ev) := by
        rw [heta, hsame]
      rw [QueryWith_fell_down _ _ _ _ _ _ _ _ _ heta1 rfl]
      split
      · cases ids with
        | nil => exact ⟨[Event.HealthcheckBrokenCount], rfl, agreesOff_refl c _⟩
        | cons id0 rest =>
          obtain ⟨m, hm, hag⟩ := attempt_frame tbl c
            (ev ++ [Event.HealthcheckBrokenCount]) ctx dnsreq id0
          refine ⟨Event.HealthcheckBrokenCount :: m, ?_, ?_⟩
          · simp only [hm, List.append_assoc, List.singleton_append]
          · exact hag
      · exact ⟨[Event.HealthcheckBrokenCount], rfl, agreesOff_refl c _⟩

/-- C13: a `Query` through the load balancer changes the failure count only of
upstreams it invoked. One attempt (`query` on index `idx`) leaves every other
upstream of the pool as it was; after a whole `Query` every upstream that was not
invoked (skipped as down, or placed after the successful one) is the same object,
with the same failure count, as before, and the pool has the same size. -/
theorem lbDNSClient_Query_frame (tbl : Int → Option String) (c : lbDNSClient)
    (ev : List Event) (ctx : Context) (dnsreq : List UInt8) :
    (∀ idx j : Int, j ≠ idx →
        index (c.query tbl ev ctx dnsreq idx).2.1.clients j = index c.clients j) ∧
      ∃ new, (c.Query tbl ev ctx dnsreq).2.2 = ev ++ new ∧
        (c.Query tbl ev ctx dnsreq).2.1.clients.length = c.clients.length ∧
        (∀ j : Int, j ∉ invoked new →
          index (c.Query tbl ev ctx dnsreq).2.1.clients j = index c.clients j) ∧
        (∀ j : Int, j ∉ invoked new →
          (index (c.Query tbl ev ctx dnsreq).2.1.clients j).map metricDNSClient.Fails =
            (index c.clients j).map metricDNSClient.Fails) := by
  constructor
  · intro idx j hne
    exact (lbDNSClient_query_agreesOff tbl c ev ctx dnsreq idx).2.2.2 j (by simpa using hne)
  · obtain ⟨new, h1, h2⟩ := QueryWith_frame tbl
      { c with p := (c.p.List (c.clients.length : Int)).2 } ev ctx dnsreq
      (c.p.List (c.clients.length : Int)).1
    refine ⟨new, h1, h2.2.2.1, ?_, ?_⟩
    · intro j hj
      exact h2.2.2.2 j hj
    · intro j hj
      have e : index (c.Query tbl ev ctx dnsreq).2.1.clients j = index c.clients j :=
        h2.2.2.2 j hj
      rw [e]

/-! ## Successive calls and successive queries -/

theorem metricDNSClient_Query_state (tbl : Int → Option String) (c : metricDNSClient)
    (events : List Event) (ctx : Context) (dnsreq : List UInt8) :
    (c.Query tbl events ctx dnsreq).2.1 = c.served (c.nextReply ctx dnsreq) := by
  unfold metricDNSClient.Query metricDNSClient.nextReply dnsClient.Query
    metricDNSClient.served
  cases c.client.answer c.client.callCount ctx dnsreq <;> rfl

theorem lbDNSClient_query_state (tbl : Int → Option String) (c : lbDNSClient)
    (ev : List Event) (ctx : Context) (dnsreq : List UInt8) (idx : Int) (cl : metricDNSClient)
    (h : index c.clients idx = some cl) :
    (c.query tbl ev ctx dnsreq idx).2.1 =
      { c with
        clients :=
          (c.clients.set idx.toNat
            (cl.served (cl.nextReply (WithTimeout ctx c.timeout) dnsreq))) } := by
  unfold lbDNSClient.query
  simp only [h, metricDNSClient_Query_state]

theorem lbDNSClient_query_p (tbl : Int → Option String) (c : lbDNSClient)
    (ev : List Event) (ctx : Context) (dnsreq : List UInt8) (idx : Int) :
    (c.query tbl ev ctx dnsreq idx).2.1.p = c.p := by
  unfold lbDNSClient.query
  cases index c.clients idx <;> rfl

theorem rangeLoop_p (tbl : Int → Option String) (ctx : Context) (dnsreq : List UInt8)
    (ids : List Int) (c : lbDNSClient) (ev : List Event) (v : Locals) :
    (lbDNSClient.rangeLoop tbl ctx dnsreq ids c ev v).2.2.1.p = c.p := by
  induction ids generalizing c ev v with
  | nil => rw [rangeLoop_nil]
  | cons idx ids ih =>
    rcases upstream_cases c ctx dnsreq idx with h | h | ⟨hd, reply, hr⟩
    · rw [rangeLoop_cons_none _ _ _ _ _ _ _ _ h]
    · rw [rangeLoop_cons_down _ _ _ _ _ _ _ _ h]
      exact ih c ev v
    · rw [rangeLoop_cons_up _ _ _ _ _ _ _ _ reply hd hr]
      split
      · exact lbDNSClient_query_p tbl c ev ctx dnsreq idx
      · rw [ih]
        exact lbDNSClient_query_p tbl c ev ctx dnsreq idx

theorem QueryWith_p (tbl : Int → Option String) (c : lbDNSClient) (ev : List Event)
    (ctx : Context) (dnsreq : List UInt8) (ids : List Int) :
    (c.QueryWith tbl ev ctx dnsreq ids).2.1.p = c.p := by
  have hp := rangeLoop_p tbl ctx dnsreq ids c ev
    { r := none, err := none, attempts := 0, allDown := true }
  have heta := prod4_eta (lbDNSClient.rangeLoop tbl ctx dnsreq ids c ev
    { r := none, err := none, attempts := 0, allDown := true })
  cases hflow : (lbDNSClient.rangeLoop tbl ctx dnsreq ids c ev
    { r := none, err := none, attempts := 0, allDown := true }).1 with
  | returned =>
    rw [hflow] at heta
    rw [QueryWith_returned _ _ _ _ _ _ _ _ _ heta]
    exact hp
  | panicked =>
    rw [hflow] at heta
    rw [QueryWith_panicked _ _ _ _ _ _ _ _ _ heta]
    exact hp
  | fallThrough =>
    rw [hflow] at heta
    cases hv : (lbDNSClient.rangeLoop tbl ctx dnsreq ids c ev
      { r := none, err := none, attempts := 0, allDown := true }).2.1.allDown with
    | false =>
      rw [QueryWith_fell_up _ _ _ _ _ _ _ _ _ heta hv]
      exact hp
    | true =>
      rw [QueryWith_fell_down _ _ _ _ _ _ _ _ _ heta hv]
      split
      · cases ids with
        | nil => exact hp
        | cons id0 rest =>
          simp only []
          rw [lbDNSClient_query_p]
          exact hp
      · exact hp

theorem Query_p (tbl : Int → Option String) (c : lbDNSClient) (ev : List Event)
    (ctx : Context) (dnsreq : List UInt8) :
    (c.Query tbl ev ctx dnsreq).2.1.p = (c.p.List (c.clients.length : Int)).2 := by
  unfold lbDNSClient.Query
  exact QueryWith_p tbl _ ev ctx dnsreq _

theorem afterCalls_robin (N : Nat) (hN : 0 < N) (j : Nat) :
    (newRoundRobinPolicy.afterCalls N j).robin = j % 2 ^ 32 := by
  induction j with
  | zero => rfl
  | succ j ih =>
    rw [roundRobinPolicy.afterCalls, roundRobinPolicy_List_robin _ N hN, ih]
    unfold AddUint32
    rw [Nat.mod_add_mod]

theorem Query_of_ids (tbl : Int → Option String) (c : lbDNSClient) (ev : List Event)
    (ctx : Context) (dnsreq : List UInt8) (ids : List Int)
    (h : (c.p.List (c.clients.length : Int)).1 = ids) :
    c.Query tbl ev ctx dnsreq =
      lbDNSClient.QueryWith tbl { c with p := (c.p.List (c.clients.length : Int)).2 } ev ctx
        dnsreq ids := by
  unfold lbDNSClient.Query
  simp only [h]

theorem isDown_of_fresh (c : lbDNSClient) (idx : Int) (cl : metricDNSClient)
    (h : index c.clients idx = some cl) (hf : cl.fails = 0) : c.isDown idx = false := by
  unfold lbDNSClient.isDown
  rw [h]
  simp only [metricDNSClient.Down, hf]
  split
  · rfl
  · simp

theorem nextReply_of_index (c : lbDNSClient) (ctx : Context) (dnsreq : List UInt8)
    (idx : Int) (cl : metricDNSClient) (h : index c.clients idx = some cl) :
    c.nextReply ctx dnsreq idx =
      some (cl.client.answer cl.client.callCount (WithTimeout ctx c.timeout) dnsreq) := by
  unfold lbDNSClient.nextReply
  rw [h]
  rfl

/-- C16: on a freshly constructed round-robin policy the `k`-th call `List(N)`
(`1 <= k < 2^32`, `N > 0`) returns the rotation that starts at index `k mod N`; so
with two fresh upstreams that always succeed, the first `Query` succeeds invoking
only upstream 1 and the second `Query` succeeds invoking only upstream 0. -/
theorem roundRobin_kth_call (tbl : Int → Option String) (k N : Nat) (c : lbDNSClient)
    (u0 u1 : metricDNSClient) (ev : List Event) (ctx1 ctx2 : Context)
    (req1 req2 : List UInt8)
    (hk1 : 1 ≤ k) (hk2 : k < 2 ^ 32) (hN : 0 < N)
    (hp : c.p = .roundRobin newRoundRobinPolicy) (hcl : c.clients = [u0, u1])
    (hf0 : u0.fails = 0) (hf1 : u1.fails = 0)
    (hok0 : ∀ n ctx req, ∃ m, u0.client.answer n ctx req = .ok m)
    (hok1 : ∀ n ctx req, ∃ m, u1.client.answer n ctx req = .ok m) :
    ((newRoundRobinPolicy.afterCalls N (k - 1)).List N).1 =
        (List.range' (k % N) (N - k % N)).map Int.ofNat ++
          (List.range (k % N)).map Int.ofNat ∧
      ∃ m1 m2 new1 new2,
        (c.Query tbl ev ctx1 req1).1 = .returned (some m1) none ∧
        (c.Query tbl ev ctx1 req1).2.2 = ev ++ new1 ∧ invoked new1 = [1] ∧
        ((c.Query tbl ev ctx1 req1).2.1.Query tbl (c.Query tbl ev ctx1 req1).2.2
          ctx2 req2).1 = .returned (some m2) none ∧
        ((c.Query tbl ev ctx1 req1).2.1.Query tbl (c.Query tbl ev ctx1 req1).2.2
          ctx2 req2).2.2 = ev ++ new1 ++ new2 ∧ invoked new2 = [0] := by
  constructor
  · rw [roundRobinPolicy_List_eq _ N hN, afterCalls_robin N hN]
    have e : AddUint32 ((k - 1) % 2 ^ 32) 1 = k := by
      unfold AddUint32
      rw [Nat.mod_add_mod, (by omega : k - 1 + 1 = k), Nat.mod_eq_of_lt hk2]
    rw [e, List.range'_eq_map_range, List.map_map]
    rfl
  · -- the first query
    have hi0 : index c.clients 0 = some u0 := by rw [hcl]; rfl
    have hi1 : index c.clients 1 = some u1 := by rw [hcl]; rfl
    have hids1 : (c.p.List (c.clients.length : Int)).1 = [] ++ 1 :: [0] := by
      rw [hp, hcl]
      rfl
    obtain ⟨m1, hm1⟩ := hok1 u1.client.callCount (WithTimeout ctx1 c.timeout) req1
    have hq1 := Query_of_ids tbl c ev ctx1 req1 _ hids1
    obtain ⟨a1, ms1, a2, a3, _⟩ := QueryWith_first_success tbl
      { c with p := (c.p.List (c.clients.length : Int)).2 } ev ctx1 req1 [] [0] 1 m1
      (by decide) (fun j hj => by cases hj) (isDown_of_fresh c 1 u1 hi1 hf1)
      ((nextReply_of_index c ctx1 req1 1 u1 hi1).trans (by rw [hm1]))
    rw [← hq1] at a1 a2
    simp only [List.filter_nil, List.map_nil, List.append_nil] at a2
    -- the load balancer after it
    have hp1 : (c.Query tbl ev ctx1 req1).2.1.p = .roundRobin { robin := 1 } := by
      rw [Query_p, hp, hcl]
      rfl
    obtain ⟨nw, b1, b2⟩ := QueryWith_frame tbl
      { c with p := (c.p.List (c.clients.length : Int)).2 } ev ctx1 req1 ([] ++ 1 :: [0])
    rw [← hq1] at b1 b2
    have hnw : nw = Event.upstream 1 :: ms1 := List.append_cancel_left (b1.symm.trans a2)
    have hinv : invoked nw = [1] := by rw [hnw, invoked, a3]
    rw [hinv] at b2
    have hj0 : index (c.Query tbl ev ctx1 req1).2.1.clients 0 = some u0 :=
      (b2.2.2.2 0 (by decide)).trans hi0
    have hlen : (c.Query tbl ev ctx1 req1).2.1.clients.length = 2 := by
      rw [b2.2.2.1]
      show c.clients.length = 2
      rw [hcl]
      rfl
    have hto : (c.Query tbl ev ctx1 req1).2.1.timeout = c.timeout := b2.2.1
    -- the second query
    have hids2 : ((c.Query tbl ev ctx1 req1).2.1.p.List
        ((c.Query tbl ev ctx1 req1).2.1.clients.length : Int)).1 = [] ++ 0 :: [1] := by
      rw [hp1, hlen]
      rfl
    obtain ⟨m2, hm2⟩ := hok0 u0.client.callCount
      (WithTimeout ctx2 (c.Query tbl ev ctx1 req1).2.1.timeout) req2
    have hq2 := Query_of_ids tbl (c.Query tbl ev ctx1 req1).2.1
      (c.Query tbl ev ctx1 req1).2.2 ctx2 req2 _ hids2
    obtain ⟨d1, ms2, d2, d3, _⟩ := QueryWith_first_success tbl
      { (c.Query tbl ev ctx1 req1).2.1 with
        p := ((c.Query tbl ev ctx1 req1).2.1.p.List
          ((c.Query tbl ev ctx1 req1).2.1.clients.length : Int)).2 }
      (c.Query tbl ev ctx1 req1).2.2 ctx2 req2 [] [1] 0 m2
      (by decide) (fun j hj => by cases hj)
      (isDown_of_fresh (c.Query tbl ev ctx1 req1).2.1 0 u0 hj0 hf0)
      ((nextReply_of_index (c.Query tbl ev ctx1 req1).2.1 ctx2 req2 0 u0 hj0).trans
        (by rw [hm2]))
    rw [← hq2] at d1 d2
    simp only [List.filter_nil, List.map_nil, List.append_nil] at d2
    refine ⟨m1, m2, Event.upstream 1 :: ms1, Event.upstream 0 :: ms2, a1, a2, ?_, d1, ?_, ?_⟩
    · rw [invoked, a3]
    · rw [d2, a2]
    · rw [invoked, d3]

/-- Witness of C16: the third call with five upstreams, and the load balancer of
`TestLoadBalanceDNSClientPolicy`. -/
theorem roundRobin_kth_call_witness :
    ((newRoundRobinPolicy.afterCalls (5 : Nat) (3 - 1)).List (5 : Nat)).1 =
        (List.range' (3 % 5) (5 - 3 % 5)).map Int.ofNat ++
          (List.range (3 % 5)).map Int.ofNat ∧
      ∃ m1 m2 new1 new2,
        (lbRoundRobin.Query rcodeNames [] Background abc).1 = .returned (some m1) none ∧
        (lbRoundRobin.Query rcodeNames [] Background abc).2.2 = [] ++ new1 ∧
        invoked new1 = [1] ∧
        ((lbRoundRobin.Query rcodeNames [] Background abc).2.1.Query rcodeNames
          (lbRoundRobin.Query rcodeNames [] Background abc).2.2
          Background abc).1 = .returned (some m2) none ∧
        ((lbRoundRobin.Query rcodeNames [] Background abc).2.1.Query rcodeNames
          (lbRoundRobin.Query rcodeNames [] Background abc).2.2
          Background abc).2.2 = [] ++ new1 ++ new2 ∧ invoked new2 = [0] :=
  roundRobin_kth_call rcodeNames 3 5 lbRoundRobin
    (newMetricDNSClient (mockDNSClient none) "test-addr1")
    (newMetricDNSClient (mockDNSClient none) "test-addr2") [] Background Background abc abc
    (by decide) (by decide) (by decide) rfl rfl rfl rfl
    (fun _ _ _ => ⟨expectedDNSMsg, rfl⟩) (fun _ _ _ => ⟨expectedDNSMsg, rfl⟩)

theorem seqPair_step (tbl : Int → Option String) (t : Int) (k : Nat)
    (a0 a1 : Nat → Context → List UInt8 → Reply) (ad0 ad1 : String) (cc0 cc1 n : Nat)
    (ev : List Event) (ctx : Context) (dnsreq : List UInt8)
    (hk1 : 1 ≤ k) (hk2 : k < 2 ^ 32 - 1)
    (hfail : ∀ n ctx req, ∃ r e, a0 n ctx req = .failed r e)
    (m : Msg) (hm : a1 (cc1 + n) (WithTimeout ctx t) dnsreq = .ok m) :
    (seqPair t k a0 a1 ad0 ad1 cc0 cc1 n).Query tbl ev ctx dnsreq =
      (.returned (some m) none, seqPair t k a0 a1 ad0 ad1 cc0 cc1 (n + 1),
        ev ++ (if n ≤ k then [Event.upstream 0] else []) ++
          Event.upstream 1 :: metricsOf tbl ad1 (.ok m)) := by
  have hq := Query_of_ids tbl (seqPair t k a0 a1 ad0 ad1 cc0 cc1 n) ev ctx dnsreq [0, 1] rfl
  have hc0 : ({ seqPair t k a0 a1 ad0 ad1 cc0 cc1 n with
      p := ((seqPair t k a0 a1 ad0 ad1 cc0 cc1 n).p.List
        ((seqPair t k a0 a1 ad0 ad1 cc0 cc1 n).clients.length : Int)).2 } : lbDNSClient) =
      seqPair t k a0 a1 ad0 ad1 cc0 cc1 n := rfl
  rw [hq, hc0]
  have hi1 : ∀ x : metricDNSClient, index [x,
      ({ fails := 0, client := { callCount := cc1 + n, answer := a1 }, addr := ad1 } :
        metricDNSClient)] 1 =
      some { fails := 0, client := { callCount := cc1 + n, answer := a1 }, addr := ad1 } :=
    fun _ => rfl
  by_cases hn : n ≤ k
  · -- the first upstream is not down: it is asked and fails
    have hmin : min n (k + 1) = n := Nat.min_eq_left (by omega)
    have hmin1 : min (n + 1) (k + 1) = n + 1 := Nat.min_eq_left (by omega)
    obtain ⟨r, e, hre⟩ := hfail (cc0 + n) (WithTimeout ctx t) dnsreq
    have hi0 : index (seqPair t k a0 a1 ad0 ad1 cc0 cc1 n).clients 0 =
        some { fails := n, client := { callCount := cc0 + n, answer := a0 }, addr := ad0 } := by
      simp only [seqPair, hmin]
      rfl
    have hd0 : (seqPair t k a0 a1 ad0 ad1 cc0 cc1 n).isDown 0 = false := by
      unfold lbDNSClient.isDown
      rw [hi0]
      simp only [metricDNSClient.Down, seqPair]
      rw [if_neg (by omega)]
      simp only [gt_iff_lt, decide_eq_false_iff_not, not_lt]
      exact hn
    have hr0 : (seqPair t k a0 a1 ad0 ad1 cc0 cc1 n).nextReply ctx dnsreq 0 =
        some (.failed r e) := by
      rw [nextReply_of_index _ _ _ _ _ hi0]
      exact congrArg some hre
    have hs0 := lbDNSClient_query_state tbl (seqPair t k a0 a1 ad0 ad1 cc0 cc1 n) ev ctx
      dnsreq 0 _ hi0
    have he0 := lbDNSClient_query_some tbl (seqPair t k a0 a1 ad0 ad1 cc0 cc1 n) ev ctx
      dnsreq 0 _ hi0
    have hnr : metricDNSClient.nextReply
        { fails := n, client := { callCount := cc0 + n, answer := a0 }, addr := ad0 }
        (WithTimeout ctx (seqPair t k a0 a1 ad0 ad1 cc0 cc1 n).timeout) dnsreq =
        .failed r e := hre
    rw [hnr] at hs0 he0
    have hinc : (n + 1) % 2 ^ 32 = n + 1 := Nat.mod_eq_of_lt (by omega)
    have hserved : metricDNSClient.served
        { fails := n, client := { callCount := cc0 + n, answer := a0 }, addr := ad0 }
        (.failed r e) =
        { fails := n + 1, client := { callCount := cc0 + (n + 1), answer := a0 },
          addr := ad0 } := by
      simp only [metricDNSClient.served, metricDNSClient.incrementFails, AddUint32, hinc]
      rw [if_neg (by omega)]
      rfl
    rw [hserved] at hs0
    have hs0e : ((seqPair t k a0 a1 ad0 ad1 cc0 cc1 n).query tbl ev ctx dnsreq 0).2.1 =
        { p := .sequential newSequentialPolicy, timeout := t, maxFails := k,
          clients :=
            [{ fails := n + 1, client := { callCount := cc0 + (n + 1), answer := a0 },
               addr := ad0 },
              { fails := 0, client := { callCount := cc1 + n, answer := a1 },
                addr := ad1 }] } := by
      rw [hs0]
      rfl
    have he0e : ((seqPair t k a0 a1 ad0 ad1 cc0 cc1 n).query tbl ev ctx dnsreq 0).2.2 =
        ev ++ [Event.upstream 0] := by
      rw [he0]
      rfl
    have hloop := rangeLoop_cons_up tbl ctx dnsreq 0 [1]
      (seqPair t k a0 a1 ad0 ad1 cc0 cc1 n) ev
      { r := none, err := none, attempts := 0, allDown := true } (.failed r e) hd0 hr0
    simp only [Reply.err, Option.isNone_some, Bool.false_eq_true, if_false] at hloop
    rw [hs0e, he0e] at hloop
    -- the second upstream is asked and answers
    have hd1 := isDown_of_fresh
      { p := .sequential newSequentialPolicy, timeout := t, maxFails := k,
        clients :=
          [{ fails := n + 1, client := { callCount := cc0 + (n + 1), answer := a0 },
             addr := ad0 },
            { fails := 0, client := { callCount := cc1 + n, answer := a1 },
              addr := ad1 }] } 1 _ (hi1 _) rfl
    have hr1 := (nextReply_of_index
      { p := .sequential newSequentialPolicy, timeout := t, maxFails := k,
        clients :=
          [{ fails := n + 1, client := { callCount := cc0 + (n + 1), answer := a0 },
             addr := ad0 },
            { fails := 0, client := { callCount := cc1 + n, answer := a1 },
              addr := ad1 }] } ctx dnsreq 1 _ (hi1 _)).trans (congrArg some hm)
    have hloop1 := rangeLoop_cons_up tbl ctx dnsreq 1 [] _ (ev ++ [Event.upstream 0])
      (Locals.attempted { r := none, err := none, attempts := 0, allDown := true }
        (.failed r e)) (.ok m) hd1 hr1
    simp only [Reply.err, Option.isNone_none, if_true] at hloop1
    rw [hloop1] at hloop
    have hs1 := lbDNSClient_query_state tbl
      { p := .sequential newSequentialPolicy, timeout := t, maxFails := k,
        clients :=
          [{ fails := n + 1, client := { callCount := cc0 + (n + 1), answer := a0 },
             addr := ad0 },
            { fails := 0, client := { callCount := cc1 + n, answer := a1 },
              addr := ad1 }] } (ev ++ [Event.upstream 0]) ctx dnsreq 1 _ (hi1 _)
    have he1 := lbDNSClient_query_some tbl
      { p := .sequential newSequentialPolicy, timeout := t, maxFails := k,
        clients :=
          [{ fails := n + 1, client := { callCount := cc0 + (n + 1), answer := a0 },
             addr := ad0 },
            { fails := 0, client := { callCount := cc1 + n, answer := a1 },
              addr := ad1 }] } (ev ++ [Event.upstream 0]) ctx dnsreq 1 _ (hi1 _)
    have hnr1 : metricDNSClient.nextReply
        { fails := 0, client := { callCount := cc1 + n, answer := a1 }, addr := ad1 }
        (WithTimeout ctx t) dnsreq = .ok m := hm
    simp only [hnr1] at hs1 he1
    rw [QueryWith_returned _ _ _ _ _ _ _ _ _ hloop, hs1, he1]
    simp only [if_pos hn, seqPair, hmin1, Locals.attempted, Reply.r, Reply.err,
      metricDNSClient.served, List.append_assoc, List.singleton_append,
      Int.toNat_one, Nat.add_assoc]
    rfl
  · -- the first upstream is down: only the second is asked
    have hmin : min n (k + 1) = k + 1 := Nat.min_eq_right (by omega)
    have hmin1 : min (n + 1) (k + 1) = k + 1 := Nat.min_eq_right (by omega)
    have hi0 : index (seqPair t k a0 a1 ad0 ad1 cc0 cc1 n).clients 0 =
        some
          { fails := k + 1, client := { callCount := cc0 + (k + 1), answer := a0 },
            addr := ad0 } := by
      simp only [seqPair, hmin]
      rfl
    have hd0 : (seqPair t k a0 a1 ad0 ad1 cc0 cc1 n).isDown 0 = true := by
      unfold lbDNSClient.isDown
      rw [hi0]
      simp only [metricDNSClient.Down, seqPair]
      rw [if_neg (by omega)]
      simp
    have hloop := rangeLoop_cons_down tbl ctx dnsreq 0 [1]
      (seqPair t k a0 a1 ad0 ad1 cc0 cc1 n) ev
      { r := none, err := none, attempts := 0, allDown := true } hd0
    have hi1s : index (seqPair t k a0 a1 ad0 ad1 cc0 cc1 n).clients 1 =
        some { fails := 0, client := { callCount := cc1 + n, answer := a1 }, addr := ad1 } :=
      rfl
    have hd1 := isDown_of_fresh (seqPair t k a0 a1 ad0 ad1 cc0 cc1 n) 1 _ hi1s rfl
    have hr1 := (nextReply_of_index (seqPair t k a0 a1 ad0 ad1 cc0 cc1 n) ctx dnsreq 1 _
      hi1s).trans (congrArg some hm)
    have hloop1 := rangeLoop_cons_up tbl ctx dnsreq 1 []
      (seqPair t k a0 a1 ad0 ad1 cc0 cc1 n) ev
      { r := none, err := none, attempts := 0, allDown := true } (.ok m) hd1 hr1
    simp only [Reply.err, Option.isNone_none, if_true] at hloop1
    rw [hloop1] at hloop
    have hs1 := lbDNSClient_query_state tbl (seqPair t k a0 a1 ad0 ad1 cc0 cc1 n) ev ctx
      dnsreq 1 _ hi1s
    have he1 := lbDNSClient_query_some tbl (seqPair t k a0 a1 ad0 ad1 cc0 cc1 n) ev ctx
      dnsreq 1 _ hi1s
    have hnr1 : metricDNSClient.nextReply
        { fails := 0, client := { callCount := cc1 + n, answer := a1 }, addr := ad1 }
        (WithTimeout ctx (seqPair t k a0 a1 ad0 ad1 cc0 cc1 n).timeout) dnsreq = .ok m := hm
    simp only [hnr1] at hs1 he1
    rw [QueryWith_returned _ _ _ _ _ _ _ _ _ hloop, hs1, he1]
    simp only [if_neg hn, seqPair, hmin, hmin1, Locals.attempted, Reply.r, Reply.err,
      metricDNSClient.served, List.append_nil, Int.toNat_one, Nat.add_assoc]
    rfl

theorem seqPair_run (tbl : Int → Option String) (t : Int) (k : Nat)
    (a0 a1 : Nat → Context → List UInt8 → Reply) (ad0 ad1 : String) (cc0 cc1 : Nat)
    (hk1 : 1 ≤ k) (hk2 : k < 2 ^ 32 - 1)
    (hfail : ∀ n ctx req, ∃ r e, a0 n ctx req = .failed r e)
    (hok : ∀ n ctx req, ∃ m, a1 n ctx req = .ok m)
    (qs : List (Context × List UInt8)) (n : Nat) (ev : List Event) :
    (lbDNSClient.run tbl (seqPair t k a0 a1 ad0 ad1 cc0 cc1 n) ev qs).1 =
      seqPair t k a0 a1 ad0 ad1 cc0 cc1 (n + qs.length) := by
  induction qs generalizing n ev with
  | nil => rfl
  | cons q qs ih =>
    obtain ⟨m, hm⟩ := hok (cc1 + n) (WithTimeout q.1 t) q.2
    rw [lbDNSClient.run,
      seqPair_step tbl t k a0 a1 ad0 ad1 cc0 cc1 n ev q.1 q.2 hk1 hk2 hfail m hm]
    simp only []
    rw [ih, List.length_cons]
    congr 1
    omega

/-- C12: with the sequential policy, a threshold `k` with `1 <= k < 2^32 - 1` and
two fresh upstreams of which the first always fails and the second always succeeds:
after any `n` queries the first upstream has failure count `min(n, k+1)` and has
been called that many times, the second has count 0 and has been called `n` times;
the next query, number `n + 1`, succeeds with the message of the second upstream,
and it invokes the first upstream exactly when `n + 1 <= k + 1`. -/
theorem sequential_two_upstreams (tbl : Int → Option String) (k : Nat) (c : lbDNSClient)
    (u0 u1 : metricDNSClient) (ev : List Event) (qs : List (Context × List UInt8))
    (ctx : Context) (dnsreq : List UInt8)
    (hk1 : 1 ≤ k) (hk2 : k < 2 ^ 32 - 1)
    (hp : c.p = .sequential newSequentialPolicy) (hmax : c.maxFails = k)
    (hcl : c.clients = [u0, u1]) (hf0 : u0.fails = 0) (hf1 : u1.fails = 0)
    (hfail : ∀ n ctx req, ∃ r e, u0.client.answer n ctx req = .failed r e)
    (hok : ∀ n ctx req, ∃ m, u1.client.answer n ctx req = .ok m) :
    (lbDNSClient.run tbl c ev qs).1.failCounts = [min qs.length (k + 1), 0] ∧
      (lbDNSClient.run tbl c ev qs).1.callCounts =
        [u0.client.callCount + min qs.length (k + 1), u1.client.callCount + qs.length] ∧
      ∃ m new,
        (lbDNSClient.run tbl c ev qs).1.nextReply ctx dnsreq 1 = some (.ok m) ∧
        ((lbDNSClient.run tbl c ev qs).1.Query tbl (lbDNSClient.run tbl c ev qs).2
          ctx dnsreq).1 = .returned (some m) none ∧
        ((lbDNSClient.run tbl c ev qs).1.Query tbl (lbDNSClient.run tbl c ev qs).2
          ctx dnsreq).2.2 = (lbDNSClient.run tbl c ev qs).2 ++ new ∧
        invoked new = if qs.length ≤ k then [0, 1] else [1] := by
  have hc : c = seqPair c.timeout k u0.client.answer u1.client.answer u0.addr u1.addr
      u0.client.callCount u1.client.callCount 0 := by
    obtain ⟨p, t, mf, cls⟩ := c
    obtain ⟨f0, ⟨cc0, a0⟩, ad0⟩ := u0
    obtain ⟨f1, ⟨cc1, a1⟩, ad1⟩ := u1
    simp only at hp hmax hcl hf0 hf1
    subst hp hmax hcl hf0 hf1
    simp [seqPair]
  have hrun := seqPair_run tbl c.timeout k u0.client.answer u1.client.answer u0.addr u1.addr
    u0.client.callCount u1.client.callCount hk1 hk2 hfail hok qs 0 ev
  rw [← hc, Nat.zero_add] at hrun
  obtain ⟨m, hm⟩ := hok (u1.client.callCount + qs.length) (WithTimeout ctx c.timeout) dnsreq
  have hstep := seqPair_step tbl c.timeout k u0.client.answer u1.client.answer u0.addr
    u1.addr u0.client.callCount u1.client.callCount qs.length
    (lbDNSClient.run tbl c ev qs).2 ctx dnsreq hk1 hk2 hfail m hm
  rw [← hrun] at hstep
  refine ⟨?_, ?_, m, (if qs.length ≤ k then [Event.upstream 0] else []) ++
    Event.upstream 1 :: metricsOf tbl u1.addr (.ok m), ?_, ?_, ?_, ?_⟩
  · rw [hrun]; rfl
  · rw [hrun]; rfl
  · rw [hrun]
    exact congrArg some hm
  · rw [hstep]
  · rw [hstep, List.append_assoc]
  · rw [invoked_append, invoked, invoked_metricsOf]
    split <;> rfl

/-- Witness of C12 on the load balancer of `TestLoadBalanceDNSClientMaxFails`
after three queries: the fourth query asks only the second upstream. -/
theorem sequential_two_upstreams_witness :
    (lbDNSClient.run rcodeNames lbMaxFails []
        [(Background, abc), (Background, abc), (Background, abc)]).1.failCounts =
        [min 3 (2 + 1), 0] ∧
      (lbDNSClient.run rcodeNames lbMaxFails []
        [(Background, abc), (Background, abc), (Background, abc)]).1.callCounts =
        [0 + min 3 (2 + 1), 0 + 3] ∧
      ∃ m new,
        (lbDNSClient.run rcodeNames lbMaxFails []
          [(Background, abc), (Background, abc), (Background, abc)]).1.nextReply
            Background abc 1 = some (.ok m) ∧
        ((lbDNSClient.run rcodeNames lbMaxFails []
          [(Background, abc), (Background, abc), (Background, abc)]).1.Query rcodeNames
          (lbDNSClient.run rcodeNames lbMaxFails []
            [(Background, abc), (Background, abc), (Background, abc)]).2
          Background abc).1 = .returned (some m) none ∧
        ((lbDNSClient.run rcodeNames lbMaxFails []
          [(Background, abc), (Background, abc), (Background, abc)]).1.Query rcodeNames
          (lbDNSClient.run rcodeNames lbMaxFails []
            [(Background, abc), (Background, abc), (Background, abc)]).2
          Background abc).2.2 =
          (lbDNSClient.run rcodeNames lbMaxFails []
            [(Background, abc), (Background, abc), (Background, abc)]).2 ++ new ∧
        invoked new = if 3 ≤ 2 then [0, 1] else [1] :=
  sequential_two_upstreams rcodeNames 2 lbMaxFails
    (newMetricDNSClient (mockDNSClient (some clientError)) "test-addr1")
    (newMetricDNSClient (mockDNSClient none) "test-addr2") []
    [(Background, abc), (Background, abc), (Background, abc)] Background abc
    (by decide) (by decide) rfl rfl rfl rfl rfl
    (fun _ _ _ => ⟨some expectedDNSMsg, clientError, rfl⟩)
    (fun _ _ _ => ⟨expectedDNSMsg, rfl⟩)

/-! ## Properties of the wire client -/

theorem dohDNSClient_Query_of_response (nre : String → Option Error)
    (Unpack : List UInt8 → Msg × Option Error) (c : dohDNSClient) (ctx : Context)
    (dnsreq : List UInt8) (resp : Response) (hnew : nre c.url = none)
    (hdo : c.client.respond c.client.callCount (c.request ctx dnsreq) = (some resp, none)) :
    (c.Query nre Unpack ctx dnsreq).1 =
        (if resp.StatusCode < 200 ∨ resp.StatusCode ≥ 300 then
          .returned none (some .errResponseStatus)
        else
          match (readAllLimited resp.Body (maxDNSMessageSize + 1)).2 with
          | some err => .returned none (some err)
          | none =>
            if (readAllLimited resp.Body (maxDNSMessageSize + 1)).1.length >
                maxDNSMessageSize then
              .returned none (some .errResponseTooLarge)
            else
              .returned (some (Unpack (readAllLimited resp.Body (maxDNSMessageSize + 1)).1).1)
                (Unpack (readAllLimited resp.Body (maxDNSMessageSize + 1)).1).2) ∧
      (c.Query nre Unpack ctx dnsreq).2.2 =
        (if resp.StatusCode < 200 ∨ resp.StatusCode ≥ 300 then
          [.Do (c.request ctx dnsreq), .Close]
        else
          match (readAllLimited resp.Body (maxDNSMessageSize + 1)).2 with
          | some _ =>
            [.Do (c.request ctx dnsreq),
              .Read (readAllLimited resp.Body (maxDNSMessageSize + 1)).1.length, .Close]
          | none =>
            if (readAllLimited resp.Body (maxDNSMessageSize + 1)).1.length >
                maxDNSMessageSize then
              [.Do (c.request ctx dnsreq),
                .Read (readAllLimited resp.Body (maxDNSMessageSize + 1)).1.length, .Close]
            else
              [.Do (c.request ctx dnsreq),
                .Read (readAllLimited resp.Body (maxDNSMessageSize + 1)).1.length,
                .Unpack (readAllLimited resp.Body (maxDNSMessageSize + 1)).1, .Close]) := by
  unfold dohDNSClient.Query
  simp only [hnew, httpRequestDoer.Do, hdo]
  by_cases hst : resp.StatusCode < 200 ∨ resp.StatusCode ≥ 300
  · simp only [if_pos hst, and_self]
  · simp only [if_neg hst]
    cases hrd : (readAllLimited resp.Body (maxDNSMessageSize + 1)).2 with
    | some err => simp only [and_self]
    | none =>
      simp only []
      split <;> simp only [and_self]

theorem readAllLimited_large (b : Body) (limit : Nat) (h : limit ≤ b.data.length)
    (hclean : b.data.length = limit → b.errWithLast = true → b.err = none) :
    readAllLimited b limit = (b.data.take limit, none) := by
  unfold readAllLimited
  rw [if_neg (by omega)]
  split
  · rename_i hc
    rw [hclean hc.1 hc.2.1, ← hc.1, List.take_length]
  · rfl

theorem readAllLimited_edge (b : Body) (limit : Nat) (h : b.data.length = limit)
    (hw : b.errWithLast = true) (hpos : 0 < limit) :
    readAllLimited b limit = (b.data, b.err) := by
  unfold readAllLimited
  rw [if_neg (by omega), if_pos ⟨h, hw, hpos⟩]

theorem readAllLimited_length (b : Body) (limit : Nat) (h : limit ≤ b.data.length) :
    (readAllLimited b limit).1.length = limit := by
  unfold readAllLimited
  rw [if_neg (by omega)]
  split
  · rename_i hc
    exact hc.1
  · simp only [List.length_take]
    omega

theorem readAllLimited_small (b : Body) (limit : Nat) (h : b.data.length < limit) :
    readAllLimited b limit = (b.data, b.err) := by
  unfold readAllLimited
  rw [if_pos h]

/-- C18: when the doer returns a response (with a nil error) whose status is
outside `[200, 300)`, `dohDNSClient.Query` fails with `errResponseStatus` and
returns no message, whatever the body is: nothing is read from the body and nothing
is decoded, so it does not matter whether the body is a well-formed message, is
larger than 1472 bytes, cannot be read or cannot be decoded. -/
theorem dohDNSClient_Query_bad_status (nre : String → Option Error)
    (Unpack : List UInt8 → Msg × Option Error) (c : dohDNSClient) (ctx : Context)
    (dnsreq : List UInt8) (resp : Response) (hnew : nre c.url = none)
    (hdo : c.client.respond c.client.callCount (c.request ctx dnsreq) = (some resp, none))
    (hst : resp.StatusCode < 200 ∨ resp.StatusCode ≥ 300) :
    (c.Query nre Unpack ctx dnsreq).1 = .returned none (some .errResponseStatus) ∧
      (c.Query nre Unpack ctx dnsreq).2.2 = [.Do (c.request ctx dnsreq), .Close] := by
  obtain ⟨h1, h2⟩ := dohDNSClient_Query_of_response nre Unpack c ctx dnsreq resp hnew hdo
  rw [h1, h2, if_pos hst, if_pos hst]
  exact ⟨rfl, rfl⟩

/-- Witness of C18, `TestDNSClientHttpStatusError`: status 500 with a well-formed
message as body. -/
theorem dohDNSClient_Query_bad_status_witness :
    (unpackHeader packedMsg).2 = none ∧
      ((newDoHDNSClient doerStatus500 upstreamURL).Query urlError unpackHeader Background
        abc).1 = .returned none (some .errResponseStatus) ∧
      ((newDoHDNSClient doerStatus500 upstreamURL).Query urlError unpackHeader Background
        abc).2.2 =
        [.Do ((newDoHDNSClient doerStatus500 upstreamURL).request Background abc), .Close] :=
  ⟨by decide,
    dohDNSClient_Query_bad_status urlError unpackHeader
      (newDoHDNSClient doerStatus500 upstreamURL) Background abc
      { StatusCode := 500, Body := { data := packedMsg, err := none, errWithLast := false } }
      (by decide) rfl
      (Or.inr (by decide))⟩

theorem dohDNSClient_Query_limit (nre : String → Option Error)
    (Unpack : List UInt8 → Msg × Option Error) (c : dohDNSClient) (ctx : Context)
    (dnsreq : List UInt8) (resp : Response) (hnew : nre c.url = none)
    (hdo : c.client.respond c.client.callCount (c.request ctx dnsreq) = (some resp, none))
    (hst : 200 ≤ resp.StatusCode ∧ resp.StatusCode < 300)
    (hlen : 1473 ≤ resp.Body.data.length) :
    (c.Query nre Unpack ctx dnsreq).1 =
        .returned none
          (some ((readAllLimited resp.Body (maxDNSMessageSize + 1)).2.getD
            .errResponseTooLarge)) ∧
      (c.Query nre Unpack ctx dnsreq).2.2 =
        [.Do (c.request ctx dnsreq), .Read 1473, .Close] := by
  obtain ⟨h1, h2⟩ := dohDNSClient_Query_of_response nre Unpack c ctx dnsreq resp hnew hdo
  have hns : ¬ (resp.StatusCode < 200 ∨ resp.StatusCode ≥ 300) := by omega
  have hl : (readAllLimited resp.Body (maxDNSMessageSize + 1)).1.length = 1473 :=
    readAllLimited_length resp.Body (maxDNSMessageSize + 1) hlen
  rw [if_neg hns] at h1 h2
  rw [hl] at h1 h2
  cases hrd : (readAllLimited resp.Body (maxDNSMessageSize + 1)).2 with
  | some e =>
    rw [hrd] at h1 h2
    exact ⟨h1, h2⟩
  | none =>
    rw [hrd] at h1 h2
    simp only [] at h1 h2
    rw [if_pos (by decide)] at h1 h2
    exact ⟨h1, h2⟩

/-- C19: when the doer returns a response (with a nil error) whose status is in
`[200, 300)` and whose body has 1473 bytes or more, `dohDNSClient.Query` takes
exactly 1473 bytes out of the body, fails, returns no message and does not call
`Unpack`, whatever `Unpack` would make of a part of the body. The error is
`errResponseTooLarge` whenever these 1473 bytes are read without a read error;
the one other case is a body of exactly 1473 bytes whose last `Read` reports a read
error together with the last byte: that error is returned as it is (the body read
error of C21). -/
theorem dohDNSClient_Query_too_large (nre : String → Option Error)
    (Unpack : List UInt8 → Msg × Option Error) (c : dohDNSClient) (ctx : Context)
    (dnsreq : List UInt8) (resp : Response) (hnew : nre c.url = none)
    (hdo : c.client.respond c.client.callCount (c.request ctx dnsreq) = (some resp, none))
    (hst : 200 ≤ resp.StatusCode ∧ resp.StatusCode < 300)
    (hlen : 1473 ≤ resp.Body.data.length) :
    (c.Query nre Unpack ctx dnsreq).2.2 =
        [.Do (c.request ctx dnsreq), .Read 1473, .Close] ∧
      (∀ body, WireEvent.Unpack body ∉ (c.Query nre Unpack ctx dnsreq).2.2) ∧
      (∃ e, (c.Query nre Unpack ctx dnsreq).1 = .returned none (some e)) ∧
      ((resp.Body.data.length = 1473 → resp.Body.errWithLast = true →
          resp.Body.err = none) →
        (c.Query nre Unpack ctx dnsreq).1 = .returned none (some .errResponseTooLarge)) ∧
      (∀ e, resp.Body.data.length = 1473 → resp.Body.errWithLast = true →
        resp.Body.err = some e →
        (c.Query nre Unpack ctx dnsreq).1 = .returned none (some e)) := by
  obtain ⟨h1, h2⟩ := dohDNSClient_Query_limit nre Unpack c ctx dnsreq resp hnew hdo hst hlen
  refine ⟨h2, ?_, ⟨_, h1⟩, ?_, ?_⟩
  · intro body
    rw [h2]
    simp
  · intro hclean
    rw [h1, readAllLimited_large resp.Body (maxDNSMessageSize + 1) hlen hclean]
    rfl
  · intro e hl hw he
    rw [h1, readAllLimited_edge resp.Body (maxDNSMessageSize + 1) hl hw (by decide), he]
    rfl

/-- Witness of C19, `TestDNSClientLargeResponseError`: a well-formed message
followed by 1472 more bytes. -/
theorem dohDNSClient_Query_too_large_witness :
    (unpackHeader packedMsg).2 = none ∧
      ((newDoHDNSClient doerLarge upstreamURL).Query urlError unpackHeader Background
        abc).1 = .returned none (some .errResponseTooLarge) ∧
      ((newDoHDNSClient doerLarge upstreamURL).Query urlError unpackHeader Background
        abc).2.2 =
        [.Do ((newDoHDNSClient doerLarge upstreamURL).request Background abc), .Read 1473,
          .Close] ∧
      ∀ body, WireEvent.Unpack body ∉
        ((newDoHDNSClient doerLarge upstreamURL).Query urlError unpackHeader Background
          abc).2.2 :=
  ⟨by decide,
    (dohDNSClient_Query_too_large urlError unpackHeader
      (newDoHDNSClient doerLarge upstreamURL) Background abc
      { StatusCode := 200,
        Body := { data := packedMsg ++ List.replicate 1472 97, err := none,
                  errWithLast := false } } (by decide)
      rfl ⟨by decide, by decide⟩
      (by rw [List.length_append, List.length_replicate]; decide)).2.2.2.1
      (fun _ _ => rfl),
    (dohDNSClient_Query_too_large urlError unpackHeader
      (newDoHDNSClient doerLarge upstreamURL) Background abc
      { StatusCode := 200,
        Body := { data := packedMsg ++ List.replicate 1472 97, err := none,
                  errWithLast := false } } (by decide)
      rfl ⟨by decide, by decide⟩
      (by rw [List.length_append, List.length_replicate]; decide)).1,
    (dohDNSClient_Query_too_large urlError unpackHeader
      (newDoHDNSClient doerLarge upstreamURL) Background abc
      { StatusCode := 200,
        Body := { data := packedMsg ++ List.replicate 1472 97, err := none,
                  errWithLast := false } } (by decide)
      rfl ⟨by decide, by decide⟩
      (by rw [List.length_append, List.length_replicate]; decide)).2.1⟩

/-- A body of exactly 1473 bytes whose last `Read` reports the error "io error"
together with the last byte: `Query` returns that error, not
`errResponseTooLarge`; when the same error is reported by a `Read` of its own, the
limit is reached first and the result is `errResponseTooLarge`. -/
theorem dohDNSClient_Query_read_error_at_limit :
    ((newDoHDNSClient doerErrorAtLimit upstreamURL).Query urlError unpackHeader Background
        abc).1 = .returned none (some (.other "io error")) ∧
      ((newDoHDNSClient doerErrorAfterLimit upstreamURL).Query urlError unpackHeader
        Background abc).1 = .returned none (some .errResponseTooLarge) := by
  have hlen : 1473 ≤ (packedMsg ++ List.replicate 1417 (97 : UInt8)).length := by
    rw [List.length_append, List.length_replicate]
    decide
  have hlen1 : (packedMsg ++ List.replicate 1417 (97 : UInt8)).length = 1473 := by
    rw [List.length_append, List.length_replicate]
    decide
  constructor
  · rw [(dohDNSClient_Query_limit urlError unpackHeader
      (newDoHDNSClient doerErrorAtLimit upstreamURL) Background abc
      { StatusCode := 200,
        Body := { data := packedMsg ++ List.replicate 1417 97,
                  err := some (.other "io error"), errWithLast := true } } (by decide)
      rfl ⟨by decide, by decide⟩ hlen).1,
      readAllLimited_edge
        { data := packedMsg ++ List.replicate 1417 97, err := some (.other "io error"),
          errWithLast := true }
        (maxDNSMessageSize + 1) hlen1 rfl (by decide)]
    rfl
  · rw [(dohDNSClient_Query_limit urlError unpackHeader
      (newDoHDNSClient doerErrorAfterLimit upstreamURL) Background abc
      { StatusCode := 200,
        Body := { data := packedMsg ++ List.replicate 1417 97,
                  err := some (.other "io error"), errWithLast := false } } (by decide)
      rfl ⟨by decide, by decide⟩ hlen).1,
      readAllLimited_large
        { data := packedMsg ++ List.replicate 1417 97, err := some (.other "io error"),
          errWithLast := false }
        (maxDNSMessageSize + 1) hlen (fun _ hw => absurd hw (by decide))]
    rfl

theorem dohDNSClient_Query_decodes (nre : String → Option Error)
    (Unpack : List UInt8 → Msg × Option Error) (c : dohDNSClient) (ctx : Context)
    (dnsreq : List UInt8) (resp : Response) (hnew : nre c.url = none)
    (hdo : c.client.respond c.client.callCount (c.request ctx dnsreq) = (some resp, none))
    (hst : 200 ≤ resp.StatusCode ∧ resp.StatusCode < 300) (herr : resp.Body.err = none)
    (hlen : resp.Body.data.length ≤ 1472) :
    (c.Query nre Unpack ctx dnsreq).1 =
        .returned (some (Unpack resp.Body.data).1) (Unpack resp.Body.data).2 ∧
      (c.Query nre Unpack ctx dnsreq).2.2 =
        [.Do (c.request ctx dnsreq), .Read resp.Body.data.length,
          .Unpack resp.Body.data, .Close] := by
  obtain ⟨h1, h2⟩ := dohDNSClient_Query_of_response nre Unpack c ctx dnsreq resp hnew hdo
  have hns : ¬ (resp.StatusCode < 200 ∨ resp.StatusCode ≥ 300) := by omega
  have hrd := readAllLimited_small resp.Body (maxDNSMessageSize + 1)
    (by unfold maxDNSMessageSize; omega)
  rw [if_neg hns, hrd] at h1 h2
  simp only [herr] at h1 h2
  rw [if_neg (by unfold maxDNSMessageSize; omega)] at h1 h2
  exact ⟨h1, h2⟩

/-- C20: `dohDNSClient.Query` returns a nil error exactly when the request is
built and the doer returns a response with a nil error, the status is in
`[200, 300)`, the body is read without error and has at most 1472 bytes, and the
body decodes. Whenever the body has been read without error and has at most 1472
bytes (1472 included), the pair returned is the message and the error that
`Unpack` gives for that body. -/
theorem dohDNSClient_Query_success_iff (nre : String → Option Error)
    (Unpack : List UInt8 → Msg × Option Error) (c : dohDNSClient) (ctx : Context)
    (dnsreq : List UInt8) :
    ((∃ r, (c.Query nre Unpack ctx dnsreq).1 = .returned r none) ↔
        (nre c.url = none ∧
          ∃ resp, c.client.respond c.client.callCount (c.request ctx dnsreq) =
              (some resp, none) ∧
            200 ≤ resp.StatusCode ∧ resp.StatusCode < 300 ∧ resp.Body.err = none ∧
            resp.Body.data.length ≤ 1472 ∧ (Unpack resp.Body.data).2 = none)) ∧
      (∀ resp, nre c.url = none →
        c.client.respond c.client.callCount (c.request ctx dnsreq) = (some resp, none) →
        200 ≤ resp.StatusCode → resp.StatusCode < 300 → resp.Body.err = none →
        resp.Body.data.length ≤ 1472 →
        (c.Query nre Unpack ctx dnsreq).1 =
            .returned (some (Unpack resp.Body.data).1) (Unpack resp.Body.data).2 ∧
          (c.Query nre Unpack ctx dnsreq).2.2 =
            [.Do (c.request ctx dnsreq), .Read resp.Body.data.length,
              .Unpack resp.Body.data, .Close]) := by
  constructor
  · constructor
    · rintro ⟨r, hr⟩
      cases hn : nre c.url with
      | some e =>
        unfold dohDNSClient.Query at hr
        simp only [hn] at hr
        cases hr
      | none =>
        refine ⟨rfl, ?_⟩
        cases hd : c.client.respond c.client.callCount (c.request ctx dnsreq) with
        | mk ro eo =>
          cases eo with
          | some e =>
            unfold dohDNSClient.Query at hr
            simp only [hn, httpRequestDoer.Do, hd] at hr
            cases hr
          | none =>
            cases ro with
            | none =>
              unfold dohDNSClient.Query at hr
              simp only [hn, httpRequestDoer.Do, hd] at hr
              cases hr
            | some resp =>
              obtain ⟨h1, _⟩ :=
                dohDNSClient_Query_of_response nre Unpack c ctx dnsreq resp hn hd
              rw [h1] at hr
              by_cases hst : resp.StatusCode < 200 ∨ resp.StatusCode ≥ 300
              · rw [if_pos hst] at hr
                cases hr
              · rw [if_neg hst] at hr
                by_cases hlen : 1473 ≤ resp.Body.data.length
                · have hlim := (dohDNSClient_Query_limit nre Unpack c ctx dnsreq resp hn hd
                    (by omega) hlen).1
                  rw [h1, if_neg hst] at hlim
                  rw [hlim] at hr
                  cases hr
                · rw [readAllLimited_small resp.Body (maxDNSMessageSize + 1)
                    (by unfold maxDNSMessageSize; omega)] at hr
                  cases he : resp.Body.err with
                  | some e =>
                    simp only [he] at hr
                    cases hr
                  | none =>
                    simp only [he] at hr
                    rw [if_neg (by unfold maxDNSMessageSize; omega)] at hr
                    refine ⟨resp, rfl, by omega, by omega, he, by omega, ?_⟩
                    injection hr with _ h2
    · rintro ⟨hn, resp, hd, h1, h2, h3, h4, h5⟩
      obtain ⟨g, _⟩ :=
        dohDNSClient_Query_decodes nre Unpack c ctx dnsreq resp hn hd ⟨h1, h2⟩ h3 h4
      rw [g, h5]
      exact ⟨_, rfl⟩
  · intro resp hn hd h1 h2 h3 h4
    exact dohDNSClient_Query_decodes nre Unpack c ctx dnsreq resp hn hd ⟨h1, h2⟩ h3 h4

/-- Witness of C20, `TestDNSClient`: status 200 and a well-formed message. -/
theorem dohDNSClient_Query_success_iff_witness :
    ((newDoHDNSClient doerOK upstreamURL).Query urlError unpackHeader Background abc).1 =
        .returned (some (unpackHeader packedMsg).1) (unpackHeader packedMsg).2 ∧
      ((newDoHDNSClient doerOK upstreamURL).Query urlError unpackHeader Background abc).2.2 =
        [.Do ((newDoHDNSClient doerOK upstreamURL).request Background abc),
          .Read packedMsg.length, .Unpack packedMsg, .Close] :=
  (dohDNSClient_Query_success_iff urlError unpackHeader (newDoHDNSClient doerOK upstreamURL)
    Background abc).2
    { StatusCode := 200, Body := { data := packedMsg, err := none, errWithLast := false } }
    (by decide) rfl (by decide) (by decide) rfl (by decide)

/-- C21: when the doer returns an error, `dohDNSClient.Query` returns that same
error and no message, also when the doer returned a response with it (of status
200 and a valid body, say), and nothing is read or decoded; and when the reading of
the body ends with an error before 1473 bytes have been delivered, or with the
1473rd byte, that error is returned as it is, with no message and without
decoding. -/
theorem dohDNSClient_Query_transport_error (nre : String → Option Error)
    (Unpack : List UInt8 → Msg × Option Error) (c : dohDNSClient) (ctx : Context)
    (dnsreq : List UInt8) (resp : Response) (ro : Option Response) (err : Error)
    (hnew : nre c.url = none) :
    (c.client.respond c.client.callCount (c.request ctx dnsreq) = (ro, some err) →
        (c.Query nre Unpack ctx dnsreq).1 = .returned none (some err) ∧
        (c.Query nre Unpack ctx dnsreq).2.2 = [.Do (c.request ctx dnsreq)]) ∧
      (c.client.respond c.client.callCount (c.request ctx dnsreq) = (some resp, none) →
        200 ≤ resp.StatusCode → resp.StatusCode < 300 →
        resp.Body.data.length < 1473 → resp.Body.err = some err →
        (c.Query nre Unpack ctx dnsreq).1 = .returned none (some err) ∧
        (c.Query nre Unpack ctx dnsreq).2.2 =
          [.Do (c.request ctx dnsreq), .Read resp.Body.data.length, .Close]) ∧
      (c.client.respond c.client.callCount (c.request ctx dnsreq) = (some resp, none) →
        200 ≤ resp.StatusCode → resp.StatusCode < 300 →
        resp.Body.data.length = 1473 → resp.Body.errWithLast = true →
        resp.Body.err = some err →
        (c.Query nre Unpack ctx dnsreq).1 = .returned none (some err) ∧
        (c.Query nre Unpack ctx dnsreq).2.2 =
          [.Do (c.request ctx dnsreq), .Read 1473, .Close]) := by
  refine ⟨?_, ?_, ?_⟩
  · intro hdo
    unfold dohDNSClient.Query
    simp only [hnew, httpRequestDoer.Do, hdo, and_self]
  · intro hdo h1 h2 hlen herr
    obtain ⟨g1, g2⟩ := dohDNSClient_Query_of_response nre Unpack c ctx dnsreq resp hnew hdo
    have hns : ¬ (resp.StatusCode < 200 ∨ resp.StatusCode ≥ 300) := by omega
    have hrd := readAllLimited_small resp.Body (maxDNSMessageSize + 1) hlen
    rw [if_neg hns, hrd] at g1 g2
    simp only [herr] at g1 g2
    exact ⟨g1, g2⟩
  · intro hdo h1 h2 hlen hw herr
    obtain ⟨g1, g2⟩ := dohDNSClient_Query_limit nre Unpack c ctx dnsreq resp hnew hdo ⟨h1, h2⟩
      (by omega)
    rw [readAllLimited_edge resp.Body (maxDNSMessageSize + 1) hlen hw (by decide), herr] at g1
    exact ⟨g1, g2⟩

/-- Witness of C21: `TestDNSClientHttpClientError` (a doer error together with a
response of status 200) and `TestDNSClientResponseReadError`. -/
theorem dohDNSClient_Query_transport_error_witness :
    ((newDoHDNSClient doerError upstreamURL).Query urlError unpackHeader Background abc).1 =
        .returned none (some (.other "http error")) ∧
      ((newDoHDNSClient doerReadError upstreamURL).Query urlError unpackHeader Background
        abc).1 = .returned none (some (.other "io error")) :=
  ⟨((dohDNSClient_Query_transport_error urlError unpackHeader
      (newDoHDNSClient doerError upstreamURL) Background abc
      { StatusCode := 200,
        Body := { data := packedMsg, err := none, errWithLast := false } }
      (some { StatusCode := 200,
              Body := { data := packedMsg, err := none, errWithLast := false } })
      (.other "http error") (by decide)).1 rfl).1,
    ((dohDNSClient_Query_transport_error urlError unpackHeader
      (newDoHDNSClient doerReadError upstreamURL) Background abc
      { StatusCode := 200,
        Body := { data := packedMsg, err := some (.other "io error"),
                  errWithLast := false } }
      none (.other "io error") (by decide)).2.1 rfl (by decide) (by decide) (by decide)
      rfl).1⟩

theorem dohDNSClient_Query_not_built (nre : String → Option Error)
    (Unpack : List UInt8 → Msg × Option Error) (c : dohDNSClient) (ctx : Context)
    (dnsreq : List UInt8) (e : Error) (hn : nre c.url = some e) :
    c.Query nre Unpack ctx dnsreq = (.returned none (some e), c, []) := by
  unfold dohDNSClient.Query
  simp only [hn]

theorem dohDNSClient_Query_trace (nre : String → Option Error)
    (Unpack : List UInt8 → Msg × Option Error) (c : dohDNSClient) (ctx : Context)
    (dnsreq : List UInt8) (hn : nre c.url = none) :
    ∃ tail, (c.Query nre Unpack ctx dnsreq).2.1 =
        { c with client := { c.client with callCount := c.client.callCount + 1 } } ∧
      (c.Query nre Unpack ctx dnsreq).2.2 = .Do (c.request ctx dnsreq) :: tail ∧
      doCalls tail = [] := by
  cases hd : c.client.respond c.client.callCount (c.request ctx dnsreq) with
  | mk ro eo =>
    cases eo with
    | some e =>
      unfold dohDNSClient.Query
      simp only [hn, httpRequestDoer.Do, hd]
      exact ⟨[], by trivial, by trivial, rfl⟩
    | none =>
      cases ro with
      | none =>
        unfold dohDNSClient.Query
        simp only [hn, httpRequestDoer.Do, hd]
        exact ⟨[], by trivial, by trivial, rfl⟩
      | some resp =>
        unfold dohDNSClient.Query
        simp only [hn, httpRequestDoer.Do, hd]
        by_cases hst : resp.StatusCode < 200 ∨ resp.StatusCode ≥ 300
        · simp only [if_pos hst]
          exact ⟨[.Close], by trivial, by trivial, rfl⟩
        · simp only [if_neg hst]
          cases hrd : (readAllLimited resp.Body (maxDNSMessageSize + 1)).2 with
          | some e =>
            exact ⟨[.Read (readAllLimited resp.Body (maxDNSMessageSize + 1)).1.length,
              .Close], by trivial, by trivial, rfl⟩
          | none =>
            simp only []
            split
            · exact ⟨[.Read (readAllLimited resp.Body (maxDNSMessageSize + 1)).1.length,
                .Close], by trivial, by trivial, rfl⟩
            · exact ⟨[.Read (readAllLimited resp.Body (maxDNSMessageSize + 1)).1.length,
                .Unpack (readAllLimited resp.Body (maxDNSMessageSize + 1)).1, .Close],
                by trivial, by trivial, rfl⟩

theorem dohDNSClient_Query_doCalls (nre : String → Option Error)
    (Unpack : List UInt8 → Msg × Option Error) (c : dohDNSClient) (ctx : Context)
    (dnsreq : List UInt8) :
    (nre c.url = none →
        doCalls (c.Query nre Unpack ctx dnsreq).2.2 = [c.request ctx dnsreq] ∧
        (c.Query nre Unpack ctx dnsreq).2.1.client.callCount = c.client.callCount + 1) ∧
      (∀ e, nre c.url = some e →
        doCalls (c.Query nre Unpack ctx dnsreq).2.2 = [] ∧
        (c.Query nre Unpack ctx dnsreq).2.1.client.callCount = c.client.callCount ∧
        (c.Query nre Unpack ctx dnsreq).1 = .returned none (some e)) := by
  constructor
  · intro hn
    obtain ⟨tail, h1, h, ht⟩ := dohDNSClient_Query_trace nre Unpack c ctx dnsreq hn
    rw [h, h1, doCalls, ht]
    exact ⟨rfl, rfl⟩
  · intro e hn
    rw [dohDNSClient_Query_not_built nre Unpack c ctx dnsreq e hn]
    exact ⟨rfl, rfl, rfl⟩

theorem dohDNSClient_request_header (c : dohDNSClient) (ctx : Context)
    (dnsreq : List UInt8) :
    (c.request ctx dnsreq).Header =
      [("Content-Type", ["application/dns-message"]),
        ("Accept", ["application/dns-message"])] := by
  have h : Header.set (Header.set [] "Accept" dnsMessageMimeTypeHeader) "Content-Type"
      dnsMessageMimeTypeHeader =
      [("Content-Type", ["application/dns-message"]),
        ("Accept", ["application/dns-message"])] := by decide
  exact h

/-- C22: for every raw query `dohDNSClient.Query` calls the doer at most once (no
retry): exactly once, with the request it has built, when the request can be built
for the configured URL, and not at all when it cannot, in which case the error of
the construction is returned. The doer's call count grows by the number of calls.
Every request handed to the doer has method POST, the configured URL, the headers
`Accept` and `Content-Type` both equal to `application/dns-message` and no other
header, the caller's context and a body equal to the raw query bytes. -/
theorem dohDNSClient_Query_request (nre : String → Option Error)
    (Unpack : List UInt8 → Msg × Option Error) (c : dohDNSClient) (ctx : Context)
    (dnsreq : List UInt8) :
    (doCalls (c.Query nre Unpack ctx dnsreq).2.2).length ≤ 1 ∧
      (nre c.url = none →
        doCalls (c.Query nre Unpack ctx dnsreq).2.2 = [c.request ctx dnsreq]) ∧
      (∀ e, nre c.url = some e →
        doCalls (c.Query nre Unpack ctx dnsreq).2.2 = [] ∧
        (c.Query nre Unpack ctx dnsreq).1 = .returned none (some e)) ∧
      (c.Query nre Unpack ctx dnsreq).2.1.client.callCount =
        c.client.callCount + (doCalls (c.Query nre Unpack ctx dnsreq).2.2).length ∧
      (∀ req ∈ doCalls (c.Query nre Unpack ctx dnsreq).2.2,
        req.Method = "POST" ∧ req.URL = c.url ∧
        req.Header.get "Accept" = some ["application/dns-message"] ∧
        req.Header.get "Content-Type" = some ["application/dns-message"] ∧
        req.Header.length = 2 ∧ req.Body = dnsreq ∧ req.ctx = ctx) := by
  have hh := dohDNSClient_request_header c ctx dnsreq
  obtain ⟨hbuilt, hnot⟩ := dohDNSClient_Query_doCalls nre Unpack c ctx dnsreq
  have hreq : (c.request ctx dnsreq).Method = "POST" ∧ (c.request ctx dnsreq).URL = c.url ∧
      (c.request ctx dnsreq).Header.get "Accept" = some ["application/dns-message"] ∧
      (c.request ctx dnsreq).Header.get "Content-Type" = some ["application/dns-message"] ∧
      (c.request ctx dnsreq).Header.length = 2 ∧ (c.request ctx dnsreq).Body = dnsreq ∧
      (c.request ctx dnsreq).ctx = ctx := by
    refine ⟨rfl, rfl, ?_, ?_, ?_, rfl, rfl⟩
    · rw [hh]; decide
    · rw [hh]; decide
    · rw [hh]; rfl
  cases hn : nre c.url with
  | none =>
    obtain ⟨hd, hc⟩ := hbuilt hn
    refine ⟨by rw [hd]; exact Nat.le_refl 1, fun _ => hd, ?_, by rw [hd, hc]; rfl, ?_⟩
    · intro e he
      cases he
    · intro req hmem
      rw [hd] at hmem
      have he : req = c.request ctx dnsreq := by simpa using hmem
      rw [he]
      exact hreq
  | some e =>
    obtain ⟨hd, hc, ho⟩ := hnot e hn
    refine ⟨by rw [hd]; decide, ?_, ?_, by rw [hd, hc]; rfl, ?_⟩
    · intro h
      cases h
    · intro e1 he
      cases he
      exact ⟨hd, ho⟩
    · intro req hmem
      rw [hd] at hmem
      cases hmem

/-- The requests of two fixtures of C22: with the URL of the tests the doer gets
the one request built for it; with a URL that `http.NewRequestWithContext`
rejects there is no call and the error of the construction is returned. -/
theorem dohDNSClient_Query_request_sample :
    doCalls ((newDoHDNSClient doerOK upstreamURL).Query urlError unpackHeader Background
        abc).2.2 =
        [{ ctx := Background, Method := "POST", URL := upstreamURL,
           Header := [("Content-Type", ["application/dns-message"]),
             ("Accept", ["application/dns-message"])],
           Body := abc }] ∧
      ((newDoHDNSClient doerOK upstreamURL).Query urlError unpackHeader Background
        abc).2.1.client.callCount = 1 ∧
      doCalls ((newDoHDNSClient doerOK "https://example.com/\tdns").Query urlError
        unpackHeader Background abc).2.2 = [] ∧
      ((newDoHDNSClient doerOK "https://example.com/\tdns").Query urlError unpackHeader
        Background abc).1 = .returned none (some (.other "invalid URL")) := by
  decide

/-- C23: `metricDNSClient.Query` returns the message and error of the wrapped
client unchanged; it emits no metrics event when the wrapped query fails, and when
it succeeds it emits exactly one request-count increment, one response-code-count
increment and one duration observation, in this order, each labelled with the
address of this upstream, the response-code event also with the name of the
response code in `dns.RcodeToString`, or its decimal form when the table has no
name for it. -/
theorem metricDNSClient_Query_metrics (tbl : Int → Option String) (c : metricDNSClient)
    (events : List Event) (ctx : Context) (dnsreq : List UInt8) (r : Option Msg) (err : Error)
    (m : Msg) :
    (c.Query tbl events ctx dnsreq).1 = c.nextReply ctx dnsreq ∧
      (c.nextReply ctx dnsreq = .failed r err →
        (c.Query tbl events ctx dnsreq).2.2 = events) ∧
      (c.nextReply ctx dnsreq = .ok m →
        (c.Query tbl events ctx dnsreq).2.2 =
          events ++ [.RequestCount c.addr,
            .RcodeCount ((tbl m.Rcode).getD (toString m.Rcode)) c.addr,
            .RequestDuration c.addr]) := by
  refine ⟨metricDNSClient_Query_reply tbl c events ctx dnsreq, ?_, ?_⟩
  · intro h
    rw [metricDNSClient_Query_events, h]
    simp [metricsOf]
  · intro h
    rw [metricDNSClient_Query_events, h]
    simp only [metricsOf]
    cases tbl m.Rcode <;> rfl

/-- Witness of C23 on an upstream whose wrapped client answers with response
code 0. -/
theorem metricDNSClient_Query_metrics_witness :
    (recoveringClient.Query rcodeNames [] Background abc).1 =
        recoveringClient.nextReply Background abc ∧
      (recoveringClient.nextReply Background abc = .failed none clientError →
        (recoveringClient.Query rcodeNames [] Background abc).2.2 = []) ∧
      (recoveringClient.nextReply Background abc = .ok expectedDNSMsg →
        (recoveringClient.Query rcodeNames [] Background abc).2.2 =
          [] ++ [.RequestCount recoveringClient.addr,
            .RcodeCount ((rcodeNames expectedDNSMsg.Rcode).getD
              (toString expectedDNSMsg.Rcode)) recoveringClient.addr,
            .RequestDuration recoveringClient.addr]) :=
  metricDNSClient_Query_metrics rcodeNames recoveringClient [] Background abc none
    clientError expectedDNSMsg

/-- C25: `newLoadBalanceDNSClient` without options yields `maxFails = 2`, a
per-attempt timeout of 2 seconds (in nanoseconds) and the random policy, over the
given client list; each of the options `withLbPolicy`, `withLbRequestTimeout`,
`withLbMaxFails` sets its own field and leaves the others at these values. -/
theorem newLoadBalanceDNSClient_defaults (src : Rand) (clients : List metricDNSClient)
    (p : policy) (timeout : Int) (maxFails : Nat) :
    newLoadBalanceDNSClient src clients [] =
        { p := .random { src := src }, timeout := 2000000000, maxFails := 2,
          clients := clients } ∧
      newLoadBalanceDNSClient src clients [withLbPolicy p] =
        { p := p, timeout := 2000000000, maxFails := 2, clients := clients } ∧
      newLoadBalanceDNSClient src clients [withLbRequestTimeout timeout] =
        { p := .random { src := src }, timeout := timeout, maxFails := 2,
          clients := clients } ∧
      newLoadBalanceDNSClient src clients [withLbMaxFails maxFails] =
        { p := .random { src := src }, timeout := 2000000000, maxFails := maxFails,
          clients := clients } ∧
      (∀ c : lbDNSClient, withLbPolicy p c = { c with p := p }) ∧
      (∀ c : lbDNSClient, withLbRequestTimeout timeout c = { c with timeout := timeout }) ∧
      (∀ c : lbDNSClient, withLbMaxFails maxFails c = { c with maxFails := maxFails }) :=
  ⟨rfl, rfl, rfl, rfl, fun _ => rfl, fun _ => rfl, fun _ => rfl⟩

/-! ## `incrementFails` under interleaving -/

theorem IncState_run_alone (c : metricDNSClient) :
    (IncState.run { fails := c.fails, pcs := [.start] } [0, 0]).fails =
      c.incrementFails.fails := by
  simp only [IncState.run, List.foldl, IncState.step, List.getElem?_cons_zero, List.set_cons_zero,
    metricDNSClient.incrementFails]
  split <;> rfl

/-- C24 fails on the code: two goroutines that run `incrementFails` on a counter
at `2^32 - 2`, interleaved as load, load, guard and add, guard and add, leave the
counter at 0; run one after the other they leave it at `2^32 - 1`. The guard reads
a value loaded earlier, so guard and increment are not one atomic step. -/
theorem incrementFails_interleaving_wraps :
    IncState.run { fails := 2 ^ 32 - 2, pcs := [.start, .start] } [0, 1, 0, 1] =
        { fails := 0, pcs := [.done, .done] } ∧
      IncState.run { fails := 2 ^ 32 - 2, pcs := [.start, .start] } [0, 0, 1, 1] =
        { fails := 2 ^ 32 - 1, pcs := [.done, .done] } := by
  decide

/-! ## Properties of `rewrite/ip.go` -/

theorem GoMap_get_set_self {κ α : Type} [DecidableEq κ] (m : GoMap κ α) (k : κ) (v : α) :
    (m.set k v).get k = some v := by
  simp [GoMap.set, GoMap.get]

theorem GoMap_get_set_ne {κ α : Type} [DecidableEq κ] (m : GoMap κ α) (k k1 : κ) (v : α)
    (h : k1 ≠ k) : (m.set k v).get k1 = m.get k1 := by
  unfold GoMap.set GoMap.get
  rw [List.find?_cons_of_neg _ (by simpa using fun e => h e.symm)]
  congr 1
  induction m with
  | nil => rfl
  | cons a m ih =>
    by_cases ha : a.1 = k
    · rw [List.filter_cons_of_neg (by simpa using ha),
        List.find?_cons_of_neg _ (by simpa using fun e => h (e.symm.trans ha))]
      exact ih
    · rw [List.filter_cons_of_pos (by simpa using ha)]
      by_cases hb : a.1 = k1
      · rw [List.find?_cons_of_pos _ (by simpa using hb),
          List.find?_cons_of_pos _ (by simpa using hb)]
      · rw [List.find?_cons_of_neg _ (by simpa using hb),
          List.find?_cons_of_neg _ (by simpa using hb)]
        exact ih

theorem GoMap_length_set_new {κ α : Type} [DecidableEq κ] (m : GoMap κ α) (k : κ) (v : α)
    (h : m.get k = none) : (m.set k v).length = m.length + 1 := by
  unfold GoMap.set
  rw [List.length_cons]
  congr 1
  congr 1
  apply List.filter_eq_self.2
  intro a ha
  unfold GoMap.get at h
  simp only [Option.map_eq_none', List.find?_eq_none, decide_eq_true_eq] at h
  simpa using h a ha

theorem addMapping_valid (ParseIP : String → Option IP) (Normalize : String → String)
    (r : ipRewriterResponseRule) (ip domain : String) (x : IP) (h : ParseIP ip = some x) :
    r.addMapping ParseIP Normalize ip domain =
      if x.To4 ≠ none then
        (none, { r with domainToIPv4 := r.domainToIPv4.set (Normalize domain) x })
      else (none, { r with domainToIPv6 := r.domainToIPv6.set (Normalize domain) x }) := by
  unfold ipRewriterResponseRule.addMapping
  simp only [h]

theorem RewriteResponse_A (r : ipRewriterResponseRule) (hdr : RR_Header) (a : IP)
    (ht : hdr.Rrtype = TypeA) :
    r.RewriteResponse (.A hdr a) =
      some (.A hdr ((r.domainToIPv4.get
        (if r.rewrittenName = "" then hdr.Name else r.rewrittenName)).getD
          (r.defaultIPv4.getD a))) := by
  unfold ipRewriterResponseRule.RewriteResponse
  simp only [RR.Header, ht, if_true]
  cases r.domainToIPv4.get (if r.rewrittenName = "" then hdr.Name else r.rewrittenName) with
  | some x => rfl
  | none => cases r.defaultIPv4 <;> rfl

theorem RewriteResponse_AAAA (r : ipRewriterResponseRule) (hdr : RR_Header) (a : IP)
    (ht : hdr.Rrtype = TypeAAAA) :
    r.RewriteResponse (.AAAA hdr a) =
      some (.AAAA hdr ((r.domainToIPv6.get
        (if r.rewrittenName = "" then hdr.Name else r.rewrittenName)).getD
          (r.defaultIPv6.getD a))) := by
  unfold ipRewriterResponseRule.RewriteResponse
  have hne : ¬ (TypeAAAA = TypeA) := by decide
  simp only [RR.Header, ht, hne, if_true, if_false]
  cases r.domainToIPv6.get (if r.rewrittenName = "" then hdr.Name else r.rewrittenName) with
  | some x => rfl
  | none => cases r.defaultIPv6 <;> rfl

/-- C26, as stated, fails for a domain with an upper-case letter: the mapping is
stored under the normalized name `example.com.`, and the record name
`Example.com.` is looked up as it is, so the address of the record stays. -/
theorem addMapping_upper_case_not_rewritten :
    normalizeName "Example.com" = "example.com." ∧
      (newIPRewriterResponseRule.addMapping parseIPSample normalizeName "10.0.0.1"
        "Example.com").1 = none ∧
      (newIPRewriterResponseRule.addMapping parseIPSample normalizeName "10.0.0.1"
        "Example.com").2.RewriteResponse
          (.A { Name := "Example.com.", Rrtype := 1, Class := 1, Ttl := 300, Rdlength := 4 }
            [192, 168, 1, 1]) =
        some (.A { Name := "Example.com.", Rrtype := 1, Class := 1, Ttl := 300, Rdlength := 4 }
          [192, 168, 1, 1]) := by
  decide

/-- C26, amended: for every valid IPv4 address text `ip` and every domain `d` that
`Normalize` maps to `d` followed by "." (a lower-case name without trailing dot),
after `addMapping(ip, d)` on a fresh rule `RewriteResponse` sets the address of an
A record named `d` followed by "." to the parsed `ip`, whatever the original
address; likewise for an IPv6 address and an AAAA record. -/
theorem addMapping_then_RewriteResponse (ParseIP : String → Option IP)
    (Normalize : String → String) (ip d : String) (x : IP) (hdr : RR_Header) (orig : IP)
    (hparse : ParseIP ip = some x) (hnorm : Normalize d = d ++ ".")
    (hname : hdr.Name = d ++ ".") :
    (newIPRewriterResponseRule.addMapping ParseIP Normalize ip d).1 = none ∧
      (x.To4 ≠ none → hdr.Rrtype = TypeA →
        (newIPRewriterResponseRule.addMapping ParseIP Normalize ip d).2.RewriteResponse
          (.A hdr orig) = some (.A hdr x)) ∧
      (x.To4 = none → hdr.Rrtype = TypeAAAA →
        (newIPRewriterResponseRule.addMapping ParseIP Normalize ip d).2.RewriteResponse
          (.AAAA hdr orig) = some (.AAAA hdr x)) := by
  have h := addMapping_valid ParseIP Normalize newIPRewriterResponseRule ip d x hparse
  refine ⟨?_, ?_, ?_⟩
  · rw [h]
    split <;> rfl
  · intro h4 ht
    rw [h, if_pos h4, RewriteResponse_A _ _ _ ht]
    simp only [newIPRewriterResponseRule, if_true, hname, hnorm, GoMap_get_set_self,
      Option.getD_some]
  · intro h4 ht
    rw [h, if_neg (by simpa using h4), RewriteResponse_AAAA _ _ _ ht]
    simp only [newIPRewriterResponseRule, if_true, hname, hnorm, GoMap_get_set_self,
      Option.getD_some]

/-- Witness of the amended C26, the first case of `TestIPRewriterResponseRule`. -/
theorem addMapping_then_RewriteResponse_witness :
    (newIPRewriterResponseRule.addMapping parseIPSample normalizeName "10.0.0.1"
        "example.com").1 = none ∧
      (IP.To4 [0, 0, 0, 0, 0, 0, 0, 0, 0, 0, 255, 255, 10, 0, 0, 1] ≠ none → 1 = TypeA →
        (newIPRewriterResponseRule.addMapping parseIPSample normalizeName "10.0.0.1"
          "example.com").2.RewriteResponse
            (.A { Name := "example.com.", Rrtype := 1, Class := 1, Ttl := 300, Rdlength := 4 }
              [192, 168, 1, 1]) =
          some (.A { Name := "example.com.", Rrtype := 1, Class := 1, Ttl := 300,
                     Rdlength := 4 }
            [0, 0, 0, 0, 0, 0, 0, 0, 0, 0, 255, 255, 10, 0, 0, 1])) ∧
      (IP.To4 [0, 0, 0, 0, 0, 0, 0, 0, 0, 0, 255, 255, 10, 0, 0, 1] = none → 1 = TypeAAAA →
        (newIPRewriterResponseRule.addMapping parseIPSample normalizeName "10.0.0.1"
          "example.com").2.RewriteResponse
            (.AAAA { Name := "example.com.", Rrtype := 1, Class := 1, Ttl := 300,
                     Rdlength := 4 }
              [192, 168, 1, 1]) =
          some (.AAAA { Name := "example.com.", Rrtype := 1, Class := 1, Ttl := 300,
                        Rdlength := 4 }
            [0, 0, 0, 0, 0, 0, 0, 0, 0, 0, 255, 255, 10, 0, 0, 1])) :=
  addMapping_then_RewriteResponse parseIPSample normalizeName "10.0.0.1" "example.com"
    [0, 0, 0, 0, 0, 0, 0, 0, 0, 0, 255, 255, 10, 0, 0, 1]
    { Name := "example.com.", Rrtype := 1, Class := 1, Ttl := 300, Rdlength := 4 }
    [192, 168, 1, 1] (by decide) (by decide) (by decide)

/-- C27: `RewriteResponse` changes nothing but the address of an A or AAAA record.
For an A record the new address is the entry of the IPv4 map for the lookup name
(`rewrittenName` if it is not empty, else the name of the record) if there is one,
else the default IPv4 address if it is set, else the original address; likewise
for an AAAA record with the IPv6 map and default. The header of the record is the
same after the call, and a record of another type is returned as it is. The rule
is only read. -/
theorem RewriteResponse_address_only (r : ipRewriterResponseRule) (hdr : RR_Header)
    (a : IP) (rr : RR) :
    (hdr.Rrtype = TypeA →
        r.RewriteResponse (.A hdr a) =
          some (.A hdr ((r.domainToIPv4.get
            (if r.rewrittenName = "" then hdr.Name else r.rewrittenName)).getD
              (r.defaultIPv4.getD a)))) ∧
      (hdr.Rrtype = TypeAAAA →
        r.RewriteResponse (.AAAA hdr a) =
          some (.AAAA hdr ((r.domainToIPv6.get
            (if r.rewrittenName = "" then hdr.Name else r.rewrittenName)).getD
              (r.defaultIPv6.getD a)))) ∧
      (rr.Header.Rrtype ≠ TypeA → rr.Header.Rrtype ≠ TypeAAAA →
        r.RewriteResponse rr = some rr) ∧
      (∀ out, r.RewriteResponse rr = some out → out.Header = rr.Header) := by
  refine ⟨RewriteResponse_A r hdr a, RewriteResponse_AAAA r hdr a, ?_, ?_⟩
  · intro h1 h2
    unfold ipRewriterResponseRule.RewriteResponse
    simp only [h1, h2, if_false]
  · intro out hout
    unfold ipRewriterResponseRule.RewriteResponse at hout
    simp only at hout
    split at hout
    · split at hout
      · cases rr <;> simp [RR.setA] at hout
        subst hout
        rfl
      · split at hout
        · cases rr <;> simp [RR.setA] at hout
          subst hout
          rfl
        · simp at hout; subst hout; rfl
    · split at hout
      · split at hout
        · cases rr <;> simp [RR.setAAAA] at hout
          subst hout
          rfl
        · split at hout
          · cases rr <;> simp [RR.setAAAA] at hout
            subst hout
            rfl
          · simp at hout; subst hout; rfl
      · simp at hout; subst hout; rfl

/-- Witness of C27, `TestIPRewriterPreservesOtherFields` and the case "domain no
match" of `TestIPRewriterResponseRule`. -/
theorem RewriteResponse_address_only_witness :
    (newIPRewriterResponseRule.addMapping parseIPSample normalizeName "10.0.0.1"
      "example.com").2.RewriteResponse
        (.A { Name := "other.com.", Rrtype := 1, Class := 1, Ttl := 600, Rdlength := 4 }
          [192, 168, 1, 1]) =
      some (.A { Name := "other.com.", Rrtype := 1, Class := 1, Ttl := 600, Rdlength := 4 }
        (((newIPRewriterResponseRule.addMapping parseIPSample normalizeName "10.0.0.1"
          "example.com").2.domainToIPv4.get
            (if (newIPRewriterResponseRule.addMapping parseIPSample normalizeName "10.0.0.1"
              "example.com").2.rewrittenName = "" then "other.com."
            else (newIPRewriterResponseRule.addMapping parseIPSample normalizeName
              "10.0.0.1" "example.com").2.rewrittenName)).getD
          ((newIPRewriterResponseRule.addMapping parseIPSample normalizeName "10.0.0.1"
            "example.com").2.defaultIPv4.getD [192, 168, 1, 1]))) :=
  (RewriteResponse_address_only
    (newIPRewriterResponseRule.addMapping parseIPSample normalizeName "10.0.0.1"
      "example.com").2
    { Name := "other.com.", Rrtype := 1, Class := 1, Ttl := 600, Rdlength := 4 }
    [192, 168, 1, 1] (.other { Name := "", Rrtype := 5, Class := 1, Ttl := 0, Rdlength := 0 }
      [])).1 rfl

/-- C28: `addMapping` with a text that is not a valid IP address returns an error
and leaves the rule, hence both maps and `Len`, unchanged; with a valid address it
returns no error and stores the address under the normalized domain in the IPv4 map
exactly when the address has a 4-byte form, otherwise in the IPv6 map, leaving the
other map, the other keys and the other fields as they were; `Len` is the number
of IPv4 entries plus the number of IPv6 entries, one more than before when the key
is new. -/
theorem addMapping_spec (ParseIP : String → Option IP) (Normalize : String → String)
    (r : ipRewriterResponseRule) (ip domain : String) (x : IP) :
    (ParseIP ip = none →
        (r.addMapping ParseIP Normalize ip domain).1 ≠ none ∧
        (r.addMapping ParseIP Normalize ip domain).2 = r) ∧
      (ParseIP ip = some x → x.To4 ≠ none →
        (r.addMapping ParseIP Normalize ip domain).1 = none ∧
        (r.addMapping ParseIP Normalize ip domain).2.domainToIPv4.get (Normalize domain) =
          some x ∧
        (∀ k, k ≠ Normalize domain →
          (r.addMapping ParseIP Normalize ip domain).2.domainToIPv4.get k =
            r.domainToIPv4.get k) ∧
        (r.addMapping ParseIP Normalize ip domain).2 =
          { r with domainToIPv4 := (r.addMapping ParseIP Normalize ip domain).2.domainToIPv4 } ∧
        (r.domainToIPv4.get (Normalize domain) = none →
          (r.addMapping ParseIP Normalize ip domain).2.Len = r.Len + 1)) ∧
      (ParseIP ip = some x → x.To4 = none →
        (r.addMapping ParseIP Normalize ip domain).1 = none ∧
        (r.addMapping ParseIP Normalize ip domain).2.domainToIPv6.get (Normalize domain) =
          some x ∧
        (∀ k, k ≠ Normalize domain →
          (r.addMapping ParseIP Normalize ip domain).2.domainToIPv6.get k =
            r.domainToIPv6.get k) ∧
        (r.addMapping ParseIP Normalize ip domain).2 =
          { r with domainToIPv6 := (r.addMapping ParseIP Normalize ip domain).2.domainToIPv6 } ∧
        (r.domainToIPv6.get (Normalize domain) = none →
          (r.addMapping ParseIP Normalize ip domain).2.Len = r.Len + 1)) ∧
      (r.addMapping ParseIP Normalize ip domain).2.Len =
        (r.addMapping ParseIP Normalize ip domain).2.domainToIPv4.length +
          (r.addMapping ParseIP Normalize ip domain).2.domainToIPv6.length := by
  refine ⟨?_, ?_, ?_, rfl⟩
  · intro h
    unfold ipRewriterResponseRule.addMapping
    simp only [h]
    exact ⟨by simp, trivial⟩
  · intro h h4
    rw [addMapping_valid ParseIP Normalize r ip domain x h, if_pos h4]
    refine ⟨rfl, GoMap_get_set_self _ _ _, fun k hk => GoMap_get_set_ne _ _ _ _ hk, rfl, ?_⟩
    intro hnew
    simp only [ipRewriterResponseRule.Len, GoMap_length_set_new _ _ _ hnew]
    omega
  · intro h h4
    rw [addMapping_valid ParseIP Normalize r ip domain x h, if_neg (by simpa using h4)]
    refine ⟨rfl, GoMap_get_set_self _ _ _, fun k hk => GoMap_get_set_ne _ _ _ _ hk, rfl, ?_⟩
    intro hnew
    simp only [ipRewriterResponseRule.Len, GoMap_length_set_new _ _ _ hnew]
    omega

/-- Witness of C28, `TestIPRewriterInvalidMappings`: the text "invalid". -/
theorem addMapping_spec_witness :
    (newIPRewriterResponseRule.addMapping parseIPSample normalizeName "invalid"
        "example.com").1 ≠ none ∧
      (newIPRewriterResponseRule.addMapping parseIPSample normalizeName "invalid"
        "example.com").2 = newIPRewriterResponseRule :=
  (addMapping_spec parseIPSample normalizeName newIPRewriterResponseRule "invalid"
    "example.com" []).1 (by decide)

/-! ## Properties of `rewrite_ip`: pattern matching -/

theorem dot_isSuffixOf_concat (t : List Char) (c : Char) :
    ['.'].isSuffixOf (t ++ [c]) = decide (c = '.') := by
  by_cases h : c = '.'
  · subst h
    simp [List.isSuffixOf, List.reverse_append, List.isPrefixOf]
  · have h1 : ¬ ('.' = c) := fun e => h e.symm
    simp [List.isSuffixOf, List.reverse_append, List.isPrefixOf, h, h1]

theorem TrimSuffix_dot_concat (s : String) (t : List Char) (c : Char)
    (hs : s.data = t ++ [c]) :
    (TrimSuffix s ".").data = if c = '.' then t else t ++ [c] := by
  have hd : ".".data = ['.'] := rfl
  unfold TrimSuffix HasSuffix
  rw [hd, hs, dot_isSuffixOf_concat]
  by_cases h : c = '.'
  · simp [h]
  · simp [h, hs]

theorem TrimSuffix_dot_append (s : String) (pre sd : List Char) (h : sd ≠ [])
    (hs : s.data = pre ++ sd) :
    (TrimSuffix s ".").data = pre ++ (TrimSuffix (String.mk sd) ".").data := by
  obtain ⟨t, c, ht⟩ : ∃ t c, sd = t ++ [c] :=
    ⟨sd.dropLast, sd.getLast h, (List.dropLast_append_getLast h).symm⟩
  subst ht
  rw [TrimSuffix_dot_concat s (pre ++ t) c (by rw [hs, List.append_assoc]),
    TrimSuffix_dot_concat (String.mk (t ++ [c])) t c rfl]
  split <;> simp

theorem TrimSuffix_dot_add (d : String) : TrimSuffix (d ++ ".") "." = d := by
  apply String.ext
  rw [TrimSuffix_dot_concat (d ++ ".") d.data '.' (by rw [String.data_append])]
  simp

theorem TrimSuffix_dot_none (d : String) (h : HasSuffix d "." = false) :
    TrimSuffix d "." = d := by
  unfold TrimSuffix
  simp [h]

theorem matchPattern_congr (lower : Char → Char) (Match : String → String → Bool)
    (domain p p1 : String)
    (h : ToLower lower (TrimSuffix p ".") = ToLower lower (TrimSuffix p1 ".")) :
    matchPattern lower Match domain p = matchPattern lower Match domain p1 := by
  unfold matchPattern
  simp only [h]

theorem matchAny_loop_congr (lower : Char → Char) (Match : String → String → Bool)
    (domain : String) (ps ps1 : List String)
    (h : ps.map (fun p => ToLower lower (TrimSuffix p ".")) =
      ps1.map (fun p => ToLower lower (TrimSuffix p "."))) :
    matchAny.loop lower Match domain ps = matchAny.loop lower Match domain ps1 := by
  induction ps generalizing ps1 with
  | nil =>
    cases ps1 with
    | nil => rfl
    | cons q qs => simp at h
  | cons p ps ih =>
    cases ps1 with
    | nil => simp at h
    | cons q qs =>
      simp only [List.map_cons, List.cons.injEq] at h
      simp only [matchAny.loop, matchPattern_congr lower Match domain p q h.1, ih qs h.2]

theorem matchAny_loop_of_mem (lower : Char → Char) (Match : String → String → Bool)
    (domain p : String) (ps : List String) (hp : p ∈ ps)
    (h : matchPattern lower Match domain p = true) :
    matchAny.loop lower Match domain ps = true := by
  induction ps with
  | nil => cases hp
  | cons q qs ih =>
    rcases List.mem_cons.mp hp with e | hq
    · subst e
      simp only [matchAny.loop, h, if_true]
    · simp only [matchAny.loop, ih hq]
      split <;> rfl

theorem matchPattern_equal (lower : Char → Char) (Match : String → String → Bool)
    (domain p : String) (h : domain = ToLower lower (TrimSuffix p ".")) :
    matchPattern lower Match domain p = true := by
  unfold matchPattern
  simp only [h, if_true]

theorem matchPattern_wildcard (lower : Char → Char) (Match : String → String → Bool)
    (hdot : lower '.' = '.') (hstar : lower '*' = '*') (d p : String) (x sd : List Char)
    (hsd : sd ≠ []) (hd : d.data = x ++ '.' :: sd) (hp : p.data = '*' :: '.' :: sd) :
    matchPattern lower Match (ToLower lower (TrimSuffix d ".")) p = true := by
  have h1 : (TrimSuffix d ".").data = (x ++ ['.']) ++ (TrimSuffix (String.mk sd) ".").data :=
    TrimSuffix_dot_append d (x ++ ['.']) sd hsd (by rw [hd]; simp)
  have h2 : (TrimSuffix p ".").data = ['*', '.'] ++ (TrimSuffix (String.mk sd) ".").data :=
    TrimSuffix_dot_append p ['*', '.'] sd hsd (by rw [hp]; rfl)
  have e1 : ToLower lower (TrimSuffix d ".") =
      String.mk (x.map lower ++ '.' :: (TrimSuffix (String.mk sd) ".").data.map lower) := by
    unfold ToLower
    rw [h1]
    simp [hdot]
  have e2 : ToLower lower (TrimSuffix p ".") =
      String.mk ('*' :: '.' :: (TrimSuffix (String.mk sd) ".").data.map lower) := by
    unfold ToLower
    rw [h2]
    simp [hdot, hstar]
  unfold matchPattern
  simp only [e1, e2]
  split
  · rfl
  · have hpre : HasPrefix
        (String.mk ('*' :: '.' :: (TrimSuffix (String.mk sd) ".").data.map lower)) "*." =
          true := by
      have hd2 : "*.".data = ['*', '.'] := rfl
      unfold HasPrefix
      rw [hd2]
      simp [List.isPrefixOf]
    have hsuf : HasSuffix
        (String.mk (x.map lower ++ '.' :: (TrimSuffix (String.mk sd) ".").data.map lower))
        (String.mk (List.drop 1
          ('*' :: '.' :: (TrimSuffix (String.mk sd) ".").data.map lower))) = true := by
      unfold HasSuffix
      rw [List.isSuffixOf_iff_suffix]
      exact List.suffix_append _ _
    simp only [hpre, hsuf, if_true]

/-- C29: with a lower-casing that fixes "." and "*", as `unicode.ToLower` does,
`matchAny` depends on the domain and on the patterns only through their forms
without one trailing dot and in lower case, so a domain without trailing dot and
the same domain followed by a dot give the same result; a domain matches every
pattern of the list that has the same such form; a pattern "*." followed by a
domain `s` (a non-empty name) matches every domain that ends with "." followed by
`s`, a subdomain of `s` at any depth; over the empty list the result is false. -/
theorem matchAny_spec (lower : Char → Char) (Match : String → String → Bool)
    (hdot : lower '.' = '.') (hstar : lower '*' = '*') (domain : String)
    (patterns : List String) :
    (∀ domain1 patterns1,
        ToLower lower (TrimSuffix domain1 ".") = ToLower lower (TrimSuffix domain ".") →
        patterns1.map (fun p => ToLower lower (TrimSuffix p ".")) =
          patterns.map (fun p => ToLower lower (TrimSuffix p ".")) →
        matchAny lower Match domain1 patterns1 = matchAny lower Match domain patterns) ∧
      (HasSuffix domain "." = false →
        matchAny lower Match (domain ++ ".") patterns = matchAny lower Match domain patterns) ∧
      (∀ p, p ∈ patterns →
        ToLower lower (TrimSuffix domain ".") = ToLower lower (TrimSuffix p ".") →
        matchAny lower Match domain patterns = true) ∧
      (∀ s, s ≠ "" → "*." ++ s ∈ patterns → HasSuffix domain ("." ++ s) = true →
        matchAny lower Match domain patterns = true) ∧
      matchAny lower Match domain [] = false := by
  refine ⟨?_, ?_, ?_, ?_, rfl⟩
  · intro domain1 patterns1 hd hp
    unfold matchAny
    simp only [hd]
    exact matchAny_loop_congr lower Match _ patterns1 patterns hp
  · intro h
    unfold matchAny
    rw [TrimSuffix_dot_add, TrimSuffix_dot_none domain h]
  · intro p hp h
    unfold matchAny
    exact matchAny_loop_of_mem lower Match _ p patterns hp
      (matchPattern_equal lower Match _ p h)
  · intro s hs hp hsuf
    unfold matchAny
    have hsd : s.data ≠ [] := fun e => hs (String.ext e)
    have hsuf1 : ('.' :: s.data) <:+ domain.data := by
      unfold HasSuffix at hsuf
      rw [List.isSuffixOf_iff_suffix, String.data_append] at hsuf
      exact hsuf
    obtain ⟨x, hx⟩ := hsuf1
    exact matchAny_loop_of_mem lower Match _ ("*." ++ s) patterns hp
      (matchPattern_wildcard lower Match hdot hstar domain ("*." ++ s) x s.data hsd hx.symm
        (by rw [String.data_append]; rfl))

/-- Witness of C29: a subdomain at depth two. -/
theorem matchAny_spec_witness :
    matchAny Char.toLower matchStar "a.b.example.com" ["other.org", "*.example.com"] = true :=
  (matchAny_spec Char.toLower matchStar (by decide) (by decide) "a.b.example.com"
    ["other.org", "*.example.com"]).2.2.2.1 "example.com" (by decide) (by decide) (by decide)

/-! ## Properties of `rewrite_ip/hosts.go` -/

theorem addHost_get_self (data : GoMap String HostEntry) (isIPv6 : Bool) (ip : IP)
    (hostname : String) :
    (HostFile.addHost data isIPv6 ip hostname).get hostname =
      some (if isIPv6 then
          { (data.get hostname).getD { IPv4 := [], IPv6 := [] } with
            IPv6 := ((data.get hostname).getD { IPv4 := [], IPv6 := [] }).IPv6 ++ [ip] }
        else
          { (data.get hostname).getD { IPv4 := [], IPv6 := [] } with
            IPv4 := ((data.get hostname).getD { IPv4 := [], IPv6 := [] }).IPv4 ++ [ip] }) := by
  unfold HostFile.addHost
  cases hg : data.get hostname with
  | none =>
    cases isIPv6 <;> simp [GoMap_get_set_self]
  | some e =>
    cases isIPv6 <;> simp [GoMap_get_set_self, hg]

theorem addHost_get_ne (data : GoMap String HostEntry) (isIPv6 : Bool) (ip : IP)
    (hostname key : String) (h : key ≠ hostname) :
    (HostFile.addHost data isIPv6 ip hostname).get key = data.get key := by
  unfold HostFile.addHost
  cases hg : data.get hostname with
  | none =>
    cases isIPv6 <;> simp [GoMap_get_set_ne _ _ _ _ h]
  | some e =>
    cases isIPv6 <;> simp [GoMap_get_set_ne _ _ _ _ h]

theorem listed_addHost_mono (data : GoMap String HostEntry) (v6 isIPv6 : Bool)
    (ip ip1 : IP) (hostname key : String) (h : HostFile.listed data v6 key ip) :
    HostFile.listed (HostFile.addHost data isIPv6 ip1 hostname) v6 key ip := by
  unfold HostFile.listed at h ⊢
  by_cases hk : key = hostname
  · subst hk
    rw [addHost_get_self]
    cases hg : data.get key with
    | none => rw [hg] at h; simp at h
    | some e =>
      rw [hg] at h
      cases isIPv6 <;> cases v6 <;> simp at h ⊢ <;> simp [h]
  · rw [addHost_get_ne _ _ _ _ _ hk]
    exact h

theorem listed_addHost_self (data : GoMap String HostEntry) (isIPv6 : Bool) (ip : IP)
    (hostname : String) :
    HostFile.listed (HostFile.addHost data isIPv6 ip hostname) isIPv6 hostname ip := by
  unfold HostFile.listed
  rw [addHost_get_self]
  cases isIPv6 <;> simp

theorem listed_hostnames_mono (lower : Char → Char) (isIPv6 v6 : Bool) (ip ip1 : IP)
    (key : String) (hostnames : List String) (data : GoMap String HostEntry)
    (h : HostFile.listed data v6 key ip) :
    HostFile.listed
      (hostnames.foldl
        (fun data hostname => HostFile.addHost data isIPv6 ip1 (ToLower lower hostname)) data)
      v6 key ip := by
  induction hostnames generalizing data with
  | nil => exact h
  | cons a rest ih =>
    simp only [List.foldl_cons]
    exact ih _ (listed_addHost_mono data v6 isIPv6 ip ip1 _ key h)

theorem listed_hostnames_mem (lower : Char → Char) (isIPv6 : Bool) (ip : IP)
    (hostname : String) (hostnames : List String) (data : GoMap String HostEntry)
    (h : hostname ∈ hostnames) :
    HostFile.listed
      (hostnames.foldl
        (fun data hostname => HostFile.addHost data isIPv6 ip (ToLower lower hostname)) data)
      isIPv6 (ToLower lower hostname) ip := by
  induction hostnames generalizing data with
  | nil => cases h
  | cons a rest ih =>
    simp only [List.foldl_cons]
    rcases List.mem_cons.mp h with e | hr
    · subst e
      exact listed_hostnames_mono lower isIPv6 isIPv6 ip ip _ rest _
        (listed_addHost_self data isIPv6 ip _)
    · exact ih _ hr

theorem listed_loadLine_mono (lower : Char → Char) (ParseIP : String → Option IP)
    (data : GoMap String HostEntry) (text : String) (v6 : Bool) (key : String) (ip : IP)
    (h : HostFile.listed data v6 key ip) :
    HostFile.listed (HostFile.loadLine lower ParseIP data text) v6 key ip := by
  unfold HostFile.loadLine
  simp only
  split
  · exact h
  · split
    · exact h
    · split
      · exact h
      · split
        · exact h
        · exact listed_hostnames_mono lower _ v6 ip _ key _ data h

theorem listed_loadLine_of (lower : Char → Char) (ParseIP : String → Option IP)
    (data : GoMap String HostEntry) (text first : String) (hostnames : List String)
    (ip : IP) (hostname : String) (hne : TrimSpace text ≠ "")
    (hc : HasPrefix (TrimSpace text) "#" = false)
    (hfields : Fields (TrimSpace text) = first :: hostnames) (hip : ParseIP first = some ip)
    (hh : hostname ∈ hostnames) :
    HostFile.listed (HostFile.loadLine lower ParseIP data text) ip.To4.isNone
      (ToLower lower hostname) ip := by
  have hlen : ¬ ((first :: hostnames).length < 2) := by
    cases hostnames with
    | nil => cases hh
    | cons a rest => simp
  unfold HostFile.loadLine
  simp only [hne, hc, hfields, hlen, hip, false_or, if_false, Bool.false_eq_true]
  exact listed_hostnames_mem lower _ ip hostname hostnames data hh

theorem listed_lines_mono (lower : Char → Char) (ParseIP : String → Option IP)
    (lines : List String) (data : GoMap String HostEntry) (v6 : Bool) (key : String) (ip : IP)
    (h : HostFile.listed data v6 key ip) :
    HostFile.listed (lines.foldl (HostFile.loadLine lower ParseIP) data) v6 key ip := by
  induction lines generalizing data with
  | nil => exact h
  | cons a rest ih =>
    simp only [List.foldl_cons]
    exact ih _ (listed_loadLine_mono lower ParseIP data a v6 key ip h)

theorem listed_lines_of (lower : Char → Char) (ParseIP : String → Option IP)
    (lines : List String) (data : GoMap String HostEntry) (text first : String)
    (hostnames : List String) (ip : IP) (hostname : String) (hmem : text ∈ lines)
    (hne : TrimSpace text ≠ "") (hc : HasPrefix (TrimSpace text) "#" = false)
    (hfields : Fields (TrimSpace text) = first :: hostnames) (hip : ParseIP first = some ip)
    (hh : hostname ∈ hostnames) :
    HostFile.listed (lines.foldl (HostFile.loadLine lower ParseIP) data) ip.To4.isNone
      (ToLower lower hostname) ip := by
  induction lines generalizing data with
  | nil => cases hmem
  | cons a rest ih =>
    simp only [List.foldl_cons]
    rcases List.mem_cons.mp hmem with e | hr
    · subst e
      exact listed_lines_mono lower ParseIP rest _ _ _ ip
        (listed_loadLine_of lower ParseIP data text first hostnames ip hostname hne hc hfields
          hip hh)
    · exact ih _ hr

/-- C30, as stated, fails for a hostname that the file writes with a trailing dot:
`Load` stores it with the dot, the lookups remove one trailing dot from the name
they are given, so neither the hostname as written nor the hostname without the dot
finds the address. -/
theorem HostFile_trailing_dot_in_file_not_found :
    TrimSpace "10.0.0.1 example.com." ≠ "" ∧
      HasPrefix (TrimSpace "10.0.0.1 example.com.") "#" = false ∧
      Fields (TrimSpace "10.0.0.1 example.com.") = ["10.0.0.1", "example.com."] ∧
      (parseIPSample "10.0.0.1").bind IP.To4 = some [10, 0, 0, 1] ∧
      (HostFile.Load Char.toLower parseIPSample { data := [] } none ["10.0.0.1 example.com."]
        none).1 = none ∧
      hostsWithDot.LookupIPv4 Char.toLower "example.com." = [] ∧
      hostsWithDot.LookupIPv4 Char.toLower "example.com" = [] := by
  decide

/-- C30, amended: after a `Load` that could open the file, for every line scanned
that is not empty and not a comment, whose first field is a valid address and for
every hostname `h` after it on the line, the lookup of the family of the address
(`LookupIPv4` when the address has a 4-byte form, `LookupIPv6` otherwise) returns a
list that contains the address for every lookup name which, without one trailing
dot and in lower case, equals `h` in lower case; for a hostname written without a
trailing dot these are `h` and `h` followed by a dot, in any letter case. -/
theorem HostFile_Load_then_Lookup (lower : Char → Char) (ParseIP : String → Option IP)
    (hf : HostFile) (lines : List String) (scanErr : Option Error) (text first : String)
    (hostnames : List String) (ip : IP) (h q : String) (hmem : text ∈ lines)
    (hne : TrimSpace text ≠ "") (hc : HasPrefix (TrimSpace text) "#" = false)
    (hfields : Fields (TrimSpace text) = first :: hostnames) (hip : ParseIP first = some ip)
    (hh : h ∈ hostnames)
    (hq : ToLower lower (TrimSuffix q ".") = ToLower lower h) :
    (ip.To4 ≠ none →
        ip ∈ (HostFile.Load lower ParseIP hf none lines scanErr).2.LookupIPv4 lower q) ∧
      (ip.To4 = none →
        ip ∈ (HostFile.Load lower ParseIP hf none lines scanErr).2.LookupIPv6 lower q) ∧
      (HasSuffix h "." = false →
        ToLower lower (TrimSuffix h ".") = ToLower lower h ∧
        ToLower lower (TrimSuffix (h ++ ".") ".") = ToLower lower h) := by
  have hl := listed_lines_of lower ParseIP lines [] text first hostnames ip h hmem hne hc
    hfields hip hh
  unfold HostFile.listed at hl
  refine ⟨?_, ?_, ?_⟩
  · intro h4
    have hb : ip.To4.isNone = false := by
      cases hto : ip.To4 with
      | none => exact absurd hto h4
      | some v => rfl
    rw [hb] at hl
    unfold HostFile.LookupIPv4 HostFile.Load
    simp only [hq]
    cases hg : (List.foldl (HostFile.loadLine lower ParseIP) [] lines).get (ToLower lower h) with
    | none => rw [hg] at hl; simp at hl
    | some e => rw [hg] at hl; simpa using hl
  · intro h4
    have hb : ip.To4.isNone = true := by rw [h4]; rfl
    rw [hb] at hl
    unfold HostFile.LookupIPv6 HostFile.Load
    simp only [hq]
    cases hg : (List.foldl (HostFile.loadLine lower ParseIP) [] lines).get (ToLower lower h) with
    | none => rw [hg] at hl; simp at hl
    | some e => rw [hg] at hl; simpa using hl
  · intro hd
    rw [TrimSuffix_dot_add, TrimSuffix_dot_none h hd]
    exact ⟨rfl, rfl⟩

/-- Witness of the amended C30: the second line of `hostsSample`, looked up in
another letter case and with a trailing dot. -/
theorem HostFile_Load_then_Lookup_witness :
    [0, 0, 0, 0, 0, 0, 0, 0, 0, 0, 255, 255, 10, 0, 0, 1] ∈
      (HostFile.Load Char.toLower parseIPSample { data := [] } none
        ["# local names", "10.0.0.1  Example.com www.example.com", "",
          "2001:db8::1 example.com"] none).2.LookupIPv4 Char.toLower "EXAMPLE.com." :=
  (HostFile_Load_then_Lookup Char.toLower parseIPSample { data := [] }
    ["# local names", "10.0.0.1  Example.com www.example.com", "", "2001:db8::1 example.com"]
    none "10.0.0.1  Example.com www.example.com" "10.0.0.1"
    ["Example.com", "www.example.com"] [0, 0, 0, 0, 0, 0, 0, 0, 0, 0, 255, 255, 10, 0, 0, 1]
    "Example.com" "EXAMPLE.com." (by decide) (by decide) (by decide) (by decide) (by decide)
    (by decide) (by decide)).1 (by decide)

/-! ## The sequential policy and a down upstream -/

theorem indices_pos_cons (n : Nat) (h : 0 < n) : ∃ rest, indices n = 0 :: rest := by
  cases n with
  | zero => cases h
  | succ k =>
    refine ⟨(List.range k).map (fun t => Int.ofNat (t + 1)), ?_⟩
    simp [indices, List.range_succ_eq_map, Function.comp_def]

theorem isDown_index {c : lbDNSClient} {i : Int} (h : c.isDown i = true) :
    ∃ cl, index c.clients i = some cl ∧ 0 < c.maxFails := by
  unfold lbDNSClient.isDown at h
  cases hi : index c.clients i with
  | none => rw [hi] at h; cases h
  | some cl =>
    refine ⟨cl, rfl, ?_⟩
    rw [hi] at h
    simp only [metricDNSClient.Down] at h
    by_cases h0 : c.maxFails = 0
    · simp [h0] at h
    · omega

theorem Query_sequential_ids (c : lbDNSClient) (p : sequentialPolicy)
    (hp : c.p = .sequential p) :
    (c.p.List (c.clients.length : Int)).1 = indices c.clients.length ∧
      (c.p.List (c.clients.length : Int)).2 = .sequential p := by
  rw [hp]
  exact ⟨sequentialPolicy_List_eq p c.clients.length, rfl⟩

theorem Query_sequential_step (tbl : Int → Option String) (c : lbDNSClient)
    (p : sequentialPolicy) (i : Int) (ev : List Event) (ctx : Context) (dnsreq : List UInt8)
    (hp : c.p = .sequential p) (hi : 1 ≤ i) (hd : c.isDown i = true) :
    ∃ new, (c.Query tbl ev ctx dnsreq).2.2 = ev ++ new ∧ i ∉ invoked new ∧
      c.agreesOff (c.Query tbl ev ctx dnsreq).2.1 (invoked new) ∧
      (c.Query tbl ev ctx dnsreq).2.1.p = .sequential p ∧
      ((∀ j ∈ indices c.clients.length, c.isDown j = true) → invoked new = [0]) := by
  obtain ⟨hids, hp2⟩ := Query_sequential_ids c p hp
  have hQ := Query_of_ids tbl c ev ctx dnsreq (indices c.clients.length) hids
  have hpq : (c.Query tbl ev ctx dnsreq).2.1.p = .sequential p := by
    rw [Query_p, hp2]
  obtain ⟨new1, hnew1, hagree⟩ :=
    QueryWith_frame tbl { c with p := (c.p.List (c.clients.length : Int)).2 } ev ctx dnsreq
      (indices c.clients.length)
  rw [← hQ] at hnew1 hagree
  have hagree1 : c.agreesOff (c.Query tbl ev ctx dnsreq).2.1 (invoked new1) := hagree
  obtain ⟨cl, hcl, _⟩ := isDown_index hd
  have hlen : 0 < c.clients.length := by
    have := (index_some_range hcl).2
    omega
  by_cases hup : ∃ j ∈ indices c.clients.length, c.isDown j = false
  · obtain ⟨new, hnew, hsub, _⟩ :=
      QueryWith_up tbl { c with p := (c.p.List (c.clients.length : Int)).2 } ev ctx dnsreq
        (indices c.clients.length) (indices_nodup _) hup
    rw [← hQ] at hnew
    have he : new1 = new := List.append_cancel_left (hnew1.symm.trans hnew)
    subst he
    refine ⟨new1, hnew1, ?_, hagree1, hpq, ?_⟩
    · intro hmem
      have h2 := List.mem_filter.mp (hsub.subset hmem)
      have h3 : c.isDown i = false := by simpa using h2.2
      rw [hd] at h3
      cases h3
    · intro hall
      obtain ⟨j, hj, hjd⟩ := hup
      rw [hall j hj] at hjd
      cases hjd
  · have hall : ∀ j ∈ indices c.clients.length, c.isDown j = true := by
      intro j hj
      cases hjd : c.isDown j with
      | true => rfl
      | false => exact absurd ⟨j, hj, hjd⟩ hup
    obtain ⟨rest, hrest⟩ := indices_pos_cons c.clients.length hlen
    have h0mem : (0 : Int) ∈ indices c.clients.length := by
      rw [hrest]
      exact List.mem_cons_self _ _
    obtain ⟨cl0, hcl0⟩ := index_of_mem_indices h0mem
    have hr : lbDNSClient.nextReply { c with p := (c.p.List (c.clients.length : Int)).2 } ctx
        dnsreq 0 = some (cl0.nextReply (WithTimeout ctx c.timeout) dnsreq) := by
      unfold lbDNSClient.nextReply
      simp only [hcl0, Option.map_some']
    have hall1 : ∀ j ∈ (0 : Int) :: rest,
        lbDNSClient.isDown { c with p := (c.p.List (c.clients.length : Int)).2 } j = true := by
      intro j hj
      rw [← hrest] at hj
      exact hall j hj
    obtain ⟨_, ms, hms, hinv, _⟩ :=
      QueryWith_all_down tbl { c with p := (c.p.List (c.clients.length : Int)).2 } ev ctx dnsreq
        0 rest _ hall1 hr
    rw [← hrest, ← hQ] at hms
    have he : new1 = Event.HealthcheckBrokenCount :: Event.upstream 0 :: ms :=
      List.append_cancel_left (hnew1.symm.trans hms)
    have hinv1 : invoked new1 = [0] := by
      rw [he]
      simp only [invoked, hinv]
    refine ⟨new1, hnew1, ?_, hagree1, hpq, fun _ => hinv1⟩
    rw [hinv1]
    intro hmem
    have : i = 0 := by simpa using hmem
    omega

theorem run_sequential_down (tbl : Int → Option String) (p : sequentialPolicy) (i : Int)
    (hi : 1 ≤ i) (qs : List (Context × List UInt8)) (c : lbDNSClient) (ev : List Event)
    (hp : c.p = .sequential p) (hd : c.isDown i = true) :
    ∃ new, (lbDNSClient.run tbl c ev qs).2 = ev ++ new ∧ i ∉ invoked new ∧
      index (lbDNSClient.run tbl c ev qs).1.clients i = index c.clients i ∧
      (lbDNSClient.run tbl c ev qs).1.maxFails = c.maxFails ∧
      (lbDNSClient.run tbl c ev qs).1.isDown i = true := by
  induction qs generalizing c ev with
  | nil => exact ⟨[], by simp [lbDNSClient.run], by simp [invoked], rfl, rfl, hd⟩
  | cons q qs ih =>
    obtain ⟨new, hnew, hni, hagree, hp1, _⟩ :=
      Query_sequential_step tbl c p i ev q.1 q.2 hp hi hd
    have hd1 : (c.Query tbl ev q.1 q.2).2.1.isDown i = true := by
      rw [agreesOff_isDown hagree hni]
      exact hd
    obtain ⟨new2, hnew2, hni2, hidx2, hmax2, hd2⟩ :=
      ih (c.Query tbl ev q.1 q.2).2.1 (c.Query tbl ev q.1 q.2).2.2 hp1 hd1
    refine ⟨new ++ new2, ?_, ?_, ?_, ?_, ?_⟩
    · simp only [lbDNSClient.run]
      rw [hnew2, hnew, List.append_assoc]
    · rw [invoked_append]
      intro hmem
      rcases List.mem_append.mp hmem with h | h
      · exact hni h
      · exact hni2 h
    · simp only [lbDNSClient.run]
      rw [hidx2]
      exact hagree.2.2.2 i hni
    · simp only [lbDNSClient.run]
      rw [hmax2]
      exact hagree.1
    · simp only [lbDNSClient.run]
      exact hd2

/-- C31: with the sequential policy, once the upstream at an index `i >= 1` is
down (which needs a threshold above 0), no query of any later sequence of queries
invokes it, whatever the other upstreams reply; the upstream object at `i`, and so
its failure count, is the same after the queries, and it is still down. When all
upstreams are down the one attempt of a query goes to index 0. -/
theorem sequential_down_never_recovers (tbl : Int → Option String) (c : lbDNSClient)
    (p : sequentialPolicy) (i : Int) (ev : List Event) (qs : List (Context × List UInt8))
    (hp : c.p = .sequential p) (hi : 1 ≤ i) (hd : c.isDown i = true) :
    0 < c.maxFails ∧
      (∃ new, (lbDNSClient.run tbl c ev qs).2 = ev ++ new ∧ i ∉ invoked new ∧
        index (lbDNSClient.run tbl c ev qs).1.clients i = index c.clients i ∧
        (index (lbDNSClient.run tbl c ev qs).1.clients i).map metricDNSClient.Fails =
          (index c.clients i).map metricDNSClient.Fails ∧
        (lbDNSClient.run tbl c ev qs).1.isDown i = true) ∧
      ((∀ j ∈ indices c.clients.length, c.isDown j = true) →
        ∀ ctx dnsreq, ∃ new, (c.Query tbl ev ctx dnsreq).2.2 = ev ++ new ∧
          invoked new = [0]) := by
  refine ⟨(isDown_index hd).choose_spec.2, ?_, ?_⟩
  · obtain ⟨new, hnew, hni, hidx, _, hdown⟩ := run_sequential_down tbl p i hi qs c ev hp hd
    exact ⟨new, hnew, hni, hidx, by rw [hidx], hdown⟩
  · intro hall ctx dnsreq
    obtain ⟨new, hnew, _, _, _, h0⟩ := Query_sequential_step tbl c p i ev ctx dnsreq hp hi hd
    exact ⟨new, hnew, h0 hall⟩

/-- Witness of C31: the second upstream of `lbSecondDown` over three queries. -/
theorem sequential_down_never_recovers_witness :
    0 < lbSecondDown.maxFails ∧
      (∃ new, (lbDNSClient.run rcodeNames lbSecondDown []
            [(Background, abc), (cancelled, abc), (Background, [])]).2 = [] ++ new ∧
        (1 : Int) ∉ invoked new ∧
        index (lbDNSClient.run rcodeNames lbSecondDown []
            [(Background, abc), (cancelled, abc), (Background, [])]).1.clients 1 =
          index lbSecondDown.clients 1 ∧
        (index (lbDNSClient.run rcodeNames lbSecondDown []
            [(Background, abc), (cancelled, abc), (Background, [])]).1.clients 1).map
            metricDNSClient.Fails =
          (index lbSecondDown.clients 1).map metricDNSClient.Fails ∧
        (lbDNSClient.run rcodeNames lbSecondDown []
            [(Background, abc), (cancelled, abc), (Background, [])]).1.isDown 1 = true) ∧
      ((∀ j ∈ indices lbSecondDown.clients.length, lbSecondDown.isDown j = true) →
        ∀ ctx dnsreq, ∃ new, (lbSecondDown.Query rcodeNames [] ctx dnsreq).2.2 = [] ++ new ∧
          invoked new = [0]) :=
  sequential_down_never_recovers rcodeNames lbSecondDown newSequentialPolicy 1 []
    [(Background, abc), (cancelled, abc), (Background, [])] rfl (by decide) (by decide)

/-! ## Index expressions stay in range -/

theorem lbDNSClient_query_returns (tbl : Int → Option String) (c : lbDNSClient)
    (ev : List Event) (ctx : Context) (dnsreq : List UInt8) (idx : Int)
    (h : idx ∈ indices c.clients.length) :
    (c.query tbl ev ctx dnsreq idx).1 ≠ .panicked := by
  obtain ⟨cl, hcl⟩ := index_of_mem_indices h
  rw [lbDNSClient_query_some tbl c ev ctx dnsreq idx cl hcl]
  intro hc
  cases hc

theorem rangeLoop_no_panic (tbl : Int → Option String) (ctx : Context) (dnsreq : List UInt8)
    (ids : List Int) (c : lbDNSClient) (ev : List Event) (v : Locals)
    (h : ∀ j ∈ ids, j ∈ indices c.clients.length) :
    (lbDNSClient.rangeLoop tbl ctx dnsreq ids c ev v).1 ≠ .panicked := by
  induction ids generalizing c ev v with
  | nil =>
    rw [rangeLoop_nil]
    intro hc
    cases hc
  | cons idx ids ih =>
    have hin := h idx (List.mem_cons_self _ _)
    have hrest : ∀ j ∈ ids, j ∈ indices c.clients.length :=
      fun j hj => h j (List.mem_cons_of_mem _ hj)
    obtain ⟨cl, hcl⟩ := index_of_mem_indices hin
    cases hdn : c.isDown idx with
    | true =>
      rw [rangeLoop_cons_down tbl ctx dnsreq idx ids c ev v hdn]
      exact ih c ev v hrest
    | false =>
      have hr : c.nextReply ctx dnsreq idx =
          some (cl.nextReply (WithTimeout ctx c.timeout) dnsreq) := by
        unfold lbDNSClient.nextReply
        simp only [hcl, Option.map_some']
      rw [rangeLoop_cons_up tbl ctx dnsreq idx ids c ev v _ hdn hr]
      split
      · intro hc
        cases hc
      · apply ih
        have hlen := (lbDNSClient_query_agreesOff tbl c ev ctx dnsreq idx).2.2.1
        rw [hlen]
        exact hrest

theorem QueryWith_no_panic (tbl : Int → Option String) (c : lbDNSClient) (ev : List Event)
    (ctx : Context) (dnsreq : List UInt8) (ids : List Int)
    (h : ∀ j ∈ ids, j ∈ indices c.clients.length)
    (hne : 0 < c.clients.length → ids ≠ []) :
    (c.QueryWith tbl ev ctx dnsreq ids).1 ≠ .panicked := by
  have hloop := rangeLoop_no_panic tbl ctx dnsreq ids c ev
    { r := none, err := none, attempts := 0, allDown := true } h
  have hlen := (rangeLoop_agreesOff tbl ctx dnsreq ids c ev
    { r := none, err := none, attempts := 0, allDown := true }).2.2.1
  rcases hres : lbDNSClient.rangeLoop tbl ctx dnsreq ids c ev
      { r := none, err := none, attempts := 0, allDown := true } with ⟨flow, v, c1, ev1⟩
  rw [hres] at hloop hlen
  cases flow with
  | panicked => exact absurd rfl hloop
  | returned =>
    rw [QueryWith_returned tbl c ev ctx dnsreq ids v c1 ev1 hres]
    intro hc
    cases hc
  | fallThrough =>
    cases hv : v.allDown with
    | false =>
      rw [QueryWith_fell_up tbl c ev ctx dnsreq ids v c1 ev1 hres hv]
      intro hc
      cases hc
    | true =>
      rw [QueryWith_fell_down tbl c ev ctx dnsreq ids v c1 ev1 hres hv]
      have hlen1 : c1.clients.length = c.clients.length := hlen
      split
      · rename_i hpos
        cases ids with
        | nil => exact absurd rfl (hne (by omega))
        | cons id0 rest =>
          apply lbDNSClient_query_returns
          rw [hlen1]
          exact h id0 (List.mem_cons_self _ _)
      · intro hc
        cases hc

/-- C32: for each of the three policies and every client list, `Query` does not
panic: no index expression is out of range. Every index of the order it takes from
the policy is in `[0, len(clients))`, the order has the length of the client list,
so that it is non-empty whenever `ids[0]` is read (the list is non-empty there),
and every upstream index that is invoked is in range. -/
theorem lbDNSClient_Query_index_in_range (tbl : Int → Option String) (c : lbDNSClient)
    (ev : List Event) (ctx : Context) (dnsreq : List UInt8) :
    (c.Query tbl ev ctx dnsreq).1 ≠ .panicked ∧
      (∀ j ∈ (c.p.List (c.clients.length : Int)).1, 0 ≤ j ∧ j < c.clients.length) ∧
      ((c.p.List (c.clients.length : Int)).1).length = c.clients.length ∧
      (0 < c.clients.length → (c.p.List (c.clients.length : Int)).1 ≠ []) ∧
      ∃ new, (c.Query tbl ev ctx dnsreq).2.2 = ev ++ new ∧
        ∀ j ∈ invoked new, 0 ≤ j ∧ j < c.clients.length := by
  have hmem : ∀ j ∈ (c.p.List (c.clients.length : Int)).1, j ∈ indices c.clients.length :=
    fun j hj => (policy_List_mem c.p c.clients.length j).mp hj
  have hlen : ((c.p.List (c.clients.length : Int)).1).length = c.clients.length := by
    rw [(policy_List_perm c.p c.clients.length).length_eq, indices_length]
  have hne : 0 < c.clients.length → (c.p.List (c.clients.length : Int)).1 ≠ [] := by
    intro hpos he
    rw [he] at hlen
    simp at hlen
    omega
  have hQ := Query_of_ids tbl c ev ctx dnsreq _ rfl
  refine ⟨?_, fun j hj => mem_indices.mp (hmem j hj), hlen, hne, ?_⟩
  · rw [hQ]
    exact QueryWith_no_panic tbl { c with p := (c.p.List (c.clients.length : Int)).2 } ev ctx
      dnsreq _ hmem hne
  · obtain ⟨new, hnew, hsub⟩ :=
      QueryWith_sublist tbl { c with p := (c.p.List (c.clients.length : Int)).2 } ev ctx dnsreq
        _ (policy_List_nodup c.p c.clients.length)
    rw [← hQ] at hnew
    exact ⟨new, hnew, fun j hj => mem_indices.mp (hmem j (hsub.subset hj))⟩

/-! ## Properties of `findReplacementIPv4` -/

theorem IP_To4_length (ip x : IP) (h : ip.To4 = some x) : x.length = 4 := by
  unfold IP.To4 at h
  split at h
  · rename_i h4
    cases h
    exact h4
  · split at h
    · rename_i h16
      cases h
      rw [List.length_drop, h16.1]
    · cases h

theorem ipv4Only_nil : HostFile.ipv4Only [] := by
  intro key entry h
  simp [GoMap.get] at h

theorem ipv4Only_addHost (data : GoMap String HostEntry) (isIPv6 : Bool) (ip : IP)
    (hostname : String) (h : HostFile.ipv4Only data)
    (hip : isIPv6 = false → ip.To4 ≠ none) :
    HostFile.ipv4Only (HostFile.addHost data isIPv6 ip hostname) := by
  intro key entry hget ip1 hmem
  by_cases hk : key = hostname
  · subst hk
    rw [addHost_get_self] at hget
    have hold : ∀ ip2 ∈ ((data.get key).getD { IPv4 := [], IPv6 := [] }).IPv4,
        ip2.To4 ≠ none := by
      intro ip2 h2
      cases hg : data.get key with
      | none => rw [hg] at h2; simp at h2
      | some e =>
        rw [hg] at h2
        exact h key e hg ip2 h2
    cases isIPv6 with
    | true =>
      simp only [if_true, Option.some.injEq] at hget
      subst hget
      exact hold ip1 hmem
    | false =>
      simp only [Bool.false_eq_true, if_false, Option.some.injEq] at hget
      subst hget
      rcases List.mem_append.mp hmem with h1 | h1
      · exact hold ip1 h1
      · have : ip1 = ip := by simpa using h1
        subst this
        exact hip rfl
  · rw [addHost_get_ne _ _ _ _ _ hk] at hget
    exact h key entry hget ip1 hmem

theorem ipv4Only_hostnames (lower : Char → Char) (isIPv6 : Bool) (ip : IP)
    (hip : isIPv6 = false → ip.To4 ≠ none) (hostnames : List String)
    (data : GoMap String HostEntry) (h : HostFile.ipv4Only data) :
    HostFile.ipv4Only
      (hostnames.foldl
        (fun data hostname => HostFile.addHost data isIPv6 ip (ToLower lower hostname))
        data) := by
  induction hostnames generalizing data with
  | nil => exact h
  | cons a rest ih =>
    simp only [List.foldl_cons]
    exact ih _ (ipv4Only_addHost data isIPv6 ip _ h hip)

theorem ipv4Only_loadLine (lower : Char → Char) (ParseIP : String → Option IP)
    (data : GoMap String HostEntry) (text : String) (h : HostFile.ipv4Only data) :
    HostFile.ipv4Only (HostFile.loadLine lower ParseIP data text) := by
  unfold HostFile.loadLine
  simp only
  split
  · exact h
  · split
    · exact h
    · split
      · exact h
      · split
        · exact h
        · rename_i ip _
          apply ipv4Only_hostnames lower _ ip _ _ data h
          intro hn he
          rw [he] at hn
          cases hn

theorem ipv4Only_lines (lower : Char → Char) (ParseIP : String → Option IP)
    (lines : List String) (data : GoMap String HostEntry) (h : HostFile.ipv4Only data) :
    HostFile.ipv4Only (lines.foldl (HostFile.loadLine lower ParseIP) data) := by
  induction lines generalizing data with
  | nil => exact h
  | cons a rest ih =>
    simp only [List.foldl_cons]
    exact ih _ (ipv4Only_loadLine lower ParseIP data a h)

theorem Load_ipv4Only (lower : Char → Char) (ParseIP : String → Option IP) (hf : HostFile)
    (lines : List String) (scanErr : Option Error) :
    HostFile.ipv4Only (HostFile.Load lower ParseIP hf none lines scanErr).2.data :=
  ipv4Only_lines lower ParseIP lines [] ipv4Only_nil

theorem LookupIPv4_To4 (lower : Char → Char) (hf : HostFile) (domain : String)
    (h : HostFile.ipv4Only hf.data) (ip : IP) (hmem : ip ∈ hf.LookupIPv4 lower domain) :
    ip.To4 ≠ none := by
  unfold HostFile.LookupIPv4 at hmem
  simp only at hmem
  cases hg : hf.data.get (ToLower lower (TrimSuffix domain ".")) with
  | none => rw [hg] at hmem; simp at hmem
  | some e =>
    rw [hg] at hmem
    exact h _ e hg ip hmem

theorem findReplacementIPv4_loop_skip (lower : Char → Char) (Match : String → String → Bool)
    (name : String) (rule : Rule) (rest : List Rule)
    (h : rule.qualifies lower Match name = false) :
    ResponseRewriter.findReplacementIPv4.loop lower Match name (rule :: rest) =
      ResponseRewriter.findReplacementIPv4.loop lower Match name rest := by
  unfold Rule.qualifies Rule.lookupName at h
  rw [ResponseRewriter.findReplacementIPv4.loop]
  cases hm : matchAny lower Match name rule.Patterns with
  | false => simp
  | true =>
    rw [hm] at h
    simp only [Bool.true_and, decide_eq_false_iff_not, Nat.not_lt, Nat.le_zero,
      List.length_eq_zero] at h
    simp only [Bool.not_true, Bool.false_eq_true, if_false]
    rw [h]

theorem findReplacementIPv4_loop_hit (lower : Char → Char) (Match : String → String → Bool)
    (name : String) (rule : Rule) (rest : List Rule)
    (h : rule.qualifies lower Match name = true) :
    ∃ ip tail, rule.HostFile.LookupIPv4 lower (rule.lookupName name) = ip :: tail ∧
      ResponseRewriter.findReplacementIPv4.loop lower Match name (rule :: rest) = ip.To4 := by
  unfold Rule.qualifies at h
  simp only [Bool.and_eq_true, decide_eq_true_eq] at h
  cases hl : rule.HostFile.LookupIPv4 lower (rule.lookupName name) with
  | nil => rw [hl] at h; simp at h
  | cons ip tail =>
    refine ⟨ip, tail, rfl, ?_⟩
    unfold Rule.lookupName at hl
    rw [ResponseRewriter.findReplacementIPv4.loop]
    simp only [h.1, Bool.not_true, Bool.false_eq_true, if_false]
    rw [hl]

theorem findReplacementIPv4_loop_none (lower : Char → Char) (Match : String → String → Bool)
    (name : String) (rules : List Rule)
    (h : ∀ r ∈ rules, r.qualifies lower Match name = false) :
    ResponseRewriter.findReplacementIPv4.loop lower Match name rules = none := by
  induction rules with
  | nil => rfl
  | cons rule rest ih =>
    rw [findReplacementIPv4_loop_skip lower Match name rule rest
      (h rule (List.mem_cons_self _ _))]
    exact ih (fun r hr => h r (List.mem_cons_of_mem _ hr))

theorem findReplacementIPv4_loop_first (lower : Char → Char)
    (Match : String → String → Bool) (name : String) (pre : List Rule) (rule : Rule)
    (post : List Rule) (hpre : ∀ r ∈ pre, r.qualifies lower Match name = false)
    (h : rule.qualifies lower Match name = true) :
    ∃ ip tail, rule.HostFile.LookupIPv4 lower (rule.lookupName name) = ip :: tail ∧
      ResponseRewriter.findReplacementIPv4.loop lower Match name (pre ++ rule :: post) =
        ip.To4 := by
  induction pre with
  | nil => exact findReplacementIPv4_loop_hit lower Match name rule post h
  | cons r pre ih =>
    rw [List.cons_append, findReplacementIPv4_loop_skip lower Match name r _
      (hpre r (List.mem_cons_self _ _))]
    exact ih (fun r1 hr => hpre r1 (List.mem_cons_of_mem _ hr))

/-- C33: with rules whose hosts data was built by `Load`, `findReplacementIPv4(name)`
returns the 4-byte form of the first IPv4 address that the hosts data of the first
qualifying rule lists for its lookup name, where a rule qualifies when its patterns
match `name` and its hosts data has at least one IPv4 address for its lookup name
(`MapTo` when not empty, else `name`); the rules before it, matching or not, are
passed over. The result has 4 bytes. When no rule qualifies the result is nil. -/
theorem findReplacementIPv4_first_qualifying (lower : Char → Char)
    (ParseIP : String → Option IP) (Match : String → String → Bool) (rw : ResponseRewriter)
    (name : String)
    (hload : ∀ rule ∈ rw.rules, ∃ hf lines scanErr,
      rule.HostFile = (HostFile.Load lower ParseIP hf none lines scanErr).2) :
    (∀ pre rule post, rw.rules = pre ++ rule :: post →
        (∀ r ∈ pre, r.qualifies lower Match name = false) →
        rule.qualifies lower Match name = true →
        ∃ ip tail ip4,
          rule.HostFile.LookupIPv4 lower (if rule.MapTo ≠ "" then rule.MapTo else name) =
            ip :: tail ∧
          ip.To4 = some ip4 ∧ ip4.length = 4 ∧
          rw.findReplacementIPv4 lower Match name = some ip4) ∧
      ((∀ r ∈ rw.rules, r.qualifies lower Match name = false) →
        rw.findReplacementIPv4 lower Match name = none) := by
  refine ⟨?_, ?_⟩
  · intro pre rule post hrules hpre hq
    obtain ⟨ip, tail, hl, hres⟩ :=
      findReplacementIPv4_loop_first lower Match name pre rule post hpre hq
    obtain ⟨hf, lines, scanErr, hhf⟩ := hload rule (by rw [hrules]; simp)
    have hinv : HostFile.ipv4Only rule.HostFile.data := by
      rw [hhf]
      exact Load_ipv4Only lower ParseIP hf lines scanErr
    have hto : ip.To4 ≠ none :=
      LookupIPv4_To4 lower rule.HostFile (rule.lookupName name) hinv ip
        (by rw [hl]; exact List.mem_cons_self _ _)
    cases h4 : ip.To4 with
    | none => exact absurd h4 hto
    | some ip4 =>
      refine ⟨ip, tail, ip4, hl, h4, IP_To4_length ip ip4 h4, ?_⟩
      unfold ResponseRewriter.findReplacementIPv4
      rw [hrules, hres, h4]
  · intro hnone
    exact findReplacementIPv4_loop_none lower Match name rw.rules hnone

/-- The lookups of `rewriterSample`: a name under `example.com` gets the address
of the third rule, a name under another domain gets none. -/
theorem findReplacementIPv4_sample :
    rewriterSample.findReplacementIPv4 Char.toLower matchStar "WWW.Example.com." =
        some [10, 0, 0, 1] ∧
      rewriterSample.findReplacementIPv4 Char.toLower matchStar "www.example.net." = none := by
  decide

/-- Witness of C33: in `rewriterSample` the first rule does not match the name,
the second matches it without an address, the third qualifies. -/
theorem findReplacementIPv4_first_qualifying_witness :
    ∃ ip tail ip4,
      hostsSample.LookupIPv4 Char.toLower
          (if ("" : String) ≠ "" then "" else "WWW.Example.com.") = ip :: tail ∧
        ip.To4 = some ip4 ∧ ip4.length = 4 ∧
        rewriterSample.findReplacementIPv4 Char.toLower matchStar "WWW.Example.com." =
          some ip4 :=
  (findReplacementIPv4_first_qualifying Char.toLower parseIPSample matchStar rewriterSample
    "WWW.Example.com."
    (fun rule hmem => by
      have h : rule.HostFile = hostsSample := by
        simp only [rewriterSample, List.mem_cons, List.mem_singleton, List.not_mem_nil,
          or_false] at hmem
        rcases hmem with h | h | h <;> rw [h]
      exact ⟨{ data := [] }, _, none, h⟩)).1
    [{ Patterns := ["*.example.org"], MapTo := "example.com", HostFile := hostsSample },
      { Patterns := ["*.example.com"], MapTo := "missing.example.com",
        HostFile := hostsSample }]
    { Patterns := ["example.com", "*.example.com"], MapTo := "", HostFile := hostsSample } []
    rfl (by decide) (by decide)

end DoH
